import Mathlib

/-!
Verification development for the population-simulation engine of the
Proyecto2 repository (`fallecimientos.py`, `uniones.py`, `nacimientos.py`,
`emocional.py`, `birthday.py`, `kinship.py`).

The Python code is shallowly embedded: person records become a `Persona`
structure, the shared `personas` dict becomes an insertion-ordered
association list, every engine tick becomes a pure state-transformer, and
each call to `random.*` is abstracted by an oracle argument giving the
outcome of the draw.  Python `float` arithmetic on compatibility scores is
embedded as exact rational arithmetic on explicit numerator/denominator
pairs (`Frac`); all divisors appearing in the sources are positive
constants, so no normalisation is needed.  Wall-clock values
(`datetime.now()`) are parameters of the engine configurations.
-/

set_option maxRecDepth 8000

namespace Proyecto2

/-! ## Python string primitives, embedded over `List Char` -/

/-- Whitespace characters recognised by Python `str.strip`. -/
def pyWs (c : Char) : Bool :=
  c = ' ' || c = '\t' || c = '\n' || c = '\r' || c = '\x0b' || c = '\x0c'

/-- Drop leading whitespace from a character list. -/
def dropWs : List Char → List Char
  | [] => []
  | c :: cs => if pyWs c then dropWs cs else c :: cs

/-- Python `str.strip()`: remove leading and trailing whitespace. -/
def pyStrip (s : String) : String :=
  ⟨(dropWs ((dropWs s.data).reverse)).reverse⟩

/-- Python `str.lower()` on one character (ASCII plus the accented
uppercase letters that occur in this code base's data). -/
def pyLowerChar (c : Char) : Char :=
  if 'A' ≤ c ∧ c ≤ 'Z' then Char.ofNat (c.toNat + 32)
  else if c = 'Á' then 'á' else if c = 'É' then 'é' else if c = 'Í' then 'í'
  else if c = 'Ó' then 'ó' else if c = 'Ú' then 'ú' else if c = 'Ñ' then 'ñ'
  else c

/-- Python `str.lower()`. -/
def pyLower (s : String) : String := ⟨s.data.map pyLowerChar⟩

/-- The part of a character list before the first occurrence of `" - "`
(the whole list when the separator does not occur); this is
`text.split(" - ")[0]`. -/
def takeBeforeSep : List Char → List Char
  | ' ' :: '-' :: ' ' :: _ => []
  | c :: cs => c :: takeBeforeSep cs
  | [] => []

/-- `_id_from_combo` of `uniones.py` / `nacimientos.py`:
`str(text).strip().split(" - ")[0].strip()`, with `"" → ""`. -/
def idFromComboU (s : String) : String :=
  if s = "" then "" else pyStrip ⟨takeBeforeSep (pyStrip s).data⟩

/-- `_id_from_combo` of `fallecimientos.py` (no pre-strip):
`str(text).split(" - ")[0].strip()`, with `"" → ""`. -/
def idFromComboD (s : String) : String :=
  if s = "" then "" else pyStrip ⟨takeBeforeSep s.data⟩

/-- `_ced_from_combo` of `kinship.py` (`value.split(" - ", 1)[0].strip()`,
with `"" → ""`); its body coincides with `idFromComboD`. -/
def cedFromCombo (s : String) : String := idFromComboD s

/-- `_idname`: `f"{ced} - {nombre or ''}".strip()`. -/
def idname (ced nombre : String) : String := pyStrip (ced ++ " - " ++ nombre)

/-- Numeric value of a digit list (digits only). -/
def digitsVal (l : List Char) : Nat :=
  l.foldl (fun a c => a * 10 + (c.toNat - '0'.toNat)) 0

/-- Python `int(...)` on a stripped string: optional sign followed by
at least one decimal digit. -/
def parseIntChars : List Char → Option Int
  | [] => none
  | '+' :: ds =>
    if ds ≠ [] ∧ ds.all Char.isDigit then some (digitsVal ds) else none
  | '-' :: ds =>
    if ds ≠ [] ∧ ds.all Char.isDigit then some (-(digitsVal ds : Int)) else none
  | ds => if ds.all Char.isDigit then some ((digitsVal ds : Int)) else none

/-- `_safe_int(x, None)`: `int(str(x).strip())`, `none` on failure. -/
def safeIntOpt (s : String) : Option Int := parseIntChars (pyStrip s).data

/-- `_safe_int(x, default)` with an integer default. -/
def safeIntD (s : String) (d : Int) : Int := (safeIntOpt s).getD d

/-- Does `pat` occur at the head of `s`? -/
def startsList : List Char → List Char → Bool
  | [], _ => true
  | _ :: _, [] => false
  | a :: as, b :: bs => a == b && startsList as bs

/-- Does `pat` occur anywhere in `s` (Python `pat in s`)? -/
def containsSubList (pat : List Char) : List Char → Bool
  | [] => pat.isEmpty
  | c :: rest => startsList pat (c :: rest) || containsSubList pat rest

/-- Python `pat in s` on strings. -/
def containsSub (s pat : String) : Bool := containsSubList pat.data s.data

/-- Python `s.startswith(pre)`. -/
def strStarts (s pre : String) : Bool := startsList pre.data s.data

/-- Python `s.endswith(suf)`. -/
def strEnds (s suf : String) : Bool := startsList suf.data.reverse s.data.reverse

/-- Split a character list on every occurrence of `sep`
(Python `str.split(sep)` for a one-character separator). -/
def splitOnCharAux (sep : Char) : List Char → List Char → List (List Char)
  | [], cur => [cur.reverse]
  | c :: cs, cur =>
    if c = sep then cur.reverse :: splitOnCharAux sep cs []
    else splitOnCharAux sep cs (c :: cur)

/-- Split on a single-character separator. -/
def splitOnChar (sep : Char) (l : List Char) : List (List Char) :=
  splitOnCharAux sep l []

/-! ## Dates (`_parse_date_any`, embedding `datetime.strptime`) -/

/-- A parsed calendar date. -/
structure PyDate where
  year : Int
  month : Nat
  day : Nat
deriving DecidableEq, Repr

/-- Gregorian leap year, as `datetime.date` validates it. -/
def isLeap (y : Int) : Bool := y % 4 = 0 && (y % 100 ≠ 0 || y % 400 = 0)

/-- Days in a month. -/
def daysInMonth (y : Int) (m : Nat) : Nat :=
  if m = 2 then (if isLeap y then 29 else 28)
  else if m = 4 ∨ m = 6 ∨ m = 9 ∨ m = 11 then 30
  else 31

/-- `strptime` `%Y` field: exactly four digits. -/
def matchYear (l : List Char) : Option Int :=
  if l.length = 4 ∧ l.all Char.isDigit then some ((digitsVal l : Int)) else none

/-- `strptime` `%m` field: one or two digits with value 1–12. -/
def matchMonth (l : List Char) : Option Nat :=
  if (l.length = 1 ∨ l.length = 2) ∧ l.all Char.isDigit ∧
      1 ≤ digitsVal l ∧ digitsVal l ≤ 12 then some (digitsVal l) else none

/-- `strptime` `%d` field: one or two digits with value 1–31. -/
def matchDay (l : List Char) : Option Nat :=
  if (l.length = 1 ∨ l.length = 2) ∧ l.all Char.isDigit ∧
      1 ≤ digitsVal l ∧ digitsVal l ≤ 31 then some (digitsVal l) else none

/-- Assemble a validated date (`datetime.date` range checks). -/
def mkPyDate (y : Int) (m d : Nat) : Option PyDate :=
  if 1 ≤ y ∧ d ≤ daysInMonth y m then some ⟨y, m, d⟩ else none

/-- Parse `year sep month sep day`. -/
def fmtYMD (sep : Char) (l : List Char) : Option PyDate :=
  match splitOnChar sep l with
  | [a, b, c] =>
    match matchYear a, matchMonth b, matchDay c with
    | some y, some m, some d => mkPyDate y m d
    | _, _, _ => none
  | _ => none

/-- Parse `day sep month sep year`. -/
def fmtDMY (sep : Char) (l : List Char) : Option PyDate :=
  match splitOnChar sep l with
  | [a, b, c] =>
    match matchDay a, matchMonth b, matchYear c with
    | some d, some m, some y => mkPyDate y m d
    | _, _, _ => none
  | _ => none

/-- `_parse_date_any`: try `%Y-%m-%d`, `%d/%m/%Y`, `%d-%m-%Y`, `%Y/%m/%d`
in that order on the stripped string. -/
def parseDateAny (s : String) : Option PyDate :=
  if s = "" then none
  else
    let t := (pyStrip s).data
    match fmtYMD '-' t with
    | some d => some d
    | none =>
      match fmtDMY '/' t with
      | some d => some d
      | none =>
        match fmtDMY '-' t with
        | some d => some d
        | none => fmtYMD '/' t

/-! ## Exact fractions standing in for Python floats -/

/-- An exact (unnormalised) fraction.  Every denominator produced by the
embedded code is positive. -/
structure Frac where
  num : Int
  den : Nat
deriving DecidableEq, Repr

/-- Build a fraction from a numerator and a (positive) denominator. -/
def mkF (n : Int) (d : Nat) : Frac := ⟨n, d⟩

/-- Embed an integer. -/
def Frac.ofInt (n : Int) : Frac := ⟨n, 1⟩

/-- Comparison by cross multiplication. -/
def Frac.leB (a b : Frac) : Bool :=
  decide (a.num * (b.den : Int) ≤ b.num * (a.den : Int))

/-- Strict comparison by cross multiplication. -/
def Frac.ltB (a b : Frac) : Bool :=
  decide (a.num * (b.den : Int) < b.num * (a.den : Int))

instance : LE Frac := ⟨fun a b => a.leB b = true⟩

instance : LT Frac := ⟨fun a b => a.ltB b = true⟩

instance (a b : Frac) : Decidable (a ≤ b) :=
  inferInstanceAs (Decidable (a.leB b = true))

instance (a b : Frac) : Decidable (a < b) :=
  inferInstanceAs (Decidable (a.ltB b = true))

/-- Addition. -/
def Frac.add (a b : Frac) : Frac := ⟨a.num * b.den + b.num * a.den, a.den * b.den⟩

/-- Subtraction. -/
def Frac.sub (a b : Frac) : Frac := ⟨a.num * b.den - b.num * a.den, a.den * b.den⟩

/-- Multiplication. -/
def Frac.mul (a b : Frac) : Frac := ⟨a.num * b.num, a.den * b.den⟩

/-- Division by a positive natural number. -/
def Frac.divNat (a : Frac) (n : Nat) : Frac := ⟨a.num, a.den * n⟩

/-- Absolute value. -/
def Frac.absF (a : Frac) : Frac := ⟨|a.num|, a.den⟩

/-- Python `min` (value semantics). -/
def Frac.minF (a b : Frac) : Frac := if a.leB b then a else b

/-- Python `max` (value semantics). -/
def Frac.maxF (a b : Frac) : Frac := if a.leB b then b else a

/-- Positivity of the denominator; every fraction the embedded code builds
satisfies it. -/
def Frac.posDen (a : Frac) : Prop := 0 < a.den

theorem Frac.leB_total (a b : Frac) : a.leB b = true ∨ b.leB a = true := by
  simp only [Frac.leB, decide_eq_true_eq]
  omega

theorem Frac.leB_trans {a b c : Frac} (hb : b.posDen)
    (h1 : a.leB b = true) (h2 : b.leB c = true) : a.leB c = true := by
  simp only [Frac.leB, decide_eq_true_eq] at h1 h2 ⊢
  have hbpos : (0 : Int) < (b.den : Int) := by exact_mod_cast hb
  nlinarith [mul_le_mul_of_nonneg_right h1 (Int.ofNat_nonneg c.den),
    mul_le_mul_of_nonneg_right h2 (Int.ofNat_nonneg a.den)]

/-! ## Stable descending insertion sort (Python `list.sort(key=..., reverse=True)`) -/

variable {α : Type}

/-- Stable insertion into a descending-sorted list. -/
def insertByDesc (key : α → Frac) (x : α) : List α → List α
  | [] => [x]
  | y :: ys =>
    if (key y).leB (key x) then x :: y :: ys else y :: insertByDesc key x ys

/-- Stable descending sort by a fractional key. -/
def sortByDesc (key : α → Frac) : List α → List α
  | [] => []
  | x :: xs => insertByDesc key x (sortByDesc key xs)

theorem mem_insertByDesc (key : α → Frac) (x z : α) (l : List α) :
    z ∈ insertByDesc key x l ↔ z = x ∨ z ∈ l := by
  induction l with
  | nil => simp [insertByDesc]
  | cons y ys ih =>
    simp only [insertByDesc]
    split
    · simp
    · simp only [List.mem_cons, ih]
      tauto

theorem mem_sortByDesc (key : α → Frac) (z : α) (l : List α) :
    z ∈ sortByDesc key l ↔ z ∈ l := by
  induction l with
  | nil => simp [sortByDesc]
  | cons x xs ih => simp [sortByDesc, mem_insertByDesc, ih]

theorem sortByDesc_eq_nil (key : α → Frac) (l : List α) :
    sortByDesc key l = [] ↔ l = [] := by
  cases l with
  | nil => simp [sortByDesc]
  | cons x xs =>
    simp only [sortByDesc]
    constructor
    · intro h
      have : x ∈ insertByDesc key x (sortByDesc key xs) := by
        rw [mem_insertByDesc]; left; rfl
      rw [h] at this
      exact absurd this (List.not_mem_nil x)
    · intro h; exact absurd h (List.cons_ne_nil x xs)

theorem sortByDesc_head_max (key : α → Frac) (l : List α) (x : α) (rest : List α)
    (hpos : ∀ z ∈ l, (key z).posDen)
    (h : sortByDesc key l = x :: rest) :
    ∀ z ∈ l, (key z).leB (key x) = true := by
  induction l generalizing x rest with
  | nil => simp [sortByDesc] at h
  | cons a as ih =>
    simp only [sortByDesc] at h
    cases hs : sortByDesc key as with
    | nil =>
      have has : as = [] := (sortByDesc_eq_nil key as).1 hs
      rw [hs] at h
      simp only [insertByDesc] at h
      injection h with hx hrest
      intro z hz
      rw [has] at hz
      simp only [List.mem_cons, List.not_mem_nil, or_false] at hz
      rw [hz, ← hx]
      simp [Frac.leB]
    | cons b bs =>
      rw [hs] at h
      have hbmem : b ∈ as := by
        have hb2 : b ∈ sortByDesc key as := by rw [hs]; exact List.mem_cons_self b bs
        exact (mem_sortByDesc key b as).1 hb2
      have hmax : ∀ z ∈ as, (key z).leB (key b) = true :=
        ih b bs (fun z hz => hpos z (List.mem_cons_of_mem a hz)) hs
      simp only [insertByDesc] at h
      by_cases hc : (key b).leB (key a) = true
      · rw [if_pos hc] at h
        injection h with hx hrest
        intro z hz
        rw [← hx]
        rcases List.mem_cons.1 hz with hza | hz2
        · rw [hza]; simp [Frac.leB]
        · exact Frac.leB_trans (hpos b (List.mem_cons_of_mem a hbmem)) (hmax z hz2) hc
      · rw [if_neg hc] at h
        injection h with hx hrest
        intro z hz
        rw [← hx]
        rcases List.mem_cons.1 hz with hza | hz2
        · rw [hza]
          rcases Frac.leB_total (key a) (key b) with h' | h'
          · exact h'
          · exact absurd h' hc
        · exact hmax z hz2

/-! ## Person records and the shared population store -/

/-- One entry of a person's append-only `_hist` event history. -/
structure HistEntry where
  anio : Int
  tipo : String
  detalle : String
deriving DecidableEq, Repr

/-- A person record (the loosely-typed Python dict, with the fields the
engines read and write; `_years_single`, `salud_emocional`, `_emo_low` and
`_mortality_bias` are kept in their engine-written types). -/
structure Persona where
  cedula : String := ""
  nombre : String := ""
  nac : String := ""
  falle : String := ""
  genero : String := ""
  provincia : String := ""
  estado : String := ""
  avatar : String := ""
  padre : String := ""
  madre : String := ""
  pareja : String := ""
  familia : String := ""
  filiacion : String := ""
  edad : String := ""
  afinidades : String := ""
  intereses : String := ""
  tutor : String := ""
  adoptado : String := ""
  familiasExtra : List String := []
  hist : List HistEntry := []
  yearsSingle : Int := 0
  saludEmocional : Int := 100
  emoLow : Bool := false
  avatarBase : String := ""
  mortalityBias : Frac := ⟨0, 1⟩
deriving DecidableEq, Repr

/-- The shared `personas` dict: an insertion-ordered association list. -/
abbrev PMap := List (String × Persona)

/-- Dict lookup (`personas.get(ced)`). -/
def plookup : PMap → String → Option Persona
  | [], _ => none
  | cp :: rest, ced => if cp.1 = ced then some cp.2 else plookup rest ced

/-- In-place mutation of the record stored under a key. -/
def pupdate : PMap → String → (Persona → Persona) → PMap
  | [], _, _ => []
  | cp :: rest, ced, f =>
    (if cp.1 = ced then (cp.1, f cp.2) else cp) :: pupdate rest ced f

/-- The keys, in iteration order. -/
def pkeys (m : PMap) : List String := m.map (·.1)

theorem plookup_pupdate (m : PMap) (k : String) (f : Persona → Persona) (x : String) :
    plookup (pupdate m k f) x =
      if x = k then (plookup m k).map f else plookup m x := by
  induction m with
  | nil => simp [plookup, pupdate]
  | cons cp rest ih =>
    simp only [pupdate, plookup]
    by_cases h1 : cp.1 = k
    · by_cases h2 : x = k
      · simp [plookup, h1, h2, h1.trans h2.symm]
      · have h3 : cp.1 ≠ x := fun hcx => h2 (hcx ▸ h1)
        have h4 : k ≠ x := fun hkx => h2 hkx.symm
        simp [plookup, h1, h2, h3, h4, ih]
    · by_cases h2 : cp.1 = x
      · have h3 : x ≠ k := fun hxk => h1 (h2.symm ▸ hxk)
        simp [plookup, h1, h2, h3]
      · simp only [if_neg h1]
        simp [plookup, h2, ih]

theorem pkeys_pupdate (m : PMap) (k : String) (f : Persona → Persona) :
    pkeys (pupdate m k f) = pkeys m := by
  induction m with
  | nil => rfl
  | cons cp rest ih =>
    simp only [pkeys, pupdate, List.map_cons] at ih ⊢
    split
    · simpa using ih
    · simpa using ih

/-! ## Liveness predicates (one per engine module, textually identical) -/

/-- Boolean-like strings meaning "dead". -/
def yesTokens : List String := ["si", "sí", "true", "1", "y", "yes"]

/-- Boolean-like strings meaning "not dead". -/
def noTokens : List String := ["no", "false", "0", "n"]

/-- `fallecimientos._is_dead_value(raw, year_now)`. -/
def fIsDeadValue (raw : String) (yearNow : Int) : Bool :=
  let t := pyLower (pyStrip raw)
  if t = "" then false
  else if yesTokens.contains t then true
  else if noTokens.contains t then false
  else
    match parseDateAny t with
    | some d => decide (yearNow ≥ d.year)
    | none => false

/-- `uniones._is_dead(p, year_now)`. -/
def uIsDead (p : Persona) (yearNow : Int) : Bool :=
  let t := pyLower (pyStrip p.falle)
  if t = "" then false
  else if yesTokens.contains t then true
  else if noTokens.contains t then false
  else
    match parseDateAny t with
    | some d => decide (yearNow ≥ d.year)
    | none => false

/-- `nacimientos._is_dead(p, year_now)`. -/
def nIsDead (p : Persona) (yearNow : Int) : Bool :=
  let t := pyLower (pyStrip p.falle)
  if t = "" then false
  else if yesTokens.contains t then true
  else if noTokens.contains t then false
  else
    match parseDateAny t with
    | some d => decide (yearNow ≥ d.year)
    | none => false

/-- `emocional._is_dead(p, year_now)`. -/
def eIsDead (p : Persona) (yearNow : Int) : Bool :=
  let t := pyLower (pyStrip p.falle)
  if t = "" then false
  else if yesTokens.contains t then true
  else if noTokens.contains t then false
  else
    match parseDateAny t with
    | some d => decide (yearNow ≥ d.year)
    | none => false

/-- `birthday._is_dead(p, year_now)`. -/
def bIsDead (p : Persona) (yearNow : Int) : Bool :=
  let t := pyLower (pyStrip p.falle)
  if t = "" then false
  else if yesTokens.contains t then true
  else if noTokens.contains t then false
  else
    match parseDateAny t with
    | some d => decide (yearNow ≥ d.year)
    | none => false

/-! ## Death engine (`fallecimientos.DeathEngine`)

The engine thread, locking, and UI callbacks are outside the embedding;
`get_anio_sim` is not supplied (the engine self-increments its year), and
`_today_real()` (the wall-clock date written into `falle`) is the
configuration field `today`.  Each call to
`random.random() < self._death_prob(edad)` is abstracted by the boolean
oracle `draw`. -/

/-- Death-engine configuration. -/
structure DCfg where
  hardMax : Int := 100
  riskFloor : Int := 80
  maxGapYears : Int := 2
  today : String := ""
deriving DecidableEq, Repr

/-- Death-engine mutable state. -/
structure DState where
  personas : PMap
  anioSim : Int
  lastDeathYear : Option Int
deriving DecidableEq, Repr

/-- Age used by `DeathEngine._tick` / `_pick_oldest_alive`: the `edad`
field when parseable, else `max(0, y - nac.year)`, else `0`. -/
def fComputedAge (p : Persona) (y : Int) : Int :=
  match safeIntOpt p.edad with
  | some e => e
  | none =>
    match parseDateAny p.nac with
    | some d => max 0 (y - d.year)
    | none => 0

/-- `DeathEngine._death_prob`: the age-banded probability table (only
consulted through the random draw, which the oracle abstracts). -/
def deathProb (edad : Int) : Frac :=
  if edad < 50 then mkF 1 1000
  else if edad < 60 then mkF 3 1000
  else if edad < 70 then mkF 15 1000
  else if edad < 80 then mkF 35 1000
  else if edad < 85 then mkF 150 1000
  else if edad < 90 then mkF 300 1000
  else if edad < 95 then mkF 600 1000
  else if edad < 100 then mkF 850 1000
  else mkF 1 1

/-- One accumulation step of `DeathEngine._pick_oldest_alive`:
first-encountered strict maximum of computed age over the living. -/
def oldestStep (y : Int) (acc : Option String × Int) (cp : String × Persona) :
    Option String × Int :=
  if fIsDeadValue cp.2.falle y then acc
  else if fComputedAge cp.2 y > acc.2 then (some cp.1, fComputedAge cp.2 y) else acc

/-- The running strict maximum, starting below every age. -/
def pickOldestAlive (m : PMap) (y : Int) : Option String :=
  (m.foldl (oldestStep y) ((none : Option String), (-1 : Int))).1

/-- `DeathEngine._children_of`: ids whose resolved father or mother
reference equals `parentId`. -/
def childrenOfF (m : PMap) (parentId : String) : List String :=
  (m.filter (fun cp =>
    decide (idFromComboD cp.2.padre = parentId ∨ idFromComboD cp.2.madre = parentId))).map (·.1)

/-- `DeathEngine._siblings_of`: other ids with the same resolved parent
pair. -/
def siblingsOfF (m : PMap) (personId : String) : List String :=
  match plookup m personId with
  | none => []
  | some p =>
    let padre := idFromComboD p.padre
    let madre := idFromComboD p.madre
    (m.filter (fun cp =>
      decide (cp.1 ≠ personId ∧ idFromComboD cp.2.padre = padre ∧
        idFromComboD cp.2.madre = madre))).map (·.1)

/-- `alive_adult` inside `_find_best_tutor`: present, not dead, age ≥ 21. -/
def aliveAdultF (m : PMap) (y : Int) (ced : String) : Bool :=
  match plookup m ced with
  | some p => !(fIsDeadValue p.falle y) && decide (safeIntD p.edad 0 ≥ 21)
  | none => false

/-- `pick_first` inside `_find_best_tutor`. -/
def pickFirstTutor (m : PMap) (y : Int) : List String → Option (String × Persona)
  | [] => none
  | cid :: rest =>
    if cid ≠ "" ∧ aliveAdultF m y cid = true then
      (plookup m cid).map (fun p => (cid, p))
    else pickFirstTutor m y rest

/-- `DeathEngine._find_best_tutor`: grandparents, then parents' siblings,
then the minor's own siblings, then any living adult of the same family.
(The Python code iterates `set(tios)`, whose order is unspecified; the
embedding keeps first-occurrence order, which no theorem below depends
on.) -/
def findBestTutor (m : PMap) (y : Int) (childId : String) : Option (String × Persona) :=
  match plookup m childId with
  | none => none
  | some child =>
    let fam := child.familia
    let padreId := idFromComboD child.padre
    let madreId := idFromComboD child.madre
    let abuelos := [padreId, madreId].foldl
      (fun acc pid =>
        if pid ≠ "" then
          match plookup m pid with
          | some pp => acc ++ [idFromComboD pp.padre, idFromComboD pp.madre]
          | none => acc
        else acc) []
    match pickFirstTutor m y (abuelos.filter (fun x => decide (x ≠ ""))) with
    | some t => some t
    | none =>
      let tios := [padreId, madreId].foldl
        (fun acc pid =>
          if pid ≠ "" then
            match plookup m pid with
            | some _ => acc ++ siblingsOfF m pid
            | none => acc
          else acc) []
      match pickFirstTutor m y
          ((tios.dedup).filter (fun x => decide (x ≠ padreId ∧ x ≠ madreId))) with
      | some t => some t
      | none =>
        match pickFirstTutor m y (siblingsOfF m childId) with
        | some t => some t
        | none =>
          (m.find? (fun cp =>
            decide (cp.1 ≠ childId) && decide (cp.2.familia = fam) &&
              aliveAdultF m y cp.1)).map (fun cp => (cp.1, cp.2))

/-- One iteration of the loop in
`DeathEngine._assign_tutor_to_minors_if_needed` (one minor child). -/
def tutorStep (y : Int) (mm : PMap) (hid : String) : PMap :=
  match plookup mm hid with
  | none => mm
  | some h =>
    if safeIntD h.edad 0 ≥ 18 then mm
    else
      let padreId := idFromComboD h.padre
      let madreId := idFromComboD h.madre
      let parentAlive := fun pid =>
        pid ≠ "" &&
          (match plookup mm pid with
           | some r => !(fIsDeadValue r.falle y)
           | none => false)
      if ([padreId, madreId].any parentAlive) then mm
      else
        match findBestTutor mm y hid with
        | none => mm
        | some (tid, tp) =>
          pupdate mm hid (fun q =>
            { q with tutor := idname tid tp.nombre,
                     adoptado := idname tid tp.nombre,
                     hist := q.hist ++
                       [⟨y, "tutoria", "Tutor legal: " ++ tp.nombre⟩] })

/-- `DeathEngine._assign_tutor_to_minors_if_needed`. -/
def assignTutors (m0 : PMap) (fallecidoId : String) (y : Int) : PMap :=
  (childrenOfF m0 fallecidoId).foldl (tutorStep y) m0

/-- `DeathEngine._mark_death`: set the death date to the wall-clock date
and the terminal status, append history, widow a still-living partner
(clearing only the partner's reference), then reassign guardians. -/
def markDeath (cfg : DCfg) (m : PMap) (ced : String) (y : Int) (motivo : String) : PMap :=
  match plookup m ced with
  | none => m
  | some p =>
    let fecha := cfg.today
    let m1 := pupdate m ced (fun q =>
      { q with falle := fecha, estado := "Fallecido/a",
               hist := q.hist ++
                 [⟨y, "fallecimiento",
                   "Fallece en " ++ fecha ++
                     (if motivo ≠ "" then " (" ++ motivo ++ ")" else "")⟩] })
    let parejaId := idFromComboD p.pareja
    let m2 :=
      if parejaId ≠ "" then
        match plookup m1 parejaId with
        | some sp =>
          if !(fIsDeadValue sp.falle y) then
            pupdate m1 parejaId (fun q =>
              { q with pareja := "", estado := "Viudo/a",
                       hist := q.hist ++
                         [⟨y, "viudez",
                           "Viudez por fallecimiento de " ++ p.nombre⟩] })
          else m1
        | none => m1
      else m1
    assignTutors m2 ced y

/-- One iteration of phase 1 of `DeathEngine._tick` (one snapshot entry):
the hard-ceiling rule and the probabilistic rule. -/
def deathStep (cfg : DCfg) (y : Int) (draw : String → Bool)
    (acc : PMap × List (String × String)) (cp : String × Persona) :
    PMap × List (String × String) :=
  match plookup acc.1 cp.1 with
  | none => acc
  | some p =>
    if fIsDeadValue p.falle y then acc
    else
      if fComputedAge p y ≥ cfg.hardMax then
        (markDeath cfg acc.1 cp.1 y "hard_max", acc.2 ++ [(cp.1, "hard_max")])
      else if draw cp.1 then
        (markDeath cfg acc.1 cp.1 y "prob", acc.2 ++ [(cp.1, "prob")])
      else acc

/-- Phase 1 of `DeathEngine._tick`, iterating over a snapshot of the
store.  Returns the mutated store and the deaths as `(id, cause)` pairs. -/
def deathPhase1 (cfg : DCfg) (y : Int) (draw : String → Bool) (m0 : PMap) :
    PMap × List (String × String) :=
  m0.foldl (deathStep cfg y draw) (m0, [])

/-- `DeathEngine._tick`: advance the year, run phase 1, then the
"at least one death every `maxGapYears` years" guarantee, then update the
last-death-year marker if anything died. -/
def deathTick (cfg : DCfg) (st : DState) (draw : String → Bool) :
    DState × List (String × String) :=
  let y := st.anioSim + 1
  let r1 := deathPhase1 cfg y draw st.personas
  let gapReady :=
    match st.lastDeathYear with
    | none => true
    | some l => decide (y - l ≥ cfg.maxGapYears)
  let r2 :=
    if r1.2.isEmpty && gapReady then
      match pickOldestAlive r1.1 y with
      | some oldest => (markDeath cfg r1.1 oldest y "garantia", r1.2 ++ [(oldest, "garantia")])
      | none => r1
    else r1
  ({ personas := r2.1, anioSim := y,
     lastDeathYear := if r2.2.isEmpty then st.lastDeathYear else some y }, r2.2)

/-- Iterated death-engine ticks with a per-tick oracle. -/
def deathRun (cfg : DCfg) (st : DState) (draws : Nat → String → Bool) : Nat → DState
  | 0 => st
  | n + 1 => (deathTick cfg (deathRun cfg st draws n) (draws n)).1

/-- The deaths produced by tick number `n` (0-based) of a run. -/
def deathEventsAt (cfg : DCfg) (st : DState) (draws : Nat → String → Bool) (n : Nat) :
    List (String × String) :=
  (deathTick cfg (deathRun cfg st draws n) (draws n)).2

/-! ## Unions engine (`uniones.UnionsEngine`)

TXT persistence (`_persist_union_to_txt`) performs file I/O only and does
not touch the store, so it is omitted; `on_event`/`on_change` callbacks
carry no state.  `datetime.now().year`, used by `_compute_compatibility`,
is the configuration field `nowYear`.  Each
`random.random() > self.p_union` draw is abstracted by a boolean oracle
indexed by the order in which draws are consumed (`true` = the draw
succeeds, i.e. `random.random() <= p_union`). -/

/-- `uniones._norm_gender`. -/
def uNormGender (g : String) : Option String :=
  if g = "" then none
  else
    let t := pyLower (pyStrip g)
    if ["m", "masculino", "h", "hombre"].contains t then some "M"
    else if ["f", "femenino", "mujer"].contains t then some "F"
    else if strStarts t "m" || strStarts t "h" then some "M"
    else if strStarts t "f" || strStarts t "muj" then some "F"
    else none

/-- `uniones._age_of` (also `nacimientos._age_of`, identical body):
the `edad` field clamped at 0, else the year difference from `nac`. -/
def uAgeOf (p : Persona) (y : Int) : Option Int :=
  match safeIntOpt p.edad with
  | some e => some (max 0 e)
  | none =>
    match parseDateAny p.nac with
    | some d => some (max 0 (y - d.year))
    | none => none

/-- `uniones._is_single`: no current partner and status not in the married
set. -/
def uIsSingle (p : Persona) : Bool :=
  if pyStrip p.pareja ≠ "" then false
  else
    !(["casado", "casada", "casado/a", "unión libre", "union libre"].contains
      (pyLower (pyStrip p.estado)))

/-- `_list_from_csv` on a string value: split on commas, strip and
lowercase, drop empties. -/
def listFromCsv (val : String) : List String :=
  if val = "" then []
  else ((splitOnChar ',' val.data).map (fun l => pyLower (pyStrip ⟨l⟩))).filter
    (fun x => decide (x ≠ ""))

/-- Size of the intersection of two deduplicated lists viewed as sets. -/
def setInterLen (A B : List String) : Nat := (A.filter (fun x => B.contains x)).length

/-- Size of the union of two deduplicated lists viewed as sets. -/
def setUnionLen (A B : List String) : Nat :=
  (A ++ B.filter (fun x => !(A.contains x))).length

/-- `uniones._compute_compatibility`: interest overlap (with a bonus when
at least two interests are shared), age-proximity bonus, same-province
bonus, clamped to `[0, 1]`. -/
def uComputeCompat (nowYear : Int) (a b : Persona) : Frac :=
  let Al := (listFromCsv (if a.afinidades ≠ "" then a.afinidades else a.intereses)).dedup
  let Bl := (listFromCsv (if b.afinidades ≠ "" then b.afinidades else b.intereses)).dedup
  let aff : Frac :=
    if Al ≠ [] ∨ Bl ≠ [] then
      let inter := setInterLen Al Bl
      let uni := max 1 (setUnionLen Al Bl)
      let base := mkF (inter : Int) uni
      if inter ≥ 2 then Frac.minF (Frac.ofInt 1) (base.add (mkF 1 10)) else base
    else mkF 1 2
  let ea : Int := (uAgeOf a nowYear).getD 0
  let eb : Int := (uAgeOf b nowYear).getD 0
  let ageBonus := ((Frac.ofInt 1).sub
    (Frac.minF (Frac.ofInt 1) ((Frac.ofInt |ea - eb|).divNat 20))).mul (mkF 1 10)
  let provBonus : Frac :=
    if a.provincia ≠ "" ∧ a.provincia = b.provincia then mkF 1 10 else mkF 0 1
  Frac.maxF (mkF 0 1)
    (Frac.minF (Frac.ofInt 1) (((mkF 8 10).mul aff).add (ageBonus.add provBonus)))

/-- `uniones._parents_of`: resolved father and mother ids. -/
def parentsOfU (p : Persona) : String × String :=
  (idFromComboU p.padre, idFromComboU p.madre)

/-- One frontier expansion step of `_build_ancestors`. -/
def ancStep (m : PMap) (acc : List String × List String) (pid : String) :
    List String × List String :=
  match plookup m pid with
  | none => acc
  | some p =>
    [(parentsOfU p).1, (parentsOfU p).2].foldl
      (fun a2 x => if x ≠ "" ∧ x ∉ a2.1 then (a2.1 ++ [x], a2.2 ++ [x]) else a2) acc

/-- Fuelled loop of `_build_ancestors` (breaks on an empty frontier). -/
def buildAncestorsAux (m : PMap) : Nat → List String → List String → List String
  | 0, seen, _ => seen
  | _ + 1, seen, [] => seen
  | d + 1, seen, frontier =>
    let r := frontier.foldl (ancStep m) (seen, [])
    buildAncestorsAux m d r.1 r.2

/-- `uniones._build_ancestors`: ancestor ids up to `depth` generations. -/
def buildAncestors (m : PMap) (startId : String) (depth : Nat) : List String :=
  buildAncestorsAux m depth [] [startId]

/-- `uniones._siblings`: share a father, share a mother, or equal
non-trivial parent pairs. -/
def siblingsB (m : PMap) (aId bId : String) : Bool :=
  let A := (plookup m aId).getD {}
  let B := (plookup m bId).getD {}
  let ap := parentsOfU A
  let bp := parentsOfU B
  decide ((ap.1 ≠ "" ∧ ap.1 = bp.1) ∨ (ap.2 ≠ "" ∧ ap.2 = bp.2) ∨
    (ap = bp ∧ (ap.1 ≠ "" ∨ ap.2 ≠ "")))

/-- `uniones._aunt_uncle_niece_nephew`. -/
def auntUncleB (m : PMap) (aId bId : String) : Bool :=
  let B := (plookup m bId).getD {}
  let bp := [idFromComboU B.padre, idFromComboU B.madre].dedup
  ((bp.filter (fun x => decide (x ≠ ""))).any (fun pid => siblingsB m aId pid)) ||
    (let A := (plookup m aId).getD {}
     let ap := [idFromComboU A.padre, idFromComboU A.madre].dedup
     (ap.filter (fun x => decide (x ≠ ""))).any (fun pid => siblingsB m bId pid))

/-- `uniones._first_cousins`: some parent of each is a sibling of a parent
of the other. -/
def firstCousinsB (m : PMap) (aId bId : String) : Bool :=
  let A := (plookup m aId).getD {}
  let B := (plookup m bId).getD {}
  let ap := [(parentsOfU A).1, (parentsOfU A).2].filter (fun x => decide (x ≠ ""))
  let bp := [(parentsOfU B).1, (parentsOfU B).2].filter (fun x => decide (x ≠ ""))
  ap.any (fun pa => bp.any (fun pb => siblingsB m pa pb))

/-- `uniones._genetically_safe`: rejects parent/child, (half-)siblings,
ancestors within two generations, aunt/uncle–niece/nephew, and first
cousins. -/
def geneticallySafe (m : PMap) (a b : Persona) (aId bId : String) : Bool :=
  let pidA := idFromComboU (if a.cedula ≠ "" then a.cedula else aId)
  let pidB := idFromComboU (if b.cedula ≠ "" then b.cedula else bId)
  if idFromComboU b.padre = pidA ∨ idFromComboU b.madre = pidA then false
  else if idFromComboU a.padre = pidB ∨ idFromComboU a.madre = pidB then false
  else if siblingsB m aId bId then false
  else
    let aAnc := buildAncestors m aId 2
    let bAnc := buildAncestors m bId 2
    if aId ∈ bAnc ∨ bId ∈ aAnc then false
    else if auntUncleB m aId bId then false
    else if firstCousinsB m aId bId then false
    else true

/-- Unions-engine configuration. -/
structure UCfg where
  umbral : Frac := mkF 20 100
  maxUniones : Nat := 5
  minUniones2y : Nat := 1
  nowYear : Int := 2026
deriving DecidableEq, Repr

/-- Unions-engine mutable state. -/
structure UState where
  personas : PMap
  anioSim : Int
  unionsByYear : List (Int × Nat)
deriving DecidableEq, Repr

/-- `self._unions_by_year.get(y, 0)`. -/
def ubyGet : List (Int × Nat) → Int → Nat
  | [], _ => 0
  | e :: rest, y => if e.1 = y then e.2 else ubyGet rest y

/-- `self._unions_by_year[y] = n`. -/
def ubySet (u : List (Int × Nat)) (y : Int) (n : Nat) : List (Int × Nat) :=
  if (u.find? (fun e => e.1 == y)).isSome then
    u.map (fun e => if e.1 = y then (e.1, n) else e)
  else u ++ [(y, n)]

/-- Increment the per-year union counter. -/
def ubyBump (u : List (Int × Nat)) (y : Int) : List (Int × Nat) :=
  ubySet u y (ubyGet u y + 1)

/-- `UnionsEngine._eligible_singles`: alive, age ≥ 18, single, with a
family and a recognised sex. -/
def eligibleSingles (m : PMap) (y : Int) : List String :=
  m.filterMap (fun cp =>
    if uIsDead cp.2 y then none
    else
      match uAgeOf cp.2 y with
      | none => none
      | some age =>
        if age < 18 then none
        else if !(uIsSingle cp.2) then none
        else if pyStrip cp.2.familia = "" then none
        else if (uNormGender cp.2.genero).isNone then none
        else some cp.1)

/-- The inner-loop test of `UnionsEngine._collect_candidates` for the pair
`(aId, bId)`, given `aId`'s record and normalised sex. -/
def pairScore (cfg : UCfg) (m : PMap) (y : Int) (aId : String) (A : Persona)
    (ga : String) (bId : String) : Option (Frac × String × String) :=
  match plookup m bId with
  | none => none
  | some B =>
    match uNormGender B.genero with
    | none => none
    | some gb =>
      if ga = gb then none
      else
        match uAgeOf A y, uAgeOf B y with
        | some ea, some eb =>
          if |ea - eb| > 15 then none
          else if !(geneticallySafe m A B aId bId) then none
          else
            let score := uComputeCompat cfg.nowYear A B
            if cfg.umbral.leB score then some (score, aId, bId) else none
        | _, _ => none

/-- The unsorted double loop of `UnionsEngine._collect_candidates`. -/
def collectCandidatesAux (cfg : UCfg) (m : PMap) (y : Int) :
    List String → List (Frac × String × String)
  | [] => []
  | aId :: rest =>
    (match plookup m aId with
     | none => []
     | some A =>
       match uNormGender A.genero with
       | none => []
       | some ga => rest.filterMap (pairScore cfg m y aId A ga)) ++
      collectCandidatesAux cfg m y rest

/-- `UnionsEngine._collect_candidates`: scored safe pairs, sorted by score
descending. -/
def collectCandidates (cfg : UCfg) (m : PMap) (y : Int) (eligibles : List String) :
    List (Frac × String × String) :=
  sortByDesc (fun t => t.1) (collectCandidatesAux cfg m y eligibles)

/-- `UnionsEngine._make_union`: re-check the annual cap (unless forced)
and genetic safety, then set both partner references and statuses, merge
cross-family visibility, and append history.  Returns whether the union
was committed, together with the new state; an aborted call leaves the
state untouched. -/
def makeUnion (cfg : UCfg) (st : UState) (aId bId : String) (yearNow : Int)
    (forced : Bool) : Bool × UState :=
  if ¬forced ∧ ubyGet st.unionsByYear yearNow ≥ cfg.maxUniones then (false, st)
  else
    match plookup st.personas aId, plookup st.personas bId with
    | some A, some B =>
      if !(geneticallySafe st.personas A B aId bId) then (false, st)
      else
        let flag := if forced then " (forzada)" else ""
        let m1 := pupdate st.personas aId (fun p =>
          { p with pareja := idname bId B.nombre, estado := "Unión libre" })
        let m2 := pupdate m1 bId (fun p =>
          { p with pareja := idname aId A.nombre, estado := "Unión libre" })
        let famA := pyStrip A.familia
        let famB := pyStrip B.familia
        let m3 :=
          if famA ≠ "" ∧ famB ≠ "" ∧ famA ≠ famB then
            pupdate (pupdate m2 aId (fun p =>
              { p with familiasExtra :=
                  if famB ∈ p.familiasExtra then p.familiasExtra
                  else p.familiasExtra ++ [famB] })) bId (fun p =>
              { p with familiasExtra :=
                  if famA ∈ p.familiasExtra then p.familiasExtra
                  else p.familiasExtra ++ [famA] })
          else m2
        let m4 := pupdate m3 aId (fun p =>
          { p with hist := p.hist ++
              [⟨yearNow, "union", "Se une con " ++ bId ++ " - " ++ B.nombre ++ flag⟩] })
        let m5 := pupdate m4 bId (fun p =>
          { p with hist := p.hist ++
              [⟨yearNow, "union", "Se une con " ++ aId ++ " - " ++ A.nombre ++ flag⟩] })
        (true, { st with personas := m5 })
    | _, _ => (false, st)

/-- `UnionsEngine._force_minimum_union`: under the cap, take the best
candidate pair and commit it with `forced=True`, bumping the counter on
success.  Events are `(a, b, forced)` triples. -/
def forceMinimumUnion (cfg : UCfg) (st : UState) (y : Int) :
    UState × List (String × String × Bool) :=
  if ubyGet st.unionsByYear y ≥ cfg.maxUniones then (st, [])
  else
    let eligibles := eligibleSingles st.personas y
    if eligibles = [] then (st, [])
    else
      match collectCandidates cfg st.personas y eligibles with
      | [] => (st, [])
      | best :: _ =>
        let r := makeUnion cfg st best.2.1 best.2.2 y true
        if r.1 then
          ({ r.2 with unionsByYear := ubyBump r.2.unionsByYear y },
            [(best.2.1, best.2.2, true)])
        else (r.2, [])

/-- The best-first probabilistic loop of `UnionsEngine._tick`; `k` counts
the draws consumed so far. -/
def unionLoop (cfg : UCfg) (y : Int) (draws : Nat → Bool) :
    List (Frac × String × String) → UState → List String → Nat →
      List (String × String × Bool) → UState × List (String × String × Bool)
  | [], st, _, _, evs => (st, evs)
  | c :: rest, st, used, k, evs =>
    if ubyGet st.unionsByYear y ≥ cfg.maxUniones then (st, evs)
    else if c.2.1 ∈ used ∨ c.2.2 ∈ used then unionLoop cfg y draws rest st used k evs
    else if !(draws k) then unionLoop cfg y draws rest st used (k + 1) evs
    else
      let r := makeUnion cfg st c.2.1 c.2.2 y false
      if r.1 then
        unionLoop cfg y draws rest
          { r.2 with unionsByYear := ubyBump r.2.unionsByYear y }
          (used ++ [c.2.1, c.2.2]) (k + 1) (evs ++ [(c.2.1, c.2.2, false)])
      else unionLoop cfg y draws rest r.2 used (k + 1) evs

/-- The forced-minimum phase at the top of `UnionsEngine._tick`, together
with its early-exit condition (cap reached right after the forced union). -/
def unionsForcedPhase (cfg : UCfg) (st : UState) (y : Int) :
    UState × List (String × String × Bool) × Bool :=
  if cfg.minUniones2y > 0 ∧ ubyGet st.unionsByYear (y - 1) = 0 ∧
      ubyGet st.unionsByYear (y - 2) = 0 then
    let r := forceMinimumUnion cfg st y
    (r.1, r.2, decide (ubyGet r.1.unionsByYear y ≥ cfg.maxUniones))
  else (st, [], false)

/-- `UnionsEngine._tick`: advance the year, run the forced-minimum rule,
then the probabilistic best-first loop, then the soft rescue that commits
the best candidate when the whole loop produced nothing. -/
def unionsTick (cfg : UCfg) (st0 : UState) (draws : Nat → Bool) :
    UState × List (String × String × Bool) :=
  let y := st0.anioSim + 1
  let st := { st0 with anioSim := y }
  let fp := unionsForcedPhase cfg st y
  let st1 := fp.1
  let ev1 := fp.2.1
  if fp.2.2 then (st1, ev1)
  else if ubyGet st1.unionsByYear y ≥ cfg.maxUniones then (st1, ev1)
  else
    let eligibles := eligibleSingles st1.personas y
    if eligibles = [] then (st1, ev1)
    else
      match collectCandidates cfg st1.personas y eligibles with
      | [] => (st1, ev1)
      | best :: tail =>
        let lr := unionLoop cfg y draws (best :: tail) st1 [] 0 []
        if lr.2 = [] ∧ ubyGet lr.1.unionsByYear y < cfg.maxUniones then
          let r := makeUnion cfg lr.1 best.2.1 best.2.2 y false
          if r.1 then
            ({ r.2 with unionsByYear := ubyBump r.2.unionsByYear y },
              ev1 ++ [(best.2.1, best.2.2, false)])
          else (r.2, ev1)
        else (lr.1, ev1 ++ lr.2)

/-! ## Birth engine (`nacimientos.BirthEngine`)

`_today_real()` is the configuration field `today`; the random choices of
`_create_birth` (sex, name, fresh id, province pick, avatar) are bundled
into a `BirthPick` supplied by an oracle indexed by the birth count of the
tick; the per-couple `random.random() <= p_nacer` draws are a boolean
oracle indexed by the order in which they are consumed.  The constructor
argument `familias` is not modelled (empty), so its `familias[0][0]`
fallback for the baby's family collapses to `""`. -/

/-- `nacimientos._norm_gender` (startswith heuristics only). -/
def nNormGender (g : String) : Option String :=
  if g = "" then none
  else
    let t := pyLower (pyStrip g)
    if strStarts t "m" || strStarts t "h" then some "M"
    else if strStarts t "f" || strStarts t "muj" then some "F"
    else none

/-- `nacimientos._not_close_relatives`: rejects full siblings and half
siblings. -/
def notCloseRelatives (a b : Persona) : Bool :=
  let ap := (idFromComboU a.padre, idFromComboU a.madre)
  let bp := (idFromComboU b.padre, idFromComboU b.madre)
  if ap = bp ∧ (ap.1 ≠ "" ∨ ap.2 ≠ "") then false
  else if (ap.1 ≠ "" ∧ ap.1 = bp.1) ∨ (ap.2 ≠ "" ∧ ap.2 = bp.2) then false
  else true

/-- `nacimientos._compute_compatibility` (no shared-interest bonus; ages
read directly from the `edad` field). -/
def nComputeCompat (a b : Persona) : Frac :=
  let Al := (listFromCsv (if a.afinidades ≠ "" then a.afinidades else a.intereses)).dedup
  let Bl := (listFromCsv (if b.afinidades ≠ "" then b.afinidades else b.intereses)).dedup
  let aff : Frac :=
    if Al ≠ [] ∨ Bl ≠ [] then
      mkF ((setInterLen Al Bl : Int)) (max 1 (setUnionLen Al Bl))
    else mkF 1 2
  let ea : Int := (safeIntOpt a.edad).getD 0
  let eb : Int := (safeIntOpt b.edad).getD 0
  let ageBonus := ((Frac.ofInt 1).sub
    (Frac.minF (Frac.ofInt 1) ((Frac.ofInt |ea - eb|).divNat 20))).mul (mkF 1 10)
  let provBonus : Frac :=
    if a.provincia ≠ "" ∧ a.provincia = b.provincia then mkF 1 10 else mkF 0 1
  Frac.maxF (mkF 0 1)
    (Frac.minF (Frac.ofInt 1) (((mkF 8 10).mul aff).add (ageBonus.add provBonus)))

/-- `nacimientos._compatible_age_gap`. -/
def compatibleAgeGap (a b : Option Int) (maxGap : Int) : Bool :=
  match a, b with
  | some x, some y => decide (|x - y| ≤ maxGap)
  | _, _ => true

/-- Code-point lexicographic `<` on character lists (Python string `<`). -/
def charListLtB : List Char → List Char → Bool
  | [], [] => false
  | [], _ :: _ => true
  | _ :: _, [] => false
  | a :: as, b :: bs => if a < b then true else if b < a then false else charListLtB as bs

/-- Python ordered pair `(a, b) if a < b else (b, a)` (string order is by
code points). -/
def orderPair (a b : String) : String × String :=
  if charListLtB a.data b.data then (a, b) else (b, a)

/-- Birth-engine configuration. -/
structure BCfg where
  minCompat : Frac := mkF 30 100
  maxGapYears : Int := 2
  maxBirthsPerYear : Nat := 3
  cooldownYears : Int := 3
  today : String := ""
deriving DecidableEq, Repr

/-- The random choices consumed by one `_create_birth` call. -/
structure BirthPick where
  babyId : String := "99999990"
  babyMale : Bool := true
  babyName : String := "Mateo"
  provFromPadre : Bool := true
  babyAvatar : String := "bebe1.png"
deriving DecidableEq, Repr

/-- Birth-engine mutable state. -/
structure BState where
  personas : PMap
  anioSim : Int
  lastBirthYear : Option Int
  counterYear : Int
  birthsThisYear : Nat
  coupleLastBaby : List ((String × String) × Int)
deriving DecidableEq, Repr

/-- One accumulating step of `BirthEngine._eligible_couples` (one store
entry): dedup by ordered pair, then the hard checks. -/
def coupleStep (m : PMap) (y : Int)
    (acc : List (String × String) × List (String × String × Frac))
    (cp : String × Persona) :
    List (String × String) × List (String × String × Frac) :=
  if cp.2.pareja = "" then acc
  else
    let mateId := idFromComboU cp.2.pareja
    if mateId = "" then acc
    else
      match plookup m mateId with
      | none => acc
      | some _ =>
        let ab := orderPair cp.1 mateId
        if ab ∈ acc.1 then acc
        else
          let seen2 := acc.1 ++ [ab]
          match plookup m ab.1, plookup m ab.2 with
          | some A, some B =>
            if nIsDead A y ∨ nIsDead B y then (seen2, acc.2)
            else
              match uAgeOf A y, uAgeOf B y with
              | some ea, some eb =>
                if ea > 46 ∨ eb > 46 then (seen2, acc.2)
                else
                  match nNormGender A.genero, nNormGender B.genero with
                  | some ga, some gb =>
                    if ga = gb then (seen2, acc.2)
                    else if !(compatibleAgeGap (some ea) (some eb) 15) then
                      (seen2, acc.2)
                    else if !(notCloseRelatives A B) then (seen2, acc.2)
                    else (seen2, acc.2 ++ [(ab.1, ab.2, nComputeCompat A B)])
                  | _, _ => (seen2, acc.2)
              | _, _ => (seen2, acc.2)
          | _, _ => (seen2, acc.2)

/-- The accumulating pass of `BirthEngine._eligible_couples` (before the
final sort): existing couples, deduplicated, filtered by the hard checks. -/
def eligibleCouplesRaw (m : PMap) (y : Int) : List (String × String × Frac) :=
  (m.foldl (coupleStep m y) ([], [])).2

/-- `BirthEngine._eligible_couples`: the raw pass sorted by score
descending. -/
def eligibleCouples (m : PMap) (y : Int) : List (String × String × Frac) :=
  sortByDesc (fun t => t.2.2) (eligibleCouplesRaw m y)

/-- `BirthEngine._can_couple_have_child`: per-couple cooldown. -/
def canCoupleHaveChild (clb : List ((String × String) × Int)) (cooldown : Int)
    (aId bId : String) (yearNow : Int) : Bool :=
  match clb.find? (fun e => e.1 == orderPair aId bId) with
  | none => true
  | some e => decide (yearNow - e.2 ≥ cooldown)

/-- `BirthEngine._remember_couple_birth`. -/
def rememberCoupleBirth (clb : List ((String × String) × Int)) (aId bId : String)
    (yearNow : Int) : List ((String × String) × Int) :=
  let key := orderPair aId bId
  if (clb.find? (fun e => e.1 == key)).isSome then
    clb.map (fun e => if e.1 = key then (e.1, yearNow) else e)
  else clb ++ [(key, yearNow)]

/-- `BirthEngine._create_birth`: decide father/mother by sex, synthesise
the baby record (empty death date, not partnered, age 0, birth history),
append it to the store and remember the couple's last-birth year.  The
returned event is `(babyId, aId, bId, forced)`. -/
def createBirth (cfg : BCfg) (m : PMap) (clb : List ((String × String) × Int))
    (aId bId : String) (y : Int) (forced : Bool) (pick : BirthPick) :
    PMap × List ((String × String) × Int) × (String × String × String × Bool) :=
  let A := (plookup m aId).getD {}
  let B := (plookup m bId).getD {}
  let ga := nNormGender A.genero
  let gb := nNormGender B.genero
  let pm :=
    if ga = some "F" ∧ gb = some "M" then (bId, aId)
    else if ga = some "M" ∧ gb = some "F" then (aId, bId)
    else (aId, bId)
  let padre := (plookup m pm.1).getD {}
  let madre := (plookup m pm.2).getD {}
  let provincia := if pick.provFromPadre then padre.provincia else madre.provincia
  let familia :=
    if padre.familia ≠ "" then padre.familia
    else if madre.familia ≠ "" then madre.familia else ""
  let bebe : Persona :=
    { familia := familia, cedula := pick.babyId, nombre := pick.babyName,
      nac := cfg.today, falle := "",
      genero := if pick.babyMale then "Masculino" else "Femenino",
      provincia := provincia, estado := "Soltero/a", avatar := pick.babyAvatar,
      padre := idname pm.1 padre.nombre, madre := idname pm.2 madre.nombre,
      pareja := "", filiacion := if pick.babyMale then "Hijo" else "Hija",
      edad := "0",
      hist := [⟨y, "nacimiento",
        "Nace en " ++ cfg.today ++ (if forced then " (forzado)" else "")⟩] }
  (m ++ [(pick.babyId, bebe)], rememberCoupleBirth clb pm.1 pm.2 y,
    (pick.babyId, aId, bId, forced))

/-- Loop state for the normal-birth pass of `BirthEngine._tick`. -/
structure BLoop where
  m : PMap
  clb : List ((String × String) × Int)
  count : Nat
  k : Nat
  jb : Nat
  evs : List (String × String × String × Bool)

/-- The normal-birth pass: per eligible couple above the threshold, draw,
check the cooldown, and create at most `maxBirthsPerYear` babies. -/
def birthLoop (cfg : BCfg) (y : Int) (draws : Nat → Bool) (picks : Nat → BirthPick) :
    List (String × String × Frac) → BLoop → BLoop
  | [], s => s
  | c :: rest, s =>
    if s.count ≥ cfg.maxBirthsPerYear then s
    else if draws s.k ∧ canCoupleHaveChild s.clb cfg.cooldownYears c.1 c.2.1 y = true then
      let r := createBirth cfg s.m s.clb c.1 c.2.1 y false (picks s.jb)
      birthLoop cfg y draws picks rest
        ⟨r.1, r.2.1, s.count + 1, s.k + 1, s.jb + 1, s.evs ++ [r.2.2]⟩
    else birthLoop cfg y draws picks rest
      ⟨s.m, s.clb, s.count, s.k + 1, s.jb, s.evs⟩

/-- The guarantee phase of `BirthEngine._tick`: when the gap since the
last birth has matured and nothing was born this year, force one birth
with the best eligible couple (ignoring cooldown and the compatibility
threshold). -/
def birthGuarantee (cfg : BCfg) (y : Int) (picks : Nat → BirthPick)
    (gapReady : Bool) (couplesAll : List (String × String × Frac)) (s1 : BLoop) :
    BLoop :=
  if gapReady = true ∧ s1.count = 0 ∧ couplesAll ≠ [] then
    match couplesAll with
    | c :: _ =>
      let r := createBirth cfg s1.m s1.clb c.1 c.2.1 y true (picks s1.jb)
      (⟨r.1, r.2.1, s1.count + 1, s1.k, s1.jb + 1, s1.evs ++ [r.2.2]⟩ : BLoop)
    | [] => s1
  else s1

/-- `BirthEngine._tick`: advance the year, reset the annual counter on a
year change, run the normal pass over couples meeting the compatibility
threshold, then the "at least one birth every `maxGapYears` years"
guarantee with the single best couple (ignoring cooldown and threshold),
then update the last-birth-year marker. -/
def birthTick (cfg : BCfg) (st : BState) (draws : Nat → Bool)
    (picks : Nat → BirthPick) : BState × List (String × String × String × Bool) :=
  let y := st.anioSim + 1
  let cy := if y ≠ st.counterYear then y else st.counterYear
  let b0 := if y ≠ st.counterYear then 0 else st.birthsThisYear
  let couplesAll := eligibleCouples st.personas y
  let couplesOk := couplesAll.filter (fun t => cfg.minCompat.leB t.2.2)
  let s1 := birthLoop cfg y draws picks couplesOk
    ⟨st.personas, st.coupleLastBaby, b0, 0, 0, []⟩
  let gapReady :=
    match st.lastBirthYear with
    | none => true
    | some l => decide (y - l ≥ cfg.maxGapYears)
  let s2 := birthGuarantee cfg y picks gapReady couplesAll s1
  ({ personas := s2.m, anioSim := y,
     lastBirthYear := if s2.evs = [] then st.lastBirthYear else some y,
     counterYear := cy, birthsThisYear := s2.count, coupleLastBaby := s2.clb },
    s2.evs)

/-! ## Emotional-health engine (`emocional.EmotionalHealthEngine`)

`datetime.now()`'s month and day (used by `_today_with_year`) are
configuration fields.  The engine uses no randomness. -/

/-- Emotional-engine configuration. -/
structure ECfg where
  yearsThreshold : Int := 5
  baseDecay : Int := 8
  accelDecay : Int := 2
  mortalityThreshold : Int := 5
  mortalityBiasOnLow : Frac := mkF 1 20
  nowMonth : Nat := 10
  nowDay : Nat := 12
deriving DecidableEq, Repr

/-- Emotional-engine mutable state. -/
structure EState where
  personas : PMap
  anioSim : Int
deriving DecidableEq, Repr

/-- Zero-padded two-digit rendering. -/
def pad2 (n : Nat) : String := if n < 10 then "0" ++ toString n else toString n

/-- Zero-padded four-digit rendering. -/
def pad4 (n : Nat) : String :=
  if n < 10 then "000" ++ toString n
  else if n < 100 then "00" ++ toString n
  else if n < 1000 then "0" ++ toString n
  else toString n

/-- `emocional._today_with_year`: simulated year with the wall-clock month
and day. -/
def todayWithYear (cfg : ECfg) (y : Int) : String :=
  pad4 y.toNat ++ "-" ++ pad2 cfg.nowMonth ++ "-" ++ pad2 cfg.nowDay

/-- `emocional._is_single_now`: status contains "soltero"/"soltera" and no
partner. -/
def isSingleNow (p : Persona) : Bool :=
  (containsSub (pyLower (pyStrip p.estado)) "soltero" ||
    containsSub (pyLower (pyStrip p.estado)) "soltera") &&
    decide (pyStrip p.pareja = "")

/-- Index of the first occurrence of `pat` in `l`, if any. -/
def indexOfSubAux (pat : List Char) : List Char → Nat → Option Nat
  | [], i => if pat.isEmpty then some i else none
  | c :: rest, i =>
    if startsList pat (c :: rest) then some i else indexOfSubAux pat rest (i + 1)

/-- Replace the first occurrence of `pat` by `rep`. -/
def replaceFirstList (pat rep : List Char) : List Char → List Char
  | [] => []
  | c :: rest =>
    if startsList pat (c :: rest) then rep ++ (c :: rest).drop pat.length
    else c :: replaceFirstList pat rep rest

/-- `emocional._sadify_avatar`: insert `.SAD` before the extension unless
already sad. -/
def sadifyAvatar (name : String) : String :=
  if name = "" then name
  else
    let lower := pyLower name
    if containsSub lower ".sad." || strEnds lower ".sad" then name
    else if name.data.contains '.' then
      let rev := name.data.reverse
      let ext := rev.takeWhile (fun c => c ≠ '.')
      let base := rev.drop (ext.length + 1)
      ⟨base.reverse ++ ".SAD.".data ++ ext.reverse⟩
    else name ++ ".SAD"

/-- `emocional._unsadify_avatar`: remove the `.SAD` marker. -/
def unsadifyAvatar (name : String) : String :=
  if name = "" then name
  else if containsSub name ".SAD." then
    ⟨replaceFirstList ".SAD.".data ".".data name.data⟩
  else if strEnds name ".SAD" then ⟨name.data.take (name.data.length - 4)⟩
  else
    let low := pyLower name
    if containsSub low ".sad." then
      match indexOfSubAux ".sad.".data low.data 0 with
      | some i => ⟨name.data.take i ++ '.' :: name.data.drop (i + 5)⟩
      | none => name
    else if strEnds low ".sad" then ⟨name.data.take (name.data.length - 4)⟩
    else name

/-- `EmotionalHealthEngine._activate_low_emotion` (events aside): set the
flag, remember and sadden the avatar, cap wellbeing at 70, raise the
mortality bias, append history. -/
def eActivate (cfg : ECfg) (p : Persona) (y : Int) : Persona :=
  let p1 := { p with emoLow := true }
  let p2 := if p1.avatarBase = "" then { p1 with avatarBase := p1.avatar } else p1
  let p3 := if p2.avatar ≠ "" then { p2 with avatar := sadifyAvatar p2.avatar } else p2
  let cur := if p3.saludEmocional = 0 then 100 else p3.saludEmocional
  let p4 := if cur > 70 then { p3 with saludEmocional := 70 } else p3
  let p5 :=
    if p4.mortalityBias.ltB cfg.mortalityBiasOnLow then
      { p4 with mortalityBias := cfg.mortalityBiasOnLow }
    else p4
  { p5 with hist := p5.hist ++
      [⟨y, "salud_baja",
        "Activa estado emocional bajo tras " ++ toString cfg.yearsThreshold ++
          " años de soltería"⟩] }

/-- `EmotionalHealthEngine._kill_due_to_emotion`. -/
def eKill (cfg : ECfg) (p : Persona) (y : Int) : Persona :=
  let fecha := todayWithYear cfg y
  { p with falle := fecha, estado := "Fallecido/a",
           hist := p.hist ++
             [⟨y, "fallecimiento",
               "Fallece por salud emocional (<" ++ toString cfg.mortalityThreshold ++
                 "%) en " ++ fecha⟩] }

/-- `EmotionalHealthEngine._degrade_health_or_die`: accelerating decay,
then death when the score falls below the mortality threshold.  Returns
the new record and whether the person died. -/
def eDegrade (cfg : ECfg) (p : Persona) (y : Int) : Persona × Bool :=
  let over := max 0 (p.yearsSingle - cfg.yearsThreshold)
  let drop := cfg.baseDecay + over * cfg.accelDecay
  let cur := max 0 p.saludEmocional
  let newVal := max 0 (cur - drop)
  let p1 := { p with saludEmocional := newVal }
  if newVal < cfg.mortalityThreshold then (eKill cfg p1 y, true) else (p1, false)

/-- `EmotionalHealthEngine._revert_emotional`. -/
def eRevert (cfg : ECfg) (p : Persona) (y : Int) : Persona :=
  let p1 := { p with emoLow := false }
  let p2 :=
    if p1.avatarBase ≠ "" then { p1 with avatar := unsadifyAvatar p1.avatarBase }
    else p1
  let cur := if p2.saludEmocional = 0 then 60 else p2.saludEmocional
  let p3 := { p2 with saludEmocional := min 100 (cur + 20) }
  let p4 :=
    if (mkF 0 1).ltB p3.mortalityBias then
      { p3 with mortalityBias :=
          Frac.maxF (mkF 0 1) (p3.mortalityBias.sub cfg.mortalityBiasOnLow) }
    else p3
  { p4 with hist := p4.hist ++
      [⟨y, "salud_mejora", "Recupera salud emocional al dejar la soltería"⟩] }

/-- The per-person body of `EmotionalHealthEngine._tick`.  Event markers:
`"activa"` for `_activate_low_emotion`, `"degrada"` for the yearly decay,
`"fallece"` for emotional death, `"mejora"` for `_revert_emotional`. -/
def ePersonStep (cfg : ECfg) (p : Persona) (y : Int) : Persona × List String :=
  if eIsDead p y then (p, [])
  else if isSingleNow p then
    let p1 := { p with yearsSingle := p.yearsSingle + 1 }
    let act := ¬p1.emoLow ∧ p1.yearsSingle ≥ cfg.yearsThreshold
    let p2 := if act then eActivate cfg p1 y else p1
    let evA := if act then ["activa"] else []
    if p2.emoLow then
      let r := eDegrade cfg p2 y
      (r.1, evA ++ ["degrada"] ++ (if r.2 then ["fallece"] else []))
    else (p2, evA)
  else
    let p1 := if p.yearsSingle ≠ 0 then { p with yearsSingle := 0 } else p
    if p1.emoLow then (eRevert cfg p1 y, ["mejora"]) else (p1, [])

/-- One iteration of `EmotionalHealthEngine._tick` (one snapshot entry). -/
def eStep (cfg : ECfg) (y : Int) (acc : PMap × List (String × String))
    (cp : String × Persona) : PMap × List (String × String) :=
  match plookup acc.1 cp.1 with
  | none => acc
  | some p =>
    let s := ePersonStep cfg p y
    (pupdate acc.1 cp.1 (fun _ => s.1), acc.2 ++ s.2.map (fun e => (e, cp.1)))

/-- `EmotionalHealthEngine._tick`: advance the year and process every
person; events are `(marker, id)` pairs. -/
def eTick (cfg : ECfg) (st : EState) : EState × List (String × String) :=
  let y := st.anioSim + 1
  let r := st.personas.foldl (eStep cfg y) (st.personas, [])
  ({ personas := r.1, anioSim := y }, r.2)

/-- Iterated emotional-engine ticks. -/
def eRun (cfg : ECfg) (st : EState) : Nat → EState
  | 0 => st
  | n + 1 => (eTick cfg (eRun cfg st n)).1

/-- The events produced by tick number `n` (0-based) of a run. -/
def eEventsAt (cfg : ECfg) (st : EState) (n : Nat) : List (String × String) :=
  (eTick cfg (eRun cfg st n)).2

/-! ## Kinship resolver (`kinship.Kinship`)

The constructor normalises keys by each record's own resolved `cedula`
(dict-overwrite on collisions); the queries below are stated against the
normalised snapshot.  The `spouse_of` index is initialised empty in
`kinship.py` and never populated, so `get_spouse` constantly returns
`""`. -/

/-- The normalised key of one store entry. -/
def trueCed (ced : String) (p : Persona) : String :=
  if cedFromCombo p.cedula ≠ "" then cedFromCombo p.cedula else ced

/-- Dict insertion with overwrite-in-place semantics. -/
def dinsert (m : PMap) (k : String) (v : Persona) : PMap :=
  if (m.find? (fun e => e.1 == k)).isSome then
    m.map (fun e => if e.1 = k then (e.1, v) else e)
  else m ++ [(k, v)]

/-- The key normalisation of `Kinship.__init__`. -/
def normalizeStore (ps : PMap) : PMap :=
  ps.foldl (fun acc cp => dinsert acc (trueCed cp.1 cp.2) cp.2) []

/-- `Kinship.get_parents`: the resolved `(father, mother)` pair, `("","")`
for unknown ids. -/
def kGetParents (S : PMap) (ced : String) : String × String :=
  match plookup S ced with
  | some p => (cedFromCombo p.padre, cedFromCombo p.madre)
  | none => ("", "")

/-- `Kinship.get_children`: the reverse parent index (children are added
only under non-empty resolved parent ids). -/
def kGetChildren (S : PMap) (ced : String) : List String :=
  (S.filter (fun cp =>
    decide ((cedFromCombo cp.2.padre ≠ "" ∧ cedFromCombo cp.2.padre = ced) ∨
      (cedFromCombo cp.2.madre ≠ "" ∧ cedFromCombo cp.2.madre = ced)))).map (·.1)

/-- `Kinship.get_spouse`: the `spouse_of` index is never populated. -/
def kGetSpouse (_S : PMap) (_ced : String) : String := ""

/-- `Kinship.half_sibs_by_parent`: built identically to the children
index. -/
def kHalfSibsByParent (S : PMap) (pid : String) : List String :=
  (S.filter (fun cp =>
    decide ((cedFromCombo cp.2.padre ≠ "" ∧ cedFromCombo cp.2.padre = pid) ∨
      (cedFromCombo cp.2.madre ≠ "" ∧ cedFromCombo cp.2.madre = pid)))).map (·.1)

/-- `Kinship.full_siblings`: same non-empty parent pair, self excluded. -/
def kFullSiblings (S : PMap) (ced : String) : List String :=
  let pm := kGetParents S ced
  if pm.1 = "" ∨ pm.2 = "" then []
  else
    ((S.filter (fun cp =>
      decide (cedFromCombo cp.2.padre = pm.1 ∧ cedFromCombo cp.2.madre = pm.2 ∧
        cedFromCombo cp.2.padre ≠ "" ∧ cedFromCombo cp.2.madre ≠ ""))).map (·.1)).filter
      (fun c => decide (c ≠ ced))

/-- `Kinship.half_siblings`: candidates through either parent, minus the
full siblings and self. -/
def kHalfSiblings (S : PMap) (ced : String) : List String :=
  let pm := kGetParents S ced
  let cand :=
    (if pm.1 ≠ "" then kHalfSibsByParent S pm.1 else []) ++
      (if pm.2 ≠ "" then kHalfSibsByParent S pm.2 else [])
  let full := kFullSiblings S ced ++ [ced]
  cand.filter (fun c => decide (c ∉ full))

/-- `Kinship.grandparents`. -/
def kGrandparents (S : PMap) (ced : String) : List String :=
  let pm := kGetParents S ced
  (if pm.1 ≠ "" then
    [(kGetParents S pm.1).1, (kGetParents S pm.1).2].filter (fun x => decide (x ≠ ""))
   else []) ++
    (if pm.2 ≠ "" then
      [(kGetParents S pm.2).1, (kGetParents S pm.2).2].filter (fun x => decide (x ≠ ""))
     else [])

/-- `Kinship.grandchildren`. -/
def kGrandchildren (S : PMap) (ced : String) : List String :=
  (kGetChildren S ced).foldl (fun acc h => acc ++ kGetChildren S h) []

/-- `Kinship.uncles_aunts`: the parents' full and half siblings (partners
would be added through `get_spouse`, which is constantly empty), minus the
parents themselves. -/
def kUnclesAunts (S : PMap) (ced : String) (includeInlaws : Bool) : List String :=
  let pm := kGetParents S ced
  let base := [pm.1, pm.2].foldl
    (fun acc parent =>
      if parent = "" then acc
      else
        acc ++
          (kFullSiblings S parent).foldl
            (fun a2 sib =>
              a2 ++ [sib] ++
                (if includeInlaws ∧ kGetSpouse S sib ≠ "" then [kGetSpouse S sib]
                 else [])) [] ++
          (kHalfSiblings S parent).foldl
            (fun a2 hs =>
              a2 ++ [hs] ++
                (if includeInlaws ∧ kGetSpouse S hs ≠ "" then [kGetSpouse S hs]
                 else [])) []) []
  base.filter (fun x => decide (x ≠ pm.1 ∧ x ≠ pm.2))

/-- `Kinship.cousins`: children of the consanguineous uncles/aunts. -/
def kCousins (S : PMap) (ced : String) : List String :=
  (kUnclesAunts S ced false).foldl (fun acc tio => acc ++ kGetChildren S tio) []

/-- `Kinship.nieces_nephews`. -/
def kNiecesNephews (S : PMap) (ced : String) : List String :=
  ((kFullSiblings S ced) ++ (kHalfSiblings S ced)).foldl
    (fun acc sib => acc ++ kGetChildren S sib) []

/-- `Kinship.relation_label`: the ordered cascade of relationship tests. -/
def relationLabel (S : PMap) (a b : String) : String :=
  if a = "" ∨ b = "" then ""
  else if a = b then "Misma persona"
  else
    let pb := kGetParents S b
    if a = pb.1 ∨ a = pb.2 then "Progenitor/a"
    else
      let pa := kGetParents S a
      if b = pa.1 ∨ b = pa.2 then "Hijo/a"
      else if kGetSpouse S a = b ∨ kGetSpouse S b = a then "Cónyuge / Pareja"
      else if b ∈ kFullSiblings S a then "Hermano/a (completo)"
      else if b ∈ kHalfSiblings S a then "Medio hermano/a"
      else if a ∈ kGrandparents S b then "Abuelo/a"
      else if b ∈ kGrandparents S a then "Nieto/a"
      else if a ∈ kUnclesAunts S b true then "Tío/Tía"
      else if b ∈ kUnclesAunts S a true then "Sobrino/a"
      else if a ∈ kCousins S b ∨ b ∈ kCousins S a then "Primo/a"
      else "Parentesco lejano o no determinado"

/-! ## Concrete fixtures used by witnesses and counterexamples -/

/-- A married, living, elderly man. -/
def wVito : Persona :=
  { cedula := "V1", nombre := "Vito", genero := "Masculino", edad := "101",
    pareja := "V2 - Carmela", estado := "Casado", provincia := "SJ" }

/-- His living wife. -/
def wCarmela : Persona :=
  { cedula := "V2", nombre := "Carmela", genero := "Femenino", edad := "72",
    pareja := "V1 - Vito", estado := "Casado", provincia := "SJ" }

/-- A two-person married store. -/
def wCoupleStore : PMap := [("V1", wVito), ("V2", wCarmela)]

/-- Two adult full siblings (same father and mother). -/
def wSib1 : Persona :=
  { cedula := "S1", nombre := "Sira", genero := "Femenino", edad := "30",
    padre := "P1 - Padre", madre := "M1 - Madre", familia := "F1",
    estado := "Soltero/a" }

/-- Second sibling. -/
def wSib2 : Persona :=
  { cedula := "S2", nombre := "Simon", genero := "Masculino", edad := "32",
    padre := "P1 - Padre", madre := "M1 - Madre", familia := "F1",
    estado := "Soltero/a" }

/-- A store of two full siblings. -/
def wSibStore : PMap := [("S1", wSib1), ("S2", wSib2)]

/-- An unrelated single adult woman. -/
def wAna : Persona :=
  { cedula := "A1", nombre := "Ana", genero := "Femenino", edad := "30",
    familia := "FA", estado := "Soltero/a", provincia := "SJ" }

/-- An unrelated single adult man. -/
def wBeto : Persona :=
  { cedula := "B1", nombre := "Beto", genero := "Masculino", edad := "32",
    familia := "FB", estado := "Soltero/a", provincia := "SJ" }

/-- A store of two unrelated eligible singles. -/
def wSinglesStore : PMap := [("A1", wAna), ("B1", wBeto)]

/-- A unions-engine state over the two singles. -/
def wSinglesUState : UState :=
  { personas := wSinglesStore, anioSim := 2026, unionsByYear := [] }

/-- A unions-engine state whose previous year already had a union, so the
forced-minimum phase is skipped. -/
def wC10State : UState :=
  { personas := wSinglesStore, anioSim := 2026, unionsByYear := [(2026, 1)] }

/-- The same state after the tick advanced the year. -/
def wC10State1 : UState :=
  { personas := wSinglesStore, anioSim := 2027, unionsByYear := [(2026, 1)] }

/-- The hard eligibility checks of `BirthEngine._eligible_couples` for a
produced couple entry: both exist and are alive, both aged and at most
46, recognised opposite sexes, age gap at most 15, not close relatives,
and the recorded score is their compatibility. -/
def hardChecksOK (m : PMap) (y : Int) (t : String × String × Frac) : Prop :=
  ∃ A B, plookup m t.1 = some A ∧ plookup m t.2.1 = some B ∧
    nIsDead A y = false ∧ nIsDead B y = false ∧
    (∃ ea eb, uAgeOf A y = some ea ∧ uAgeOf B y = some eb ∧
      ea ≤ 46 ∧ eb ≤ 46 ∧ |ea - eb| ≤ 15) ∧
    (∃ ga gb, nNormGender A.genero = some ga ∧ nNormGender B.genero = some gb ∧
      ga ≠ gb) ∧
    notCloseRelatives A B = true ∧ t.2.2 = nComputeCompat A B

/-- An existing fertile couple (partner references set). -/
def wMadre : Persona :=
  { cedula := "C1", nombre := "Clara", genero := "Femenino", edad := "30",
    pareja := "C2 - Dario", provincia := "SJ" }

/-- The father of the couple. -/
def wPadre : Persona :=
  { cedula := "C2", nombre := "Dario", genero := "Masculino", edad := "32",
    pareja := "C1 - Clara", provincia := "SJ" }

/-- A store with one existing couple. -/
def wCoupleStoreB : PMap := [("C1", wMadre), ("C2", wPadre)]

/-- A birth-engine state over the existing couple whose birth gap has
matured. -/
def wC5State : BState :=
  { personas := wCoupleStoreB, anioSim := 2026, lastBirthYear := some 2020,
    counterYear := 0, birthsThisYear := 0, coupleLastBaby := [] }

/-- A death-engine state whose death gap has matured and whose people are
far below the hard age ceiling. -/
def wC4State : DState :=
  { personas := wSinglesStore, anioSim := 2026, lastDeathYear := some 2020 }

/-- A single woman with everything needed by the emotional engine. -/
def wSola : Persona :=
  { cedula := "E1", nombre := "Sola", estado := "Soltero/a",
    avatar := "ADULTA1.png" }

/-- Partner symmetry exactly as the claim states it: whenever one record's
resolved partner reference equals another record's key, the latter's
resolved partner reference equals the former's key. -/
def partnerSym (m : PMap) : Prop :=
  ∀ a pa b pb, plookup m a = some pa → plookup m b = some pb →
    idFromComboD pa.pareja = b → idFromComboD pb.pareja = a

/-- Partner symmetry restricted to records the engines classify as alive
at year `y` (the source record must be alive). -/
def partnerSymAlive (m : PMap) (y : Int) : Prop :=
  ∀ a pa b pb, plookup m a = some pa → plookup m b = some pb →
    fIsDeadValue pa.falle y = false →
    idFromComboD pa.pareja = b → idFromComboD pb.pareja = a

/-- The store of the C1 counterexample: a symmetric married couple after
the death of one partner. -/
def c1CexStore : PMap :=
  markDeath { today := "2026-10-12" } wCoupleStore "V1" 2030 "prob"

/-- Decidable sufficient condition for `partnerSymAlive` on a concrete
store: every living entry whose partner reference resolves to a present
key is pointed back at. -/
def partnerSymCheck (m : PMap) (y : Int) : Bool :=
  m.all (fun kp =>
    if fIsDeadValue kp.2.falle y then true
    else
      match plookup m (idFromComboD kp.2.pareja) with
      | none => true
      | some pb => decide (idFromComboD pb.pareja = kp.1))

/-! ## General store lemmas -/

theorem mem_of_plookup {m : PMap} {k : String} {q : Persona}
    (h : plookup m k = some q) : (k, q) ∈ m := by
  induction m with
  | nil => simp [plookup] at h
  | cons cp rest ih =>
    simp only [plookup] at h
    by_cases hc : cp.1 = k
    · rw [if_pos hc] at h
      have hcp : cp = (k, q) := by
        cases cp with
        | mk c p =>
          simp only at hc
          injection h with h2
          subst h2
          subst hc
          rfl
      rw [hcp]
      exact List.mem_cons_self _ _
    · rw [if_neg hc] at h
      exact List.mem_cons_of_mem cp (ih h)

/-- A property preserved by every step is preserved by a left fold. -/
theorem foldl_invariant {γ δ : Type} (step : δ → γ → δ) (P : δ → Prop)
    (hstep : ∀ acc e, P acc → P (step acc e)) :
    ∀ (l : List γ) (acc : δ), P acc → P (l.foldl step acc) := by
  intro l
  induction l with
  | nil => intro acc h; exact h
  | cons c cs ih =>
    intro acc h
    simp only [List.foldl_cons]
    exact ih (step acc c) (hstep acc c h)

theorem plookup_of_mem_nodup {m : PMap} {k : String} {q : Persona}
    (hnd : (pkeys m).Nodup) (h : (k, q) ∈ m) : plookup m k = some q := by
  induction m with
  | nil => simp at h
  | cons cp rest ih =>
    simp only [pkeys, List.map_cons, List.nodup_cons] at hnd
    rcases List.mem_cons.1 h with h1 | h1
    · rw [← h1]
      simp [plookup]
    · have hk : cp.1 ≠ k := by
        intro he
        exact hnd.1 (he ▸ (List.mem_map.2 ⟨(k, q), h1, rfl⟩))
      simp only [plookup, if_neg hk]
      exact ih hnd.2 h1

theorem plookup_append_left {m : PMap} {x : String} {q : Persona}
    (h : plookup m x = some q) (l : PMap) : plookup (m ++ l) x = some q := by
  induction m with
  | nil => simp [plookup] at h
  | cons cp rest ih =>
    simp only [plookup, List.cons_append] at h ⊢
    split
    · rwa [if_pos (by assumption)] at h
    · rw [if_neg (by assumption)] at h
      exact ih h

theorem plookup_append_none {m : PMap} {x : String}
    (h : plookup m x = none) (l : PMap) : plookup (m ++ l) x = plookup l x := by
  induction m with
  | nil => simp [plookup]
  | cons cp rest ih =>
    simp only [plookup, List.cons_append] at h ⊢
    split
    · rw [if_pos (by assumption)] at h; exact absurd h (by simp)
    · rw [if_neg (by assumption)] at h; exact ih h

theorem pupdate_map_proj {β : Type} (π : Persona → β) {f : Persona → Persona}
    (hf : ∀ q, π (f q) = π q) (m : PMap) (k x : String) :
    (plookup (pupdate m k f) x).map π = (plookup m x).map π := by
  rw [plookup_pupdate]
  split
  · rename_i hx
    rw [hx]
    cases plookup m k with
    | none => rfl
    | some q => simp [hf]
  · rfl

theorem pupdate_isSome (m : PMap) (k : String) (f : Persona → Persona) (x : String) :
    (plookup (pupdate m k f) x).isSome = (plookup m x).isSome := by
  rw [plookup_pupdate]
  split
  · rename_i hx
    rw [hx]
    cases plookup m k <;> simp
  · rfl

/-- Membership in a left-fold that appends `g t` per element. -/
theorem mem_foldl_append {γ : Type} (g : γ → List String) (l : List γ)
    (acc : List String) (x : String) :
    x ∈ l.foldl (fun a t => a ++ g t) acc ↔ x ∈ acc ∨ ∃ t ∈ l, x ∈ g t := by
  induction l generalizing acc with
  | nil => simp
  | cons c cs ih =>
    simp only [List.foldl_cons, ih, List.mem_append, List.mem_cons]
    constructor
    · rintro (⟨h | h⟩ | ⟨t, ht, hx⟩)
      · exact Or.inl h
      · exact Or.inr ⟨c, Or.inl rfl, h⟩
      · exact Or.inr ⟨t, Or.inr ht, hx⟩
    · rintro (h | ⟨t, ht | ht, hx⟩)
      · exact Or.inl (Or.inl h)
      · exact Or.inl (Or.inr (ht ▸ hx))
      · exact Or.inr ⟨t, ht, hx⟩

/-! ## Field-preservation lemmas for the death engine -/

theorem tutorStep_map_proj {β : Type} (π : Persona → β)
    (hπ : ∀ q t1 t2 hl, π { q with tutor := t1, adoptado := t2, hist := hl } = π q)
    (y : Int) (mm : PMap) (hid : String) (x : String) :
    (plookup (tutorStep y mm hid) x).map π = (plookup mm x).map π := by
  unfold tutorStep
  cases hh : plookup mm hid with
  | none => rfl
  | some h =>
    simp only
    by_cases h18 : safeIntD h.edad 0 ≥ 18
    · rw [if_pos h18]
    · rw [if_neg h18]
      split
      · rfl
      · cases ht : findBestTutor mm y hid with
        | none => rfl
        | some t =>
          cases t with
          | mk tid tp =>
            exact pupdate_map_proj π (fun q => hπ q _ _ _) mm hid x

theorem assignTutors_map_proj {β : Type} (π : Persona → β)
    (hπ : ∀ q t1 t2 hl, π { q with tutor := t1, adoptado := t2, hist := hl } = π q)
    (m : PMap) (f : String) (y : Int) (x : String) :
    (plookup (assignTutors m f y) x).map π = (plookup m x).map π := by
  unfold assignTutors
  exact foldl_invariant (tutorStep y)
    (fun mm => (plookup mm x).map π = (plookup m x).map π)
    (fun mm hid hmm => (tutorStep_map_proj π hπ y mm hid x).trans hmm)
    (childrenOfF m f) m rfl

theorem markDeath_map_falle (cfg : DCfg) (m : PMap) (ced : String) (y : Int)
    (mot : String) (x : String) :
    (plookup (markDeath cfg m ced y mot) x).map (·.falle) =
      if x = ced then (plookup m x).map (fun _ => cfg.today)
      else (plookup m x).map (·.falle) := by
  unfold markDeath
  split
  · rename_i hp
    by_cases hx : x = ced
    · rw [if_pos hx, hx, hp]
      rfl
    · rw [if_neg hx]
  · rename_i p hp
    rw [assignTutors_map_proj (·.falle) (fun q t1 t2 hl => rfl)]
    have hwid : ∀ (mm : PMap),
        (plookup (if idFromComboD p.pareja ≠ "" then
          match plookup mm (idFromComboD p.pareja) with
          | some sp =>
            if !(fIsDeadValue sp.falle y) then
              pupdate mm (idFromComboD p.pareja) (fun q =>
                { q with pareja := "", estado := "Viudo/a",
                         hist := q.hist ++
                           [⟨y, "viudez",
                             "Viudez por fallecimiento de " ++ p.nombre⟩] })
            else mm
          | none => mm
        else mm) x).map (·.falle) = (plookup mm x).map (·.falle) := by
      intro mm
      split
      · split
        · split
          · apply pupdate_map_proj
            intro q
            rfl
          · rfl
        · rfl
      · rfl
    rw [hwid]
    rw [plookup_pupdate]
    split
    · rename_i hx
      rw [hx, hp]
      simp
    · rfl

theorem markDeath_map_proj {β : Type} (π : Persona → β)
    (hπdead : ∀ q fe e hl, π { q with falle := fe, estado := e, hist := hl } = π q)
    (hπwid : ∀ q e hl, π { q with pareja := "", estado := e, hist := hl } = π q)
    (hπtut : ∀ q t1 t2 hl, π { q with tutor := t1, adoptado := t2, hist := hl } = π q)
    (cfg : DCfg) (m : PMap) (ced : String) (y : Int) (mot : String) (x : String) :
    (plookup (markDeath cfg m ced y mot) x).map π = (plookup m x).map π := by
  unfold markDeath
  split
  · rfl
  · rename_i p hp
    rw [assignTutors_map_proj π hπtut]
    have hwid : ∀ (mm : PMap),
        (plookup (if idFromComboD p.pareja ≠ "" then
          match plookup mm (idFromComboD p.pareja) with
          | some sp =>
            if !(fIsDeadValue sp.falle y) then
              pupdate mm (idFromComboD p.pareja) (fun q =>
                { q with pareja := "", estado := "Viudo/a",
                         hist := q.hist ++
                           [⟨y, "viudez",
                             "Viudez por fallecimiento de " ++ p.nombre⟩] })
            else mm
          | none => mm
        else mm) x).map π = (plookup mm x).map π := by
      intro mm
      split
      · split
        · split
          · apply pupdate_map_proj
            intro q
            exact hπwid q _ _
          · rfl
        · rfl
      · rfl
    rw [hwid]
    exact pupdate_map_proj π (fun q => hπdead q _ _ _) m ced x

theorem markDeath_falle_mono {cfg : DCfg} {m : PMap} {ced : String} {y : Int}
    {mot : String} {x : String} {q : Persona} (htoday : cfg.today ≠ "")
    (h : plookup m x = some q) (hq : q.falle ≠ "") :
    ∃ q', plookup (markDeath cfg m ced y mot) x = some q' ∧ q'.falle ≠ "" := by
  have hm := markDeath_map_falle cfg m ced y mot x
  split at hm
  · rw [h] at hm
    simp only [Option.map_some'] at hm
    rcases Option.map_eq_some'.1 hm with ⟨q', hq', hf⟩
    exact ⟨q', hq', by rw [hf]; exact htoday⟩
  · rw [h] at hm
    simp only [Option.map_some'] at hm
    rcases Option.map_eq_some'.1 hm with ⟨q', hq', hf⟩
    exact ⟨q', hq', by rw [hf]; exact hq⟩

theorem deathStep_falle_mono {cfg : DCfg} {y : Int} {draw : String → Bool}
    {x : String} (acc : PMap × List (String × String)) (cp : String × Persona)
    (htoday : cfg.today ≠ "")
    (hacc : ∃ q', plookup acc.1 x = some q' ∧ q'.falle ≠ "") :
    ∃ q', plookup (deathStep cfg y draw acc cp).1 x = some q' ∧ q'.falle ≠ "" := by
  rcases hacc with ⟨q', hl, hf⟩
  unfold deathStep
  cases hpc : plookup acc.1 cp.1 with
  | none => exact ⟨q', hl, hf⟩
  | some p =>
    simp only
    split
    · exact ⟨q', hl, hf⟩
    · split
      · exact markDeath_falle_mono htoday hl hf
      · split
        · exact markDeath_falle_mono htoday hl hf
        · exact ⟨q', hl, hf⟩

theorem deathPhase1_falle_mono {cfg : DCfg} {y : Int} {draw : String → Bool}
    {m0 : PMap} {x : String} {q : Persona} (htoday : cfg.today ≠ "")
    (h : plookup m0 x = some q) (hq : q.falle ≠ "") :
    ∃ q', plookup (deathPhase1 cfg y draw m0).1 x = some q' ∧ q'.falle ≠ "" := by
  unfold deathPhase1
  exact foldl_invariant (deathStep cfg y draw)
    (fun acc => ∃ q', plookup acc.1 x = some q' ∧ q'.falle ≠ "")
    (fun acc cp hacc => deathStep_falle_mono acc cp htoday hacc)
    m0 (m0, []) ⟨q, h, hq⟩

theorem deathTick_falle_mono {cfg : DCfg} {st : DState} {draw : String → Bool}
    {x : String} {q : Persona} (htoday : cfg.today ≠ "")
    (h : plookup st.personas x = some q) (hq : q.falle ≠ "") :
    ∃ q', plookup (deathTick cfg st draw).1.personas x = some q' ∧ q'.falle ≠ "" := by
  unfold deathTick
  rcases @deathPhase1_falle_mono cfg (st.anioSim + 1) draw st.personas x q
      htoday h hq with ⟨q', hl, hf⟩
  simp only
  split
  · split
    · exact markDeath_falle_mono htoday hl hf
    · exact ⟨q', hl, hf⟩
  · exact ⟨q', hl, hf⟩

/-! ## Field-preservation lemmas for the unions engine -/

theorem makeUnion_map_falle (cfg : UCfg) (st : UState) (aId bId : String)
    (y : Int) (forced : Bool) (x : String) :
    (plookup (makeUnion cfg st aId bId y forced).2.personas x).map (·.falle) =
      (plookup st.personas x).map (·.falle) := by
  unfold makeUnion
  split
  · rfl
  · split
    · split
      · rfl
      · simp only
        split <;>
          (simp only [plookup_pupdate]
           split_ifs <;> (try subst_vars) <;> simp only [Option.map_map] <;> rfl)
    · rfl

theorem forceMinimumUnion_map_falle (cfg : UCfg) (st : UState) (y : Int) (x : String) :
    (plookup (forceMinimumUnion cfg st y).1.personas x).map (·.falle) =
      (plookup st.personas x).map (·.falle) := by
  simp only [forceMinimumUnion]
  split
  · rfl
  · split
    · rfl
    · split
      · rfl
      · split
        · exact makeUnion_map_falle cfg st _ _ y true x
        · exact makeUnion_map_falle cfg st _ _ y true x

theorem unionLoop_map_falle (cfg : UCfg) (y : Int) (draws : Nat → Bool)
    (cands : List (Frac × String × String)) (st : UState) (used : List String)
    (k : Nat) (evs : List (String × String × Bool)) (x : String) :
    (plookup (unionLoop cfg y draws cands st used k evs).1.personas x).map (·.falle) =
      (plookup st.personas x).map (·.falle) := by
  induction cands generalizing st used k evs with
  | nil => rfl
  | cons c rest ih =>
    simp only [unionLoop]
    split
    · rfl
    · split
      · exact ih st used k evs
      · split
        · exact ih st used (k + 1) evs
        · split
          · exact (ih _ _ _ _).trans (makeUnion_map_falle cfg st _ _ y false x)
          · exact (ih _ _ _ _).trans (makeUnion_map_falle cfg st _ _ y false x)

theorem unionsForcedPhase_map_falle (cfg : UCfg) (s1 : UState) (y : Int) (x : String) :
    (plookup (unionsForcedPhase cfg s1 y).1.personas x).map (·.falle) =
      (plookup s1.personas x).map (·.falle) := by
  simp only [unionsForcedPhase]
  split
  · exact forceMinimumUnion_map_falle cfg s1 y x
  · rfl

theorem unionsTick_map_falle (cfg : UCfg) (st : UState) (draws : Nat → Bool)
    (x : String) :
    (plookup (unionsTick cfg st draws).1.personas x).map (·.falle) =
      (plookup st.personas x).map (·.falle) := by
  simp only [unionsTick]
  split
  · exact unionsForcedPhase_map_falle cfg _ _ x
  · split
    · exact unionsForcedPhase_map_falle cfg _ _ x
    · split
      · exact unionsForcedPhase_map_falle cfg _ _ x
      · split
        · exact unionsForcedPhase_map_falle cfg _ _ x
        · split
          · split
            · exact (makeUnion_map_falle cfg _ _ _ _ false x).trans
                ((unionLoop_map_falle cfg _ draws _ _ _ _ _ x).trans
                  (unionsForcedPhase_map_falle cfg _ _ x))
            · exact (makeUnion_map_falle cfg _ _ _ _ false x).trans
                ((unionLoop_map_falle cfg _ draws _ _ _ _ _ x).trans
                  (unionsForcedPhase_map_falle cfg _ _ x))
          · exact (unionLoop_map_falle cfg _ draws _ _ _ _ _ x).trans
              (unionsForcedPhase_map_falle cfg _ _ x)

/-! ## Field-preservation lemmas for the birth and emotional engines -/

theorem birthLoop_personas_append (cfg : BCfg) (y : Int) (draws : Nat → Bool)
    (picks : Nat → BirthPick) (cands : List (String × String × Frac)) (s : BLoop) :
    ∃ ext, (birthLoop cfg y draws picks cands s).m = s.m ++ ext := by
  induction cands generalizing s with
  | nil => exact ⟨[], (List.append_nil s.m).symm⟩
  | cons c rest ih =>
    simp only [birthLoop]
    split
    · exact ⟨[], (List.append_nil s.m).symm⟩
    · split
      · have he : ∃ e, (createBirth cfg s.m s.clb c.1 c.2.1 y false (picks s.jb)).1 =
            s.m ++ e := ⟨_, rfl⟩
        rcases he with ⟨e, he⟩
        rcases ih ⟨(createBirth cfg s.m s.clb c.1 c.2.1 y false (picks s.jb)).1,
          (createBirth cfg s.m s.clb c.1 c.2.1 y false (picks s.jb)).2.1,
          s.count + 1, s.k + 1, s.jb + 1,
          s.evs ++ [(createBirth cfg s.m s.clb c.1 c.2.1 y false (picks s.jb)).2.2]⟩ with
          ⟨ext, hext⟩
        refine ⟨e ++ ext, ?_⟩
        rw [← List.append_assoc, ← he]
        exact hext
      · rcases ih ⟨s.m, s.clb, s.count, s.k + 1, s.jb, s.evs⟩ with ⟨ext, hext⟩
        exact ⟨ext, hext⟩

theorem birthGuarantee_append (cfg : BCfg) (y : Int) (picks : Nat → BirthPick)
    (gapReady : Bool) (couplesAll : List (String × String × Frac)) (s1 : BLoop) :
    ∃ ext, (birthGuarantee cfg y picks gapReady couplesAll s1).m = s1.m ++ ext := by
  simp only [birthGuarantee]
  split
  · split
    · exact ⟨_, rfl⟩
    · exact ⟨[], (List.append_nil s1.m).symm⟩
  · exact ⟨[], (List.append_nil s1.m).symm⟩

theorem birthTick_personas_append (cfg : BCfg) (st : BState) (draws : Nat → Bool)
    (picks : Nat → BirthPick) :
    ∃ ext, (birthTick cfg st draws picks).1.personas = st.personas ++ ext := by
  simp only [birthTick]
  obtain ⟨e1, he1⟩ := birthLoop_personas_append cfg (st.anioSim + 1) draws picks
    ((eligibleCouples st.personas (st.anioSim + 1)).filter
      (fun t => cfg.minCompat.leB t.2.2))
    ⟨st.personas, st.coupleLastBaby,
      (if st.anioSim + 1 ≠ st.counterYear then 0 else st.birthsThisYear), 0, 0, []⟩
  obtain ⟨e2, he2⟩ := birthGuarantee_append cfg (st.anioSim + 1) picks
    (match st.lastBirthYear with
     | none => true
     | some l => decide (st.anioSim + 1 - l ≥ cfg.maxGapYears))
    (eligibleCouples st.personas (st.anioSim + 1))
    (birthLoop cfg (st.anioSim + 1) draws picks
      ((eligibleCouples st.personas (st.anioSim + 1)).filter
        (fun t => cfg.minCompat.leB t.2.2))
      ⟨st.personas, st.coupleLastBaby,
        (if st.anioSim + 1 ≠ st.counterYear then 0 else st.birthsThisYear), 0, 0, []⟩)
  exact ⟨e1 ++ e2, by rw [he2, he1, List.append_assoc]⟩

theorem birthTick_plookup_preserved (cfg : BCfg) (st : BState) (draws : Nat → Bool)
    (picks : Nat → BirthPick) (x : String) (q : Persona)
    (h : plookup st.personas x = some q) :
    plookup (birthTick cfg st draws picks).1.personas x = some q := by
  rcases birthTick_personas_append cfg st draws picks with ⟨ext, hext⟩
  rw [hext]
  exact plookup_append_left h ext

theorem todayWithYear_ne_empty (cfg : ECfg) (y : Int) : todayWithYear cfg y ≠ "" := by
  intro h
  have hl := congrArg String.length h
  simp only [todayWithYear, String.length_append] at hl
  have h1 : String.length "-" = 1 := rfl
  have h0 : String.length "" = 0 := rfl
  omega

theorem eKill_falle_ne (cfg : ECfg) (p : Persona) (y : Int) :
    (eKill cfg p y).falle ≠ "" := by
  simp only [eKill]
  exact todayWithYear_ne_empty cfg y

theorem eActivate_falle (cfg : ECfg) (p : Persona) (y : Int) :
    (eActivate cfg p y).falle = p.falle := by
  simp only [eActivate]
  split_ifs <;> rfl

theorem eRevert_falle (cfg : ECfg) (p : Persona) (y : Int) :
    (eRevert cfg p y).falle = p.falle := by
  simp only [eRevert]
  split_ifs <;> rfl

theorem eDegrade_falle_ne (cfg : ECfg) (p : Persona) (y : Int) (h : p.falle ≠ "") :
    (eDegrade cfg p y).1.falle ≠ "" := by
  simp only [eDegrade]
  split
  · exact eKill_falle_ne cfg _ y
  · exact h

theorem ePersonStep_falle_mono (cfg : ECfg) (p : Persona) (y : Int)
    (h : p.falle ≠ "") : (ePersonStep cfg p y).1.falle ≠ "" := by
  simp only [ePersonStep]
  split
  · exact h
  · split
    · split
      · split
        · apply eDegrade_falle_ne
          rw [eActivate_falle]
          exact h
        · rw [eActivate_falle]
          exact h
      · split
        · apply eDegrade_falle_ne
          exact h
        · exact h
    · split
      · split
        · rw [eRevert_falle]
          exact h
        · exact h
      · split
        · rw [eRevert_falle]
          exact h
        · exact h

theorem eStep_falle_mono (cfg : ECfg) (y : Int) {x : String}
    (acc : PMap × List (String × String)) (cp : String × Persona)
    (hacc : ∃ q', plookup acc.1 x = some q' ∧ q'.falle ≠ "") :
    ∃ q', plookup (eStep cfg y acc cp).1 x = some q' ∧ q'.falle ≠ "" := by
  rcases hacc with ⟨q', hl, hf⟩
  unfold eStep
  cases hpc : plookup acc.1 cp.1 with
  | none => exact ⟨q', hl, hf⟩
  | some p =>
    simp only
    rw [plookup_pupdate]
    by_cases hx : x = cp.1
    · rw [if_pos hx, ← hx, hl]
      have hp : p = q' := by
        rw [hx] at hl
        rw [hl] at hpc
        injection hpc with he
        exact he.symm
      exact ⟨_, rfl, by
        rw [hp]
        exact ePersonStep_falle_mono cfg q' y hf⟩
    · rw [if_neg hx]
      exact ⟨q', hl, hf⟩

theorem eTick_falle_mono (cfg : ECfg) (st : EState) (x : String) (q : Persona)
    (h : plookup st.personas x = some q) (hq : q.falle ≠ "") :
    ∃ q', plookup (eTick cfg st).1.personas x = some q' ∧ q'.falle ≠ "" := by
  unfold eTick
  exact foldl_invariant (eStep cfg (st.anioSim + 1))
    (fun acc => ∃ q', plookup acc.1 x = some q' ∧ q'.falle ≠ "")
    (fun acc cp hacc => eStep_falle_mono cfg (st.anioSim + 1) acc cp hacc)
    st.personas (st.personas, []) ⟨q, h, hq⟩

/-! ## Claim C2 -/

/-- C2, counterexample: the death-date field `"no"` is non-empty, yet every
engine's liveness predicate classifies the record as alive, so "a non-empty
death field never classifies the person as alive" is false as stated. -/
theorem c2_counterexample :
    ("no" : String) ≠ "" ∧ fIsDeadValue "no" 2030 = false ∧
      uIsDead { falle := "no" } 2030 = false ∧
      eIsDead { falle := "no" } 2030 = false := by
  decide

/-- C2, amended: all five engine modules share one liveness predicate; a
boolean-like yes-string or a parseable date whose year has been reached is a
dead-signal, while no-like strings, unparseable non-empty strings and
yet-future dates classify as alive; and a non-empty death date is never
cleared by a death, union, birth, or emotional tick (the death engine writes
its configured non-empty wall-clock date). -/
theorem c2_death_date_amended :
    (∀ (p : Persona) (y : Int), uIsDead p y = fIsDeadValue p.falle y) ∧
    (∀ (p : Persona) (y : Int), nIsDead p y = fIsDeadValue p.falle y) ∧
    (∀ (p : Persona) (y : Int), eIsDead p y = fIsDeadValue p.falle y) ∧
    (∀ (p : Persona) (y : Int), bIsDead p y = fIsDeadValue p.falle y) ∧
    (∀ (raw : String) (y : Int), pyLower (pyStrip raw) ∈ yesTokens →
      fIsDeadValue raw y = true) ∧
    (∀ (raw : String) (y : Int), pyLower (pyStrip raw) ∈ noTokens →
      fIsDeadValue raw y = false) ∧
    (∀ (raw : String) (y : Int) (d : PyDate),
      pyLower (pyStrip raw) ∉ yesTokens → pyLower (pyStrip raw) ∉ noTokens →
      parseDateAny (pyLower (pyStrip raw)) = some d →
      (fIsDeadValue raw y = true ↔ d.year ≤ y)) ∧
    (∀ (raw : String) (y : Int),
      pyLower (pyStrip raw) ∉ yesTokens → pyLower (pyStrip raw) ∉ noTokens →
      parseDateAny (pyLower (pyStrip raw)) = none → fIsDeadValue raw y = false) ∧
    (∀ (cfg : DCfg) (st : DState) (draw : String → Bool) (x : String) (q : Persona),
      cfg.today ≠ "" → plookup st.personas x = some q → q.falle ≠ "" →
      ∃ q', plookup (deathTick cfg st draw).1.personas x = some q' ∧ q'.falle ≠ "") ∧
    (∀ (cfg : UCfg) (st : UState) (draws : Nat → Bool) (x : String) (q : Persona),
      plookup st.personas x = some q →
      ∃ q', plookup (unionsTick cfg st draws).1.personas x = some q' ∧
        q'.falle = q.falle) ∧
    (∀ (cfg : BCfg) (st : BState) (draws : Nat → Bool) (picks : Nat → BirthPick)
      (x : String) (q : Persona), plookup st.personas x = some q →
      plookup (birthTick cfg st draws picks).1.personas x = some q) ∧
    (∀ (cfg : ECfg) (st : EState) (x : String) (q : Persona),
      plookup st.personas x = some q → q.falle ≠ "" →
      ∃ q', plookup (eTick cfg st).1.personas x = some q' ∧ q'.falle ≠ "") := by
  refine ⟨fun p y => rfl, fun p y => rfl, fun p y => rfl, fun p y => rfl,
    ?_, ?_, ?_, ?_, ?_, ?_, ?_, ?_⟩
  · intro raw y hmem
    have hne : pyLower (pyStrip raw) ≠ "" := by
      have hall : ∀ s ∈ yesTokens, s ≠ "" := by decide
      exact hall _ hmem
    simp only [fIsDeadValue]
    rw [if_neg hne, if_pos (List.elem_iff.2 hmem)]
  · intro raw y hmem
    have hne : pyLower (pyStrip raw) ≠ "" := by
      have hall : ∀ s ∈ noTokens, s ≠ "" := by decide
      exact hall _ hmem
    have hnyes : ¬(yesTokens.contains (pyLower (pyStrip raw)) = true) := by
      intro hc
      have hdisj : ∀ s ∈ noTokens, s ∉ yesTokens := by decide
      exact hdisj _ hmem (List.elem_iff.1 hc)
    simp only [fIsDeadValue]
    rw [if_neg hne, if_neg hnyes, if_pos (List.elem_iff.2 hmem)]
  · intro raw y d hy hn hp
    have hne : pyLower (pyStrip raw) ≠ "" := by
      intro h0
      rw [h0] at hp
      simp [parseDateAny] at hp
    have hy' : ¬(yesTokens.contains (pyLower (pyStrip raw)) = true) := by
      intro hc; exact hy (List.elem_iff.1 hc)
    have hn' : ¬(noTokens.contains (pyLower (pyStrip raw)) = true) := by
      intro hc; exact hn (List.elem_iff.1 hc)
    simp only [fIsDeadValue]
    rw [if_neg hne, if_neg hy', if_neg hn', hp]
    simp [ge_iff_le]
  · intro raw y hy hn hp
    by_cases hne : pyLower (pyStrip raw) = ""
    · simp only [fIsDeadValue]
      rw [if_pos hne]
    · have hy' : ¬(yesTokens.contains (pyLower (pyStrip raw)) = true) := by
        intro hc; exact hy (List.elem_iff.1 hc)
      have hn' : ¬(noTokens.contains (pyLower (pyStrip raw)) = true) := by
        intro hc; exact hn (List.elem_iff.1 hc)
      simp only [fIsDeadValue]
      rw [if_neg hne, if_neg hy', if_neg hn', hp]
  · intro cfg st draw x q htoday h hq
    exact deathTick_falle_mono htoday h hq
  · intro cfg st draws x q h
    have hm := unionsTick_map_falle cfg st draws x
    rw [h] at hm
    rcases Option.map_eq_some'.1 hm with ⟨q', hq', hf⟩
    exact ⟨q', hq', hf⟩
  · intro cfg st draws picks x q h
    exact birthTick_plookup_preserved cfg st draws picks x q h
  · intro cfg st x q h hq
    exact eTick_falle_mono cfg st x q h hq

/-- C2, witness: the amended statement applied at concrete inputs. -/
theorem c2_death_date_amended_witness :
    (uIsDead { falle := "si" } 2000 = fIsDeadValue "si" 2000) ∧
    fIsDeadValue " Sí " 2030 = true ∧
    fIsDeadValue "False" 2030 = false ∧
    (fIsDeadValue "2020-01-01" 2025 = true ↔ (2020 : Int) ≤ 2025) ∧
    fIsDeadValue "desconocido" 2025 = false ∧
    (∃ q', plookup (deathTick { today := "2026-10-12" }
        ⟨[("V1", { wVito with falle := "2020-01-01" })], 1999, some 1999⟩
        (fun _ => false)).1.personas "V1" = some q' ∧ q'.falle ≠ "") ∧
    (∃ q', plookup (unionsTick { nowYear := 2000 }
        ⟨[("V1", { wVito with falle := "2020-01-01" })], 1999, []⟩
        (fun _ => false)).1.personas "V1" = some q' ∧ q'.falle = "2020-01-01") ∧
    plookup (birthTick { today := "2026-10-12" }
        ⟨[("V1", wVito)], 1999, some 1999, 1999, 0, []⟩ (fun _ => false)
        (fun _ => {})).1.personas "V1" = some wVito ∧
    (∃ q', plookup (eTick {} ⟨[("V1", { wVito with falle := "si" })], 1999⟩).1.personas
        "V1" = some q' ∧ q'.falle ≠ "") := by
  refine ⟨c2_death_date_amended.1 _ 2000,
    c2_death_date_amended.2.2.2.2.1 " Sí " 2030 (by decide),
    c2_death_date_amended.2.2.2.2.2.1 "False" 2030 (by decide),
    (c2_death_date_amended.2.2.2.2.2.2.1 "2020-01-01" 2025 ⟨2020, 1, 1⟩
      (by decide) (by decide) (by decide)),
    c2_death_date_amended.2.2.2.2.2.2.2.1 "desconocido" 2025
      (by decide) (by decide) (by decide),
    c2_death_date_amended.2.2.2.2.2.2.2.2.1 _ _ _ "V1"
      { wVito with falle := "2020-01-01" } (by decide) (by decide) (by decide),
    c2_death_date_amended.2.2.2.2.2.2.2.2.2.1 _ _ _ "V1"
      { wVito with falle := "2020-01-01" } (by decide),
    c2_death_date_amended.2.2.2.2.2.2.2.2.2.2.1 _ _ _ _ "V1" wVito (by decide),
    c2_death_date_amended.2.2.2.2.2.2.2.2.2.2.2 _ _ "V1"
      { wVito with falle := "si" } (by decide) (by decide)⟩

/-! ## Claim C3 -/

/-- If the two ids are related as (half-)siblings, ancestors within two
generations, aunt/uncle–niece/nephew, or first cousins, then
`_genetically_safe` rejects the pair whatever records are passed in. -/
theorem geneticallySafe_false_of_rel (m : PMap) (aId bId : String)
    (hrel : siblingsB m aId bId = true ∨
      aId ∈ buildAncestors m bId 2 ∨ bId ∈ buildAncestors m aId 2 ∨
      auntUncleB m aId bId = true ∨ firstCousinsB m aId bId = true) :
    ∀ (a b : Persona), geneticallySafe m a b aId bId = false := by
  have tail_false : ∀ (c1 c2 : Prop) (inst1 : Decidable c1) (inst2 : Decidable c2),
      (if c1 then false
       else if c2 then false
       else if siblingsB m aId bId = true then false
       else if aId ∈ buildAncestors m bId 2 ∨ bId ∈ buildAncestors m aId 2 then false
       else if auntUncleB m aId bId = true then false
       else if firstCousinsB m aId bId = true then false
       else true) = false := by
    intro c1 c2 inst1 inst2
    split
    · rfl
    · split
      · rfl
      · split
        · rfl
        · rename_i h3
          split
          · rfl
          · rename_i h4
            split
            · rfl
            · rename_i h5
              split
              · rfl
              · rename_i h6
                exfalso
                rcases hrel with h | h | h | h | h
                · exact h3 h
                · exact h4 (Or.inl h)
                · exact h4 (Or.inr h)
                · exact h5 h
                · exact h6 h
  intro a b
  simp only [geneticallySafe]
  exact tail_false _ _ _ _

/-- C3: no union is ever created between related ids.  Every path into
`_make_union` re-checks `_genetically_safe` before touching any record, so
whenever the pair is related — (half-)siblings, an ancestor within two
generations, aunt/uncle–niece/nephew, or first cousins — the call returns
`False` and leaves the whole engine state unchanged, whichever path
(probabilistic, soft-rescue `forced=False`, or forced-minimum `forced=True`)
invoked it. -/
theorem c3_incest_safety (cfg : UCfg) (st : UState) (aId bId : String)
    (y : Int) (forced : Bool)
    (hrel : siblingsB st.personas aId bId = true ∨
      aId ∈ buildAncestors st.personas bId 2 ∨
      bId ∈ buildAncestors st.personas aId 2 ∨
      auntUncleB st.personas aId bId = true ∨
      firstCousinsB st.personas aId bId = true) :
    makeUnion cfg st aId bId y forced = (false, st) := by
  simp only [makeUnion]
  split
  · rfl
  · split
    · split
      · rfl
      · rename_i hsafe
        exfalso
        rw [geneticallySafe_false_of_rel st.personas aId bId hrel] at hsafe
        simp at hsafe
    · rfl

/-- C3, witness: two full siblings; the union attempt aborts and the state
is unchanged on every path. -/
theorem c3_incest_safety_witness :
    makeUnion {} ⟨wSibStore, 2000, []⟩ "S1" "S2" 2000 false =
      (false, ⟨wSibStore, 2000, []⟩) ∧
    makeUnion {} ⟨wSibStore, 2000, []⟩ "S1" "S2" 2000 true =
      (false, ⟨wSibStore, 2000, []⟩) := by
  exact ⟨c3_incest_safety {} ⟨wSibStore, 2000, []⟩ "S1" "S2" 2000 false
      (Or.inl (by decide)),
    c3_incest_safety {} ⟨wSibStore, 2000, []⟩ "S1" "S2" 2000 true
      (Or.inl (by decide))⟩

/-! ## Claim C6 -/

/-- A fold invariant where the step property is only needed for elements
of the folded list. -/
theorem foldl_invariant_mem {γ δ : Type} (step : δ → γ → δ) (P : δ → Prop)
    (l : List γ) (hstep : ∀ acc e, e ∈ l → P acc → P (step acc e)) :
    ∀ (acc : δ), P acc → P (l.foldl step acc) := by
  induction l with
  | nil => intro acc h; exact h
  | cons c cs ih =>
    intro acc h
    simp only [List.foldl_cons]
    exact ih (fun acc e he hp => hstep acc e (List.mem_cons_of_mem c he) hp)
      (step acc c) (hstep acc c (List.mem_cons_self c cs) h)

/-- A successful lookup splits the store at its first hit. -/
theorem plookup_decompose {m : PMap} {k : String} {q : Persona}
    (h : plookup m k = some q) :
    ∃ pre post, m = pre ++ (k, q) :: post ∧ ∀ e ∈ pre, e.1 ≠ k := by
  induction m with
  | nil => simp [plookup] at h
  | cons cp rest ih =>
    simp only [plookup] at h
    by_cases hc : cp.1 = k
    · rw [if_pos hc] at h
      refine ⟨[], rest, ?_, by simp⟩
      cases cp with
      | mk c p =>
        simp only at hc
        injection h with h2
        subst h2
        subst hc
        rfl
    · rw [if_neg hc] at h
      rcases ih h with ⟨pre, post, heq, hpre⟩
      refine ⟨cp :: pre, post, by simp [heq], ?_⟩
      intro e he
      rcases List.mem_cons.1 he with he1 | he1
      · rw [he1]; exact hc
      · exact hpre e he1

/-- Keys appearing after the first hit are distinct from it when the key
list has no duplicates. -/
theorem nodup_post_keys {pre post : PMap} {k : String} {q : Persona}
    (hnd : (pkeys (pre ++ (k, q) :: post)).Nodup) : ∀ e ∈ post, e.1 ≠ k := by
  intro e he hek
  simp only [pkeys, List.map_append, List.map_cons] at hnd
  rcases List.nodup_append.1 hnd with ⟨-, hnd2, -⟩
  rcases List.nodup_cons.1 hnd2 with ⟨hk, -⟩
  exact hk (hek ▸ List.mem_map.2 ⟨e, he, rfl⟩)

/-- `_mark_death` of another id preserves the death date, age and birth
date of `x`. -/
theorem markDeath_other_fields {cfg : DCfg} {m : PMap} {ced : String} {y : Int}
    {mot : String} {x : String} {q : Persona} (hx : x ≠ ced)
    (h : plookup m x = some q) :
    ∃ q', plookup (markDeath cfg m ced y mot) x = some q' ∧
      q'.falle = q.falle ∧ q'.edad = q.edad ∧ q'.nac = q.nac := by
  have hf := markDeath_map_falle cfg m ced y mot x
  rw [if_neg hx, h] at hf
  have hen := markDeath_map_proj (fun r => (r.edad, r.nac))
    (fun r fe e hl => rfl) (fun r e hl => rfl) (fun r t1 t2 hl => rfl)
    cfg m ced y mot x
  rw [h] at hen
  rcases Option.map_eq_some'.1 hf with ⟨q', hq', hfe⟩
  rw [hq'] at hen
  simp only [Option.map_some'] at hen
  injection hen with hen2
  refine ⟨q', hq', hfe, ?_, ?_⟩
  · exact congrArg Prod.fst hen2
  · exact congrArg Prod.snd hen2

/-- `_mark_death` of `x` itself sets the death date to the wall-clock
date. -/
theorem markDeath_self_falle {cfg : DCfg} {m : PMap} {ced : String} {y : Int}
    {mot : String} {q : Persona} (h : plookup m ced = some q) :
    ∃ q', plookup (markDeath cfg m ced y mot) ced = some q' ∧
      q'.falle = cfg.today := by
  have hf := markDeath_map_falle cfg m ced y mot ced
  rw [if_pos rfl, h] at hf
  simp only [Option.map_some'] at hf
  rcases Option.map_eq_some'.1 hf with ⟨q', hq', hfe⟩
  exact ⟨q', hq', hfe⟩

/-- The computed age depends only on the `edad` and `nac` fields. -/
theorem fComputedAge_congr {p q : Persona} (he : p.edad = q.edad)
    (hn : p.nac = q.nac) (y : Int) : fComputedAge p y = fComputedAge q y := by
  simp only [fComputedAge, he, hn]

/-- One death-engine phase-1 step only appends to the event list. -/
theorem deathStep_events_mono {cfg : DCfg} {y : Int} {draw : String → Bool}
    (acc : PMap × List (String × String)) (cp : String × Persona) {e : String × String}
    (he : e ∈ acc.2) : e ∈ (deathStep cfg y draw acc cp).2 := by
  unfold deathStep
  split
  · exact he
  · split
    · exact he
    · split
      · exact List.mem_append_left _ he
      · split
        · exact List.mem_append_left _ he
        · exact he

/-- C6: a living person whose computed age is at least the hard ceiling is
marked dead with cause `hard_max` by a single death-engine tick, whatever
the probabilistic draws do: the tick's event list records
`(ced, "hard_max")` and the record's death date becomes the engine's
wall-clock date. -/
theorem c6_hard_max (cfg : DCfg) (st : DState) (draw : String → Bool)
    (ced : String) (p : Persona) (hnd : (pkeys st.personas).Nodup)
    (hp : plookup st.personas ced = some p)
    (halive : fIsDeadValue p.falle (st.anioSim + 1) = false)
    (hage : fComputedAge p (st.anioSim + 1) ≥ cfg.hardMax) :
    (ced, "hard_max") ∈ (deathTick cfg st draw).2 ∧
      ∃ q, plookup (deathTick cfg st draw).1.personas ced = some q ∧
        q.falle = cfg.today := by
  set y := st.anioSim + 1 with hy
  rcases plookup_decompose hp with ⟨pre, post, heq, hpre⟩
  have hpost : ∀ e ∈ post, e.1 ≠ ced := nodup_post_keys (heq ▸ hnd)
  have hA : ∃ q', plookup (deathPhase1 cfg y draw st.personas).1 ced = some q' ∧
      q'.falle = cfg.today ∧
      (ced, "hard_max") ∈ (deathPhase1 cfg y draw st.personas).2 := by
    unfold deathPhase1
    rw [heq, List.foldl_append, List.foldl_cons, ← heq]
    have hinv1 : ∃ q', plookup ((pre.foldl (deathStep cfg y draw)
        (st.personas, [])).1) ced = some q' ∧ q'.falle = p.falle ∧
        q'.edad = p.edad ∧ q'.nac = p.nac := by
      refine foldl_invariant_mem (deathStep cfg y draw)
        (fun acc => ∃ q', plookup acc.1 ced = some q' ∧ q'.falle = p.falle ∧
          q'.edad = p.edad ∧ q'.nac = p.nac) pre ?_ (st.personas, [])
        ⟨p, hp, rfl, rfl, rfl⟩
      intro acc e he hq
      rcases hq with ⟨q', hl, h1, h2, h3⟩
      unfold deathStep
      split
      · exact ⟨q', hl, h1, h2, h3⟩
      · split
        · exact ⟨q', hl, h1, h2, h3⟩
        · split
          · rcases markDeath_other_fields (hpre e he).symm hl with ⟨q2, hl2, g1, g2, g3⟩
            exact ⟨q2, hl2, g1.trans h1, g2.trans h2, g3.trans h3⟩
          · split
            · rcases markDeath_other_fields (hpre e he).symm hl with ⟨q2, hl2, g1, g2, g3⟩
              exact ⟨q2, hl2, g1.trans h1, g2.trans h2, g3.trans h3⟩
            · exact ⟨q', hl, h1, h2, h3⟩
    rcases hinv1 with ⟨q', hl, h1, h2, h3⟩
    have hstep : deathStep cfg y draw (pre.foldl (deathStep cfg y draw)
        (st.personas, [])) (ced, p) =
        (markDeath cfg (pre.foldl (deathStep cfg y draw) (st.personas, [])).1
          ced y "hard_max",
         (pre.foldl (deathStep cfg y draw) (st.personas, [])).2 ++
           [(ced, "hard_max")]) := by
      simp only [deathStep, hl]
      rw [if_neg (by rw [h1, halive]; simp),
        if_pos (by rw [fComputedAge_congr h2 h3 y]; exact hage)]
    rw [hstep]
    refine foldl_invariant_mem (deathStep cfg y draw)
      (fun acc => ∃ q2, plookup acc.1 ced = some q2 ∧ q2.falle = cfg.today ∧
        (ced, "hard_max") ∈ acc.2) post ?_ _ ?_
    · intro acc e he hq
      rcases hq with ⟨q2, hl2, hfe, hev⟩
      unfold deathStep
      split
      · exact ⟨q2, hl2, hfe, hev⟩
      · split
        · exact ⟨q2, hl2, hfe, hev⟩
        · split
          · rcases markDeath_other_fields (hpost e he).symm hl2 with ⟨q3, hl3, g1, g2, g3⟩
            exact ⟨q3, hl3, g1.trans hfe, List.mem_append_left _ hev⟩
          · split
            · rcases markDeath_other_fields (hpost e he).symm hl2 with ⟨q3, hl3, g1, g2, g3⟩
              exact ⟨q3, hl3, g1.trans hfe, List.mem_append_left _ hev⟩
            · exact ⟨q2, hl2, hfe, hev⟩
    · rcases markDeath_self_falle hl with ⟨q2, hl2, hfe⟩
      exact ⟨q2, hl2, hfe, List.mem_append_right _ (List.mem_cons_self _ _)⟩
  rcases hA with ⟨q', hl, hfe, hev⟩
  have hne : ¬((deathPhase1 cfg y draw st.personas).2.isEmpty = true) := by
    intro h0
    rw [List.isEmpty_iff] at h0
    rw [h0] at hev
    exact absurd hev (List.not_mem_nil _)
  constructor
  · simp only [deathTick]
    rw [if_neg (by simp only [Bool.and_eq_true]; intro hcon; exact hne hcon.1)]
    exact hev
  · simp only [deathTick]
    rw [if_neg (by simp only [Bool.and_eq_true]; intro hcon; exact hne hcon.1)]
    exact ⟨q', hl, hfe⟩

/-- C6, witness: a living 101-year-old is marked `hard_max` in one tick
even though every probabilistic draw fails. -/
theorem c6_hard_max_witness :
    ("V1", "hard_max") ∈ (deathTick { today := "2026-10-12" }
        ⟨wCoupleStore, 1999, some 1999⟩ (fun _ => false)).2 ∧
      ∃ q, plookup (deathTick { today := "2026-10-12" }
          ⟨wCoupleStore, 1999, some 1999⟩ (fun _ => false)).1.personas "V1" =
            some q ∧ q.falle = "2026-10-12" := by
  exact c6_hard_max { today := "2026-10-12" } ⟨wCoupleStore, 1999, some 1999⟩
    (fun _ => false) "V1" wVito (by decide) (by decide) (by decide) (by decide)

/-! ## Claim C1 -/

/-- Partner symmetry among the living only depends on the
`(falle, pareja)` view of the store. -/
theorem partnerSymAlive_of_proj_eq {m m' : PMap} {y : Int}
    (h : ∀ z, (plookup m' z).map (fun q => (q.falle, q.pareja)) =
      (plookup m z).map (fun q => (q.falle, q.pareja)))
    (hsym : partnerSymAlive m y) : partnerSymAlive m' y := by
  intro x px c pc hx hc halx hres
  have hhx := h x
  rw [hx] at hhx
  simp only [Option.map_some'] at hhx
  rcases Option.map_eq_some'.1 hhx.symm with ⟨px0, hx0, hp0⟩
  have hpf : px0.falle = px.falle := congrArg Prod.fst hp0
  have hpp : px0.pareja = px.pareja := congrArg Prod.snd hp0
  have hhc := h c
  rw [hc] at hhc
  simp only [Option.map_some'] at hhc
  rcases Option.map_eq_some'.1 hhc.symm with ⟨pc0, hc0, hq0⟩
  have hqp : pc0.pareja = pc.pareja := congrArg Prod.snd hq0
  rw [← hqp]
  exact hsym x px0 c pc0 hx0 hc0 (by rw [hpf]; exact halx) (by rw [hpp]; exact hres)

/-- The decidable check is sufficient for the living-partner symmetry
invariant. -/
theorem partnerSymAlive_of_check {m : PMap} {y : Int}
    (h : partnerSymCheck m y = true) : partnerSymAlive m y := by
  intro a pa b pb ha hb hal hres
  have h2 := List.all_eq_true.1 h (a, pa) (mem_of_plookup ha)
  have h3 : (if fIsDeadValue pa.falle y then true
      else match plookup m (idFromComboD pa.pareja) with
        | none => true
        | some pb2 => decide (idFromComboD pb2.pareja = a)) = true := h2
  rw [hal] at h3
  simp only [Bool.false_eq_true, if_false] at h3
  rw [hres, hb] at h3
  exact of_decide_eq_true h3

/-- Guardian reassignment never touches death dates or partner
references, so it preserves living-partner symmetry. -/
theorem assignTutors_partnerSymAlive {m : PMap} {f : String} {y yq : Int}
    (h : partnerSymAlive m yq) : partnerSymAlive (assignTutors m f y) yq :=
  partnerSymAlive_of_proj_eq
    (fun z => assignTutors_map_proj (fun q => (q.falle, q.pareja))
      (fun _ _ _ _ => rfl) m f y z) h

/-- Updating one record to a dead state without touching its partner
reference preserves living-partner symmetry. -/
theorem partnerSymAlive_pupdate_dead {m : PMap} {ced : String} {y : Int}
    {f : Persona → Persona}
    (hfal : ∀ q, fIsDeadValue (f q).falle y = true)
    (hpars : ∀ q, (f q).pareja = q.pareja)
    (hsym : partnerSymAlive m y) :
    partnerSymAlive (pupdate m ced f) y := by
  intro x px c pc hx hc halx hres
  rw [plookup_pupdate] at hx hc
  by_cases hxc : x = ced
  · rw [if_pos hxc] at hx
    rcases Option.map_eq_some'.1 hx with ⟨q0, hq0, hq0e⟩
    exfalso
    rw [← hq0e, hfal q0] at halx
    cases halx
  · rw [if_neg hxc] at hx
    by_cases hcc : c = ced
    · rw [if_pos hcc] at hc
      rcases Option.map_eq_some'.1 hc with ⟨q0, hq0, hq0e⟩
      rw [← hq0e, hpars q0]
      exact hsym x px c q0 hx (by rw [hcc]; exact hq0) halx hres
    · rw [if_neg hcc] at hc
      exact hsym x px c pc hx hc halx hres

/-- C1, counterexample: after `DeathEngine._mark_death` the deceased
record keeps a partner reference that resolves to the surviving spouse,
while the widowhood handling clears only the survivor's reference — so
the unrestricted partner-symmetry property of the claim fails after a
death mutation. -/
theorem c1_counterexample : ¬ partnerSym c1CexStore := by
  intro h
  have h2 := h "V1" ((plookup c1CexStore "V1").get (by decide))
    "V2" ((plookup c1CexStore "V2").get (by decide))
    (Option.some_get (by decide)).symm (Option.some_get (by decide)).symm
    (by decide)
  exact absurd h2 (by decide)

/-- C1, amended: partner symmetry restricted to living records is
preserved.  `_make_union` preserves it whenever it pairs two distinct
currently-partnerless ids whose `"id - name"` labels resolve back to the
ids; `_mark_death` preserves it whenever the marked person was alive
before and the wall-clock date written into the record is recognised as
a dead-signal at the current simulated year (the deceased's dangling
reference then falls outside the living-record invariant, and the
widowhood branch clears only the survivor's reference). -/
theorem c1_partner_symmetry_amended :
    (∀ (cfg : UCfg) (st : UState) (aId bId : String) (y yq : Int) (forced : Bool)
      (pa pb : Persona),
      partnerSymAlive st.personas yq →
      plookup st.personas "" = none →
      aId ≠ bId →
      plookup st.personas aId = some pa → pa.pareja = "" →
      plookup st.personas bId = some pb → pb.pareja = "" →
      idFromComboD (idname bId pb.nombre) = bId →
      idFromComboD (idname aId pa.nombre) = aId →
      partnerSymAlive (makeUnion cfg st aId bId y forced).2.personas yq) ∧
    (∀ (cfg : DCfg) (m : PMap) (ced : String) (y : Int) (mot : String)
      (pD : Persona),
      partnerSymAlive m y →
      plookup m "" = none →
      plookup m ced = some pD →
      fIsDeadValue pD.falle y = false →
      fIsDeadValue cfg.today y = true →
      partnerSymAlive (markDeath cfg m ced y mot) y) := by
  constructor
  · intro cfg st aId bId y yq forced pa pb hsym hempty hne ha hpa hb hpb hresb hresa
    simp only [makeUnion, ha, hb]
    split
    · exact hsym
    · split
      · exact hsym
      · apply partnerSymAlive_of_proj_eq
          (m := pupdate (pupdate st.personas aId (fun p =>
            { p with pareja := idname bId pb.nombre, estado := "Unión libre" }))
            bId (fun p =>
            { p with pareja := idname aId pa.nombre, estado := "Unión libre" }))
        · intro z
          by_cases hzb : z = bId
          · subst hzb
            split <;> simp [plookup_pupdate, hne.symm, hb]
          · by_cases hza : z = aId
            · subst hza
              split <;> simp [plookup_pupdate, hne, hzb, ha]
            · split <;> simp [plookup_pupdate, hzb, hza]
        · intro x px c pc hx hc halx hres
          rw [plookup_pupdate] at hx
          by_cases hxb : x = bId
          · rw [if_pos hxb, plookup_pupdate, if_neg (fun h0 => hne h0.symm), hb] at hx
            simp only [Option.map_some', Option.some.injEq] at hx
            have hcval : c = aId := by
              rw [← hres, ← hx]
              exact hresa
            subst hcval
            rw [plookup_pupdate, if_neg hne, plookup_pupdate, if_pos rfl, ha] at hc
            simp only [Option.map_some', Option.some.injEq] at hc
            rw [← hc, hxb]
            exact hresb
          · rw [if_neg hxb, plookup_pupdate] at hx
            by_cases hxa : x = aId
            · rw [if_pos hxa, ha] at hx
              simp only [Option.map_some', Option.some.injEq] at hx
              have hcval : c = bId := by
                rw [← hres, ← hx]
                exact hresb
              subst hcval
              rw [plookup_pupdate, if_pos rfl, plookup_pupdate,
                if_neg (fun h0 => hne h0.symm), hb] at hc
              simp only [Option.map_some', Option.some.injEq] at hc
              rw [← hc, hxa]
              exact hresa
            · rw [if_neg hxa] at hx
              by_cases hca : c = aId
              · exfalso
                have h1 := hsym x px aId pa hx ha halx (by rw [hres]; exact hca)
                rw [hpa] at h1
                have hx0 : x = "" := h1.symm.trans (by decide)
                rw [hx0, hempty] at hx
                cases hx
              · by_cases hcb : c = bId
                · exfalso
                  have h1 := hsym x px bId pb hx hb halx (by rw [hres]; exact hcb)
                  rw [hpb] at h1
                  have hx0 : x = "" := h1.symm.trans (by decide)
                  rw [hx0, hempty] at hx
                  cases hx
                · rw [plookup_pupdate, if_neg hcb, plookup_pupdate, if_neg hca] at hc
                  exact hsym x px c pc hx hc halx hres
  · intro cfg m ced y mot pD hsym hempty hD halD htoday
    have hcedne : ced ≠ "" := by
      intro h0
      rw [h0, hempty] at hD
      cases hD
    simp only [markDeath, hD]
    apply assignTutors_partnerSymAlive
    split
    · rename_i hpar
      split
      · rename_i sp hsp
        split
        · rename_i hal2
          have hpcd : idFromComboD pD.pareja ≠ ced := by
            intro h0
            have hsp2 := hsp
            rw [h0, plookup_pupdate, if_pos rfl, hD] at hsp2
            simp only [Option.map_some', Option.some.injEq] at hsp2
            have hds : fIsDeadValue sp.falle y = true := by
              rw [← hsp2]
              exact htoday
            rw [hds] at hal2
            simp at hal2
          have hspm : plookup m (idFromComboD pD.pareja) = some sp := by
            have hsp2 := hsp
            rw [plookup_pupdate, if_neg hpcd] at hsp2
            exact hsp2
          intro x px c pc hx hc halx hres
          rw [plookup_pupdate] at hx
          by_cases hxp : x = idFromComboD pD.pareja
          · rw [if_pos hxp, hsp] at hx
            simp only [Option.map_some', Option.some.injEq] at hx
            exfalso
            subst hx
            have hcval : c = "" := hres.symm.trans rfl
            subst hcval
            rw [plookup_pupdate, if_neg (fun h0 => hpar h0.symm), plookup_pupdate,
              if_neg (fun h0 => hcedne h0.symm), hempty] at hc
            cases hc
          · rw [if_neg hxp, plookup_pupdate] at hx
            by_cases hxc : x = ced
            · rw [if_pos hxc, hD] at hx
              simp only [Option.map_some', Option.some.injEq] at hx
              exfalso
              have hdead : fIsDeadValue px.falle y = true := by
                rw [← hx]
                exact htoday
              rw [hdead] at halx
              cases halx
            · rw [if_neg hxc] at hx
              rw [plookup_pupdate] at hc
              by_cases hcp : c = idFromComboD pD.pareja
              · rw [if_pos hcp, hsp] at hc
                simp only [Option.map_some', Option.some.injEq] at hc
                exfalso
                have h1 := hsym x px (idFromComboD pD.pareja) sp hx hspm halx
                  (by rw [hres]; exact hcp)
                have h2 := hsym ced pD (idFromComboD pD.pareja) sp hD hspm halD rfl
                exact hxc (h1.symm.trans h2)
              · rw [if_neg hcp, plookup_pupdate] at hc
                by_cases hcc : c = ced
                · rw [if_pos hcc, hD] at hc
                  simp only [Option.map_some', Option.some.injEq] at hc
                  have h1 := hsym x px ced pD hx hD halx (by rw [hres]; exact hcc)
                  rw [← hc]
                  exact h1
                · rw [if_neg hcc] at hc
                  exact hsym x px c pc hx hc halx hres
        · exact partnerSymAlive_pupdate_dead (fun q => htoday) (fun q => rfl) hsym
      · exact partnerSymAlive_pupdate_dead (fun q => htoday) (fun q => rfl) hsym
    · exact partnerSymAlive_pupdate_dead (fun q => htoday) (fun q => rfl) hsym

/-- C1 amended, witness: both parts applied at concrete stores — a union
of the two eligible singles and the death of the married elder. -/
theorem c1_partner_symmetry_amended_witness :
    partnerSymAlive (makeUnion {} wSinglesUState "A1" "B1" 2026 false).2.personas
      2026 ∧
    partnerSymAlive (markDeath { today := "2026-10-12" } wCoupleStore "V1" 2030
      "prob") 2030 := by
  constructor
  · exact c1_partner_symmetry_amended.1 {} wSinglesUState
      "A1" "B1" 2026 2026 false wAna wBeto
      (partnerSymAlive_of_check (by decide)) (by decide) (by decide) (by decide)
      (by decide) (by decide) (by decide) (by decide) (by decide)
  · exact c1_partner_symmetry_amended.2 { today := "2026-10-12" } wCoupleStore
      "V1" 2030 "prob" wVito
      (partnerSymAlive_of_check (by decide)) (by decide) (by decide) (by decide)
      (by decide)

/-! ## Claim C10 -/

/-- Inversion of the candidate filter: a produced candidate records the
pair ids, both records exist, and the pair is genetically safe. -/
theorem pairScore_some {cfg : UCfg} {m : PMap} {y : Int} {aId : String}
    {A : Persona} {ga : String} {bId : String} {c : Frac × String × String}
    (h : pairScore cfg m y aId A ga bId = some c) :
    c.2.1 = aId ∧ ∃ B, plookup m bId = some B ∧ c.2.2 = bId ∧
      geneticallySafe m A B aId bId = true := by
  simp only [pairScore] at h
  split at h
  · cases h
  · rename_i B hB
    split at h
    · cases h
    · rename_i gb hgb
      split at h
      · cases h
      · split at h
        · rename_i ea eb hea heb
          split at h
          · cases h
          · split at h
            · cases h
            · rename_i hsafe
              split at h
              · injection h with h2
                subst h2
                refine ⟨rfl, B, hB, rfl, ?_⟩
                cases hg : geneticallySafe m A B aId bId
                · rw [hg] at hsafe
                  exact absurd (by decide) hsafe
                · rfl
              · cases h
        · cases h

/-- Every collected candidate pair exists in the store and is genetically
safe. -/
theorem collectCandidatesAux_mem {cfg : UCfg} {m : PMap} {y : Int}
    {l : List String} {c : Frac × String × String}
    (h : c ∈ collectCandidatesAux cfg m y l) :
    ∃ A B, plookup m c.2.1 = some A ∧ plookup m c.2.2 = some B ∧
      geneticallySafe m A B c.2.1 c.2.2 = true := by
  induction l with
  | nil =>
    simp only [collectCandidatesAux] at h
    cases h
  | cons aId rest ih =>
    simp only [collectCandidatesAux, List.mem_append] at h
    rcases h with h | h
    · split at h
      · cases h
      · rename_i A hA
        split at h
        · cases h
        · rename_i ga hga
          rcases List.mem_filterMap.1 h with ⟨bId, hbmem, hps⟩
          obtain ⟨hc1, B, hB, hc2, hsafe⟩ := pairScore_some hps
          exact ⟨A, B, by rw [hc1]; exact hA, by rw [hc2]; exact hB,
            by rw [hc1, hc2]; exact hsafe⟩
    · exact ih h

/-- When every probabilistic draw fails, the best-first loop commits
nothing and leaves the state untouched. -/
theorem unionLoop_all_false (cfg : UCfg) (y : Int) (draws : Nat → Bool)
    (hdraws : ∀ k, draws k = false) (l : List (Frac × String × String))
    (st : UState) (used : List String) (k : Nat)
    (evs : List (String × String × Bool)) :
    unionLoop cfg y draws l st used k evs = (st, evs) := by
  induction l generalizing k with
  | nil => rfl
  | cons c rest ih =>
    simp only [unionLoop]
    split
    · rfl
    · split
      · exact ih k
      · split
        · exact ih (k + 1)
        · rename_i hdk
          rw [hdraws k] at hdk
          exact absurd (by decide) hdk

/-- `_make_union` succeeds on an existing, genetically safe pair while the
annual cap has room. -/
theorem makeUnion_success (cfg : UCfg) (st : UState) (aId bId : String) (y : Int)
    {A B : Persona}
    (hA : plookup st.personas aId = some A) (hB : plookup st.personas bId = some B)
    (hsafe : geneticallySafe st.personas A B aId bId = true)
    (hcap : ubyGet st.unionsByYear y < cfg.maxUniones) :
    (makeUnion cfg st aId bId y false).1 = true := by
  simp only [makeUnion, hA, hB]
  rw [if_neg (fun hcon => absurd hcon.2 (not_le.2 hcap)), hsafe,
    if_neg (by decide : ¬((!true) = true))]

/-- C10: on a tick where the forced-minimum phase leaves the annual quota
unreached (`ex = false` is its early-exit flag) and the candidate list is
nonempty, the union events are exactly the forced-phase events plus one
soft-rescue union of the best candidate, even though every per-pair
probabilistic draw failed — the draw probability never decides whether a
union happens on such a tick. -/
theorem c10_soft_rescue (cfg : UCfg) (st0 : UState) (draws : Nat → Bool)
    (best : Frac × String × String) (tail : List (Frac × String × String))
    (st1 : UState) (ev1 : List (String × String × Bool))
    (hst1 : (unionsForcedPhase cfg { st0 with anioSim := st0.anioSim + 1 }
      (st0.anioSim + 1)).1 = st1)
    (hev1 : (unionsForcedPhase cfg { st0 with anioSim := st0.anioSim + 1 }
      (st0.anioSim + 1)).2.1 = ev1)
    (hex : (unionsForcedPhase cfg { st0 with anioSim := st0.anioSim + 1 }
      (st0.anioSim + 1)).2.2 = false)
    (hdraws : ∀ k, draws k = false)
    (hcap : ubyGet st1.unionsByYear (st0.anioSim + 1) < cfg.maxUniones)
    (hcand : collectCandidates cfg st1.personas (st0.anioSim + 1)
      (eligibleSingles st1.personas (st0.anioSim + 1)) = best :: tail) :
    (unionsTick cfg st0 draws).2 = ev1 ++ [(best.2.1, best.2.2, false)] := by
  have hel : ¬(eligibleSingles st1.personas (st0.anioSim + 1) = []) := by
    intro h0
    rw [h0] at hcand
    simp [collectCandidates, collectCandidatesAux, sortByDesc] at hcand
  have hmem : best ∈ collectCandidatesAux cfg st1.personas (st0.anioSim + 1)
      (eligibleSingles st1.personas (st0.anioSim + 1)) := by
    have h1 : best ∈ collectCandidates cfg st1.personas (st0.anioSim + 1)
        (eligibleSingles st1.personas (st0.anioSim + 1)) := by
      rw [hcand]
      exact List.mem_cons_self _ _
    simp only [collectCandidates] at h1
    exact (mem_sortByDesc _ _ _).1 h1
  obtain ⟨A, B, hA, hB, hsafe⟩ := collectCandidatesAux_mem hmem
  have hnc : ¬(ubyGet st1.unionsByYear (st0.anioSim + 1) ≥ cfg.maxUniones) :=
    not_le.2 hcap
  simp only [unionsTick]
  rw [hex, hst1, hev1]
  rw [if_neg (by decide : ¬(false = true))]
  rw [if_neg hnc]
  rw [if_neg hel]
  split
  · rename_i heq
    rw [heq] at hcand
    cases hcand
  · rename_i best2 tail2 heq
    have hbt := heq.symm.trans hcand
    injection hbt with hb1 hb2
    rw [hb1, hb2]
    rw [unionLoop_all_false cfg (st0.anioSim + 1) draws hdraws]
    rw [if_pos (And.intro rfl hcap)]
    rw [if_pos (makeUnion_success cfg st1 best.2.1 best.2.2 (st0.anioSim + 1)
      hA hB hsafe hcap)]

/-- C10, witness: with the two eligible singles, a quota with room, and
all draws failing, the tick still creates exactly the best-candidate
union. -/
theorem c10_soft_rescue_witness :
    (unionsTick {} wC10State (fun _ => false)).2 = [("A1", "B1", false)] :=
  c10_soft_rescue {} wC10State (fun _ => false)
    (uComputeCompat 2026 wAna wBeto, "A1", "B1") [] wC10State1 []
    (by decide) (by decide) (by decide) (fun _ => rfl) (by decide) (by decide)

/-! ## Claim C5 -/

/-- Every fraction built by the birth-compatibility formula has a
positive denominator. -/
theorem nComputeCompat_posDen (a b : Persona) : (nComputeCompat a b).posDen := by
  have hmax : ∀ x y : Frac, x.posDen → y.posDen → (Frac.maxF x y).posDen := by
    intro x y hx hy
    unfold Frac.maxF
    split <;> assumption
  have hmin : ∀ x y : Frac, x.posDen → y.posDen → (Frac.minF x y).posDen := by
    intro x y hx hy
    unfold Frac.minF
    split <;> assumption
  have hadd : ∀ x y : Frac, x.posDen → y.posDen → (x.add y).posDen := by
    intro x y hx hy
    exact Nat.mul_pos hx hy
  have hmul : ∀ x y : Frac, x.posDen → y.posDen → (x.mul y).posDen := by
    intro x y hx hy
    exact Nat.mul_pos hx hy
  have hsub : ∀ x y : Frac, x.posDen → y.posDen → (x.sub y).posDen := by
    intro x y hx hy
    exact Nat.mul_pos hx hy
  have hdiv : ∀ (x : Frac) (n : Nat), x.posDen → 0 < n → (x.divNat n).posDen := by
    intro x n hx hn
    exact Nat.mul_pos hx hn
  have haff : ∀ (l1 l2 : List String),
      (if l1 ≠ [] ∨ l2 ≠ [] then
        mkF ((setInterLen l1 l2 : Int)) (max 1 (setUnionLen l1 l2))
      else mkF 1 2).posDen := by
    intro l1 l2
    split
    · exact Nat.lt_of_lt_of_le Nat.zero_lt_one (le_max_left 1 _)
    · exact (by decide : (0 : Nat) < 2)
  have hprov : ∀ (s1 s2 : String),
      (if s1 ≠ "" ∧ s1 = s2 then mkF 1 10 else mkF 0 1).posDen := by
    intro s1 s2
    split
    · exact (by decide : (0 : Nat) < 10)
    · exact Nat.one_pos
  simp only [nComputeCompat]
  apply hmax
  · exact Nat.one_pos
  · apply hmin
    · exact Nat.one_pos
    · apply hadd
      · apply hmul
        · exact (by decide : (0 : Nat) < 10)
        · exact haff _ _
      · apply hadd
        · apply hmul
          · apply hsub
            · exact Nat.one_pos
            · apply hmin
              · exact Nat.one_pos
              · apply hdiv
                · exact Nat.one_pos
                · exact (by decide : (0 : Nat) < 20)
          · exact (by decide : (0 : Nat) < 10)
        · exact hprov _ _

/-- One couple-collection step only adds entries passing every hard
check. -/
theorem coupleStep_mem (m : PMap) (y : Int)
    (acc : List (String × String) × List (String × String × Frac))
    (cp : String × Persona) :
    ∀ t ∈ (coupleStep m y acc cp).2, t ∈ acc.2 ∨ hardChecksOK m y t := by
  intro t ht
  simp only [coupleStep] at ht
  split at ht
  · exact Or.inl ht
  · split at ht
    · exact Or.inl ht
    · split at ht
      · exact Or.inl ht
      · split at ht
        · exact Or.inl ht
        · split at ht
          · rename_i A B hAB1 hAB2
            split at ht
            · exact Or.inl ht
            · rename_i hnd
              split at ht
              · rename_i ea eb heaq hebq
                split at ht
                · exact Or.inl ht
                · rename_i hage
                  split at ht
                  · rename_i ga gb hga hgb
                    split at ht
                    · exact Or.inl ht
                    · rename_i hgg
                      split at ht
                      · exact Or.inl ht
                      · rename_i hgap
                        split at ht
                        · exact Or.inl ht
                        · rename_i hrel
                          rcases List.mem_append.1 ht with h | h
                          · exact Or.inl h
                          · have heq := List.mem_singleton.1 h
                            subst heq
                            refine Or.inr ⟨A, B, hAB1, hAB2,
                              Bool.eq_false_iff.2 (fun hh => hnd (Or.inl hh)),
                              Bool.eq_false_iff.2 (fun hh => hnd (Or.inr hh)),
                              ⟨ea, eb, heaq, hebq,
                                not_lt.1 (not_or.1 hage).1,
                                not_lt.1 (not_or.1 hage).2, ?_⟩,
                              ⟨ga, gb, hga, hgb, hgg⟩, ?_, rfl⟩
                            · have hg2 : compatibleAgeGap (some ea) (some eb) 15 = true := by
                                cases hcg : compatibleAgeGap (some ea) (some eb) 15
                                · rw [hcg] at hgap
                                  exact absurd (by decide) hgap
                                · rfl
                              exact of_decide_eq_true hg2
                            · cases hcr : notCloseRelatives A B
                              · rw [hcr] at hrel
                                exact absurd (by decide) hrel
                              · rfl
                  · exact Or.inl ht
              · exact Or.inl ht
          · exact Or.inl ht

/-- Membership inversion for the raw eligible-couples pass. -/
theorem eligibleCouplesRaw_mem {m : PMap} {y : Int} {t : String × String × Frac}
    (h : t ∈ eligibleCouplesRaw m y) : hardChecksOK m y t := by
  have key : ∀ (l : List (String × Persona))
      (acc : List (String × String) × List (String × String × Frac)),
      (∀ t2 ∈ acc.2, hardChecksOK m y t2) →
      ∀ t2 ∈ (l.foldl (coupleStep m y) acc).2, hardChecksOK m y t2 := by
    intro l
    induction l with
    | nil =>
      intro acc hacc t2 ht2
      exact hacc t2 ht2
    | cons cp rest ih =>
      intro acc hacc t2 ht2
      refine ih (coupleStep m y acc cp) ?_ t2 ht2
      intro t3 ht3
      rcases coupleStep_mem m y acc cp t3 ht3 with h3 | h3
      · exact hacc t3 h3
      · exact h3
  exact key m ([], []) (fun t2 ht2 => absurd ht2 (List.not_mem_nil t2)) t h

/-- With every draw failing, the normal-birth loop only advances its draw
index. -/
theorem birthLoop_all_false (cfg : BCfg) (y : Int) (draws : Nat → Bool)
    (picks : Nat → BirthPick) (hdraws : ∀ k, draws k = false)
    (l : List (String × String × Frac)) (m0 : PMap)
    (clb0 : List ((String × String) × Int)) (c0 k0 j0 : Nat)
    (e0 : List (String × String × String × Bool)) :
    ∃ k2, birthLoop cfg y draws picks l ⟨m0, clb0, c0, k0, j0, e0⟩ =
      ⟨m0, clb0, c0, k2, j0, e0⟩ := by
  induction l generalizing k0 with
  | nil => exact ⟨k0, rfl⟩
  | cons c rest ih =>
    simp only [birthLoop]
    split
    · exact ⟨k0, rfl⟩
    · split
      · rename_i hcon
        have hcon1 := hcon.1
        rw [hdraws k0] at hcon1
        cases hcon1
      · exact ih (k0 + 1)

/-- The tick's event list in terms of its two phases (definitional). -/
theorem birthTick_evs_eq (cfg : BCfg) (st : BState) (draws : Nat → Bool)
    (picks : Nat → BirthPick) :
    (birthTick cfg st draws picks).2 =
      (birthGuarantee cfg (st.anioSim + 1) picks
        (match st.lastBirthYear with
         | none => true
         | some l => decide (st.anioSim + 1 - l ≥ cfg.maxGapYears))
        (eligibleCouples st.personas (st.anioSim + 1))
        (birthLoop cfg (st.anioSim + 1) draws picks
          ((eligibleCouples st.personas (st.anioSim + 1)).filter
            (fun t => cfg.minCompat.leB t.2.2))
          ⟨st.personas, st.coupleLastBaby,
            (if st.anioSim + 1 ≠ st.counterYear then 0 else st.birthsThisYear),
            0, 0, []⟩)).evs := rfl

/-- C5: when the gap since the last birth has matured, the annual counter
is fresh, and every probabilistic draw fails, the tick forces exactly one
birth with the head of the eligible-couples list — which passes all hard
checks and carries the maximal compatibility score — ignoring cooldown
and the minimum-compatibility threshold, and no existing record (in
particular no partner reference) is modified. -/
theorem c5_birth_guarantee (cfg : BCfg) (st : BState) (draws : Nat → Bool)
    (picks : Nat → BirthPick) (best : String × String × Frac)
    (tl : List (String × String × Frac)) (L : Int)
    (hdraws : ∀ k, draws k = false)
    (hfresh : st.anioSim + 1 ≠ st.counterYear)
    (hlast : st.lastBirthYear = some L)
    (hmat : st.anioSim + 1 - L ≥ cfg.maxGapYears)
    (hcand : eligibleCouples st.personas (st.anioSim + 1) = best :: tl) :
    (birthTick cfg st draws picks).2 =
      [((picks 0).babyId, best.1, best.2.1, true)] ∧
    (∀ t ∈ eligibleCouples st.personas (st.anioSim + 1),
      t.2.2.leB best.2.2 = true) ∧
    hardChecksOK st.personas (st.anioSim + 1) best ∧
    (∀ x p, plookup st.personas x = some p →
      plookup (birthTick cfg st draws picks).1.personas x = some p) := by
  have hbm : best ∈ eligibleCouplesRaw st.personas (st.anioSim + 1) := by
    have h1 : best ∈ eligibleCouples st.personas (st.anioSim + 1) := by
      rw [hcand]
      exact List.mem_cons_self _ _
    simp only [eligibleCouples] at h1
    exact (mem_sortByDesc _ _ _).1 h1
  refine ⟨?_, ?_, eligibleCouplesRaw_mem hbm, ?_⟩
  · rw [birthTick_evs_eq]
    rw [if_pos hfresh]
    have hgr : (match st.lastBirthYear with
        | none => true
        | some l => decide (st.anioSim + 1 - l ≥ cfg.maxGapYears)) = true := by
      rw [hlast]
      exact decide_eq_true hmat
    rw [hgr]
    rcases birthLoop_all_false cfg (st.anioSim + 1) draws picks hdraws
      ((eligibleCouples st.personas (st.anioSim + 1)).filter
        (fun t => cfg.minCompat.leB t.2.2))
      st.personas st.coupleLastBaby 0 0 0 [] with ⟨k2, hl⟩
    rw [hl]
    simp only [birthGuarantee]
    rw [if_pos ⟨by trivial, by trivial, by rw [hcand]; exact List.cons_ne_nil _ _⟩]
    split
    · rename_i c rest2 heq
      have hbt := heq.symm.trans hcand
      injection hbt with hb1 hb2
      rw [hb1]
      rfl
    · rename_i heq
      rw [heq] at hcand
      cases hcand
  · intro t ht
    have hpos : ∀ z ∈ eligibleCouplesRaw st.personas (st.anioSim + 1),
        ((fun t2 : String × String × Frac => t2.2.2) z).posDen := by
      intro z hz
      obtain ⟨A, B, _, _, _, _, _, _, _, hsc⟩ := eligibleCouplesRaw_mem hz
      show (z.2.2).posDen
      rw [hsc]
      exact nComputeCompat_posDen A B
    have hcand2 : sortByDesc (fun t2 : String × String × Frac => t2.2.2)
        (eligibleCouplesRaw st.personas (st.anioSim + 1)) = best :: tl := hcand
    have hmem2 : t ∈ eligibleCouplesRaw st.personas (st.anioSim + 1) := by
      simp only [eligibleCouples] at ht
      exact (mem_sortByDesc _ _ _).1 ht
    exact sortByDesc_head_max (fun t2 : String × String × Frac => t2.2.2)
      (eligibleCouplesRaw st.personas (st.anioSim + 1)) best tl hpos hcand2 t hmem2
  · intro x p hp
    exact birthTick_plookup_preserved cfg st draws picks x p hp

/-- C5, witness: with one existing eligible couple, a matured gap and all
draws failing, the tick emits exactly one forced birth for that couple. -/
theorem c5_birth_guarantee_witness :
    (birthTick {} wC5State (fun _ => false) (fun _ => {})).2 =
      [("99999990", "C1", "C2", true)] :=
  (c5_birth_guarantee {} wC5State (fun _ => false) (fun _ => {})
    ("C1", "C2", nComputeCompat wMadre wPadre) [] 2020
    (fun _ => rfl) (by decide) (by decide) (by decide) (by decide)).1

/-! ## Claim C7 -/

/-- An empty death field is classified alive by the emotional engine. -/
theorem eIsDead_of_falle_empty {p : Persona} (h : p.falle = "") (y : Int) :
    eIsDead p y = false := by
  unfold eIsDead
  rw [h]
  rfl

/-- `_activate_low_emotion` always sets the low-emotion flag. -/
theorem eActivate_emoLow (cfg : ECfg) (p : Persona) (y : Int) :
    (eActivate cfg p y).emoLow = true := by
  simp [eActivate, apply_ite Persona.emoLow]

/-- Health decay (and even emotional death) never clears the flag. -/
theorem eDegrade_fst_emoLow (cfg : ECfg) (p : Persona) (y : Int) :
    (eDegrade cfg p y).1.emoLow = p.emoLow := by
  simp only [eDegrade]
  split <;> rfl

/-- `_revert_emotional` does not change the marital status fields. -/
theorem eRevert_estado (cfg : ECfg) (p : Persona) (y : Int) :
    (eRevert cfg p y).estado = p.estado := by
  simp [eRevert, apply_ite Persona.estado]

/-- `_revert_emotional` does not change the partner reference. -/
theorem eRevert_pareja (cfg : ECfg) (p : Persona) (y : Int) :
    (eRevert cfg p y).pareja = p.pareja := by
  simp [eRevert, apply_ite Persona.pareja]

/-- Hence reverting keeps the singleness test unchanged. -/
theorem eRevert_isSingleNow (cfg : ECfg) (p : Persona) (y : Int) :
    isSingleNow (eRevert cfg p y) = isSingleNow p := by
  simp [isSingleNow, eRevert_estado, eRevert_pareja]

/-- Before the threshold, a live single person's step only bumps the
years-single counter and emits nothing. -/
theorem ePersonStep_pre (cfg : ECfg) (q : Persona) (y : Int)
    (hd : eIsDead q y = false) (hs : isSingleNow q = true)
    (hlow2 : q.emoLow = false)
    (hlt : q.yearsSingle + 1 < cfg.yearsThreshold) :
    ePersonStep cfg q y = ({ q with yearsSingle := q.yearsSingle + 1 }, []) := by
  have hact : ¬(¬({ q with yearsSingle := q.yearsSingle + 1 } : Persona).emoLow = true ∧
      ({ q with yearsSingle := q.yearsSingle + 1 } : Persona).yearsSingle ≥
        cfg.yearsThreshold) := by
    intro hcon
    exact absurd hcon.2 (not_le.2 hlt)
  simp only [ePersonStep]
  rw [hd, if_neg (by decide : ¬(false = true)), hs, if_pos rfl]
  rw [if_neg hact, if_neg hact]
  rw [if_neg (show ¬(({ q with yearsSingle := q.yearsSingle + 1 } : Persona).emoLow = true)
    from fun h => (by decide : false ≠ true) (hlow2.symm.trans h))]

/-- At the activation tick the step emits the activation marker and the
resulting record carries the flag. -/
theorem ePersonStep_act (cfg : ECfg) (q : Persona) (y : Int)
    (hd : eIsDead q y = false) (hs : isSingleNow q = true)
    (hlow2 : q.emoLow = false)
    (hge : cfg.yearsThreshold ≤ q.yearsSingle + 1) :
    "activa" ∈ (ePersonStep cfg q y).2 ∧ (ePersonStep cfg q y).1.emoLow = true := by
  have hact : (¬({ q with yearsSingle := q.yearsSingle + 1 } : Persona).emoLow = true ∧
      ({ q with yearsSingle := q.yearsSingle + 1 } : Persona).yearsSingle ≥
        cfg.yearsThreshold) :=
    ⟨fun h => (by decide : false ≠ true) (hlow2.symm.trans h), hge⟩
  simp only [ePersonStep]
  rw [hd, if_neg (by decide : ¬(false = true)), hs, if_pos rfl]
  rw [if_pos hact, if_pos hact]
  rw [if_pos (show (eActivate cfg { q with yearsSingle := q.yearsSingle + 1 } y).emoLow
      = true from eActivate_emoLow cfg _ y)]
  constructor
  · simp
  · exact (eDegrade_fst_emoLow cfg _ y).trans (eActivate_emoLow cfg _ y)

/-- Once the flag is set (or the person is no longer single), the step
never emits the activation marker again. -/
theorem ePersonStep_no_activa (cfg : ECfg) (q : Persona) (y : Int)
    (h : q.emoLow = true ∨ isSingleNow q = false) :
    "activa" ∉ (ePersonStep cfg q y).2 := by
  simp only [ePersonStep]
  split
  · simp
  · split
    · rename_i hsng
      have hemo : q.emoLow = true := by
        rcases h with h2 | h2
        · exact h2
        · rw [h2] at hsng
          cases hsng
      have hact : ¬(¬({ q with yearsSingle := q.yearsSingle + 1 } : Persona).emoLow = true ∧
          ({ q with yearsSingle := q.yearsSingle + 1 } : Persona).yearsSingle ≥
            cfg.yearsThreshold) := by
        intro hcon
        exact hcon.1 hemo
      rw [if_neg hact, if_neg hact]
      split
      · split <;> simp
      · simp
    · by_cases hys : q.yearsSingle ≠ 0
      · rw [if_pos hys]
        split <;> simp
      · rw [if_neg hys]
        split <;> simp

/-- The blocked-state invariant (flag set, or no longer single) is
preserved by every step. -/
theorem ePersonStep_inv (cfg : ECfg) (q : Persona) (y : Int)
    (h : q.emoLow = true ∨ isSingleNow q = false) :
    (ePersonStep cfg q y).1.emoLow = true ∨
      isSingleNow (ePersonStep cfg q y).1 = false := by
  simp only [ePersonStep]
  split
  · exact h
  · split
    · rename_i hsng
      have hemo : q.emoLow = true := by
        rcases h with h2 | h2
        · exact h2
        · rw [h2] at hsng
          cases hsng
      have hact : ¬(¬({ q with yearsSingle := q.yearsSingle + 1 } : Persona).emoLow = true ∧
          ({ q with yearsSingle := q.yearsSingle + 1 } : Persona).yearsSingle ≥
            cfg.yearsThreshold) := by
        intro hcon
        exact hcon.1 hemo
      rw [if_neg hact, if_neg hact]
      split
      · left
        exact (eDegrade_fst_emoLow cfg _ y).trans hemo
      · rename_i hp2
        exact absurd hemo hp2
    · rename_i hnsng
      right
      have hnsng2 : isSingleNow q = false := by
        cases hx : isSingleNow q
        · rfl
        · exact absurd hx hnsng
      by_cases hys : q.yearsSingle ≠ 0
      · rw [if_pos hys]
        split
        · exact (eRevert_isSingleNow cfg _ y).trans hnsng2
        · exact hnsng2
      · rw [if_neg hys]
        split
        · exact (eRevert_isSingleNow cfg _ y).trans hnsng2
        · exact hnsng2

/-- One tick over a one-person store is exactly one per-person step. -/
theorem eTick_singleton (cfg : ECfg) (ced : String) (q : Persona) (y0 : Int) :
    eTick cfg { personas := [(ced, q)], anioSim := y0 } =
      ({ personas := [(ced, (ePersonStep cfg q (y0 + 1)).1)], anioSim := y0 + 1 },
        (ePersonStep cfg q (y0 + 1)).2.map (fun e => (e, ced))) := by
  simp only [eTick, List.foldl_cons, List.foldl_nil, eStep]
  rw [show plookup [(ced, q)] ced = some q from by simp [plookup]]
  simp [pupdate]

/-- Membership of a tagged event in the per-person event map. -/
theorem mem_map_pair (s k : String) (l : List String) :
    (s, k) ∈ l.map (fun e => (e, k)) ↔ s ∈ l := by
  constructor
  · intro h
    rcases List.mem_map.1 h with ⟨e, he, heq⟩
    injection heq with h1 h2
    rw [← h1]
    exact he
  · intro h
    exact List.mem_map.2 ⟨s, h, rfl⟩

/-- C7: a live single person starting with a zero years-single counter
and a clear flag, run alone through the emotional ticks, gets the
activation event exactly on the tick where the counter first reaches the
threshold — never earlier, and never again while the flag (or death, or
non-single status) persists. -/
theorem c7_emotional_trigger (cfg : ECfg) (ced : String) (p : Persona) (y0 : Int)
    (hfal : p.falle = "") (hsingle : isSingleNow p = true)
    (h0 : p.yearsSingle = 0) (hlow : p.emoLow = false)
    (hT : 1 ≤ cfg.yearsThreshold) :
    ∀ n : Nat,
      (("activa", ced) ∈ eEventsAt cfg { personas := [(ced, p)], anioSim := y0 } n ↔
        (n : Int) + 1 = cfg.yearsThreshold) := by
  have hp0 : ({ p with yearsSingle := 0 } : Persona) = p := by
    rw [← h0]
  have main : ∀ n : Nat,
      ∃ q, eRun cfg { personas := [(ced, p)], anioSim := y0 } n =
          { personas := [(ced, q)], anioSim := y0 + (n : Int) } ∧
        (((n : Int) < cfg.yearsThreshold ∧
            q = { p with yearsSingle := (n : Int) }) ∨
         (cfg.yearsThreshold ≤ (n : Int) ∧
            (q.emoLow = true ∨ isSingleNow q = false))) := by
    intro n
    induction n with
    | zero =>
      refine ⟨{ p with yearsSingle := ((0 : Nat) : Int) }, ?_, Or.inl ⟨?_, ?_⟩⟩
      · simp only [eRun, Nat.cast_zero, add_zero, hp0]
      · simp only [Nat.cast_zero]
        omega
      · rfl
    | succ n ih =>
      rcases ih with ⟨q, hrun, hcase⟩
      have hstep : eRun cfg { personas := [(ced, p)], anioSim := y0 } (n + 1) =
          (eTick cfg { personas := [(ced, q)], anioSim := y0 + (n : Int) }).1 := by
        simp only [eRun]
        rw [hrun]
      have hyy : y0 + ((n + 1 : Nat) : Int) = y0 + (n : Int) + 1 := by
        push_cast
        ring
      rcases hcase with ⟨hlt, hq⟩ | ⟨hge, hinv⟩
      · by_cases hnext : ((n : Int) + 1) < cfg.yearsThreshold
        · refine ⟨{ p with yearsSingle := (n : Int) + 1 }, ?_, Or.inl ⟨?_, ?_⟩⟩
          · rw [hstep, eTick_singleton, hyy]
            rw [ePersonStep_pre cfg q _ (by rw [hq]; exact eIsDead_of_falle_empty hfal _)
              (by rw [hq]; exact hsingle) (by rw [hq]; exact hlow)
              (by rw [hq]; exact hnext)]
            rw [hq]
          · omega
          · have : ((n + 1 : Nat) : Int) = (n : Int) + 1 := by push_cast; ring
            rw [this]
        · have hTeq : (n : Int) + 1 = cfg.yearsThreshold := by omega
          refine ⟨(ePersonStep cfg q (y0 + (n : Int) + 1)).1, ?_, Or.inr ⟨?_, ?_⟩⟩
          · rw [hstep, eTick_singleton, hyy]
          · omega
          · left
            exact (ePersonStep_act cfg q (y0 + (n : Int) + 1)
              (by rw [hq]; exact eIsDead_of_falle_empty hfal _)
              (by rw [hq]; exact hsingle) (by rw [hq]; exact hlow)
              (by rw [hq]; exact le_of_eq hTeq.symm)).2
      · refine ⟨(ePersonStep cfg q (y0 + (n : Int) + 1)).1, ?_, Or.inr ⟨?_, ?_⟩⟩
        · rw [hstep, eTick_singleton, hyy]
        · omega
        · exact ePersonStep_inv cfg q _ hinv
  intro n
  rcases main n with ⟨q, hrun, hcase⟩
  have hev : eEventsAt cfg { personas := [(ced, p)], anioSim := y0 } n =
      (ePersonStep cfg q (y0 + (n : Int) + 1)).2.map (fun e => (e, ced)) := by
    simp only [eEventsAt]
    rw [hrun, eTick_singleton]
  rw [hev, mem_map_pair]
  rcases hcase with ⟨hlt, hq⟩ | ⟨hge, hinv⟩
  · by_cases hnext : ((n : Int) + 1) < cfg.yearsThreshold
    · rw [ePersonStep_pre cfg q _ (by rw [hq]; exact eIsDead_of_falle_empty hfal _)
        (by rw [hq]; exact hsingle) (by rw [hq]; exact hlow)
        (by rw [hq]; exact hnext)]
      constructor
      · intro hmem
        exact absurd hmem (by simp)
      · intro heq2
        exact absurd heq2 (ne_of_lt hnext)
    · have hTeq : (n : Int) + 1 = cfg.yearsThreshold := by omega
      have hact := ePersonStep_act cfg q (y0 + (n : Int) + 1)
        (by rw [hq]; exact eIsDead_of_falle_empty hfal _)
        (by rw [hq]; exact hsingle) (by rw [hq]; exact hlow)
        (by rw [hq]; exact le_of_eq hTeq.symm)
      exact ⟨fun _ => hTeq, fun _ => hact.1⟩
  · constructor
    · intro hmem
      exact absurd hmem (ePersonStep_no_activa cfg q _ hinv)
    · intro heq2
      exact absurd heq2 (by omega)

/-- C7, witness: with the default five-year threshold, the lone single
person fires the activation exactly on the fifth tick and not on the
fourth. -/
theorem c7_emotional_trigger_witness :
    ("activa", "E1") ∈ eEventsAt {} { personas := [("E1", wSola)], anioSim := 2026 } 4 ∧
    ("activa", "E1") ∉ eEventsAt {} { personas := [("E1", wSola)], anioSim := 2026 } 3 := by
  constructor
  · exact (c7_emotional_trigger {} "E1" wSola 2026 (by decide) (by decide) (by decide)
      (by decide) (by decide) 4).2 (by decide)
  · intro hmem
    exact absurd ((c7_emotional_trigger {} "E1" wSola 2026 (by decide) (by decide)
      (by decide) (by decide) (by decide) 3).1 hmem) (by decide)

/-! ## Claim C8 -/

/-- Membership characterisation of the children query. -/
theorem mem_kGetChildren {S : PMap} {x b : String} :
    b ∈ kGetChildren S x ↔ ∃ q, (b, q) ∈ S ∧
      ((cedFromCombo q.padre ≠ "" ∧ cedFromCombo q.padre = x) ∨
       (cedFromCombo q.madre ≠ "" ∧ cedFromCombo q.madre = x)) := by
  simp only [kGetChildren, List.mem_map, List.mem_filter]
  constructor
  · rintro ⟨⟨c1, c2⟩, ⟨hmem, hdec⟩, hfst⟩
    simp only at hfst
    subst hfst
    exact ⟨c2, hmem, of_decide_eq_true hdec⟩
  · rintro ⟨q, hmem, hcond⟩
    exact ⟨(b, q), ⟨hmem, decide_eq_true hcond⟩, rfl⟩

/-- Inserting into the normalised dict keeps keys duplicate-free. -/
theorem dinsert_pkeys_nodup {m : PMap} (hnd : (pkeys m).Nodup) (k : String)
    (v : Persona) : (pkeys (dinsert m k v)).Nodup := by
  unfold dinsert
  split
  · have h2 : pkeys (m.map (fun e => if e.1 = k then (e.1, v) else e)) = pkeys m := by
      simp only [pkeys, List.map_map]
      congr 1
      funext e
      simp only [Function.comp]
      split <;> rfl
    rw [h2]
    exact hnd
  · rename_i hfind
    have hk : k ∉ pkeys m := by
      intro hmem
      apply hfind
      simp only [pkeys, List.mem_map] at hmem
      rcases hmem with ⟨e, he, hek⟩
      rw [List.find?_isSome]
      exact ⟨e, he, by simp [hek]⟩
    simp only [pkeys, List.map_append]
    refine List.Nodup.append hnd (by simp) ?_
    intro x hx hx2
    simp only [List.map_cons, List.map_nil, List.mem_singleton] at hx2
    rw [hx2] at hx
    exact hk hx

/-- The `Kinship` constructor produces a duplicate-free key set. -/
theorem normalizeStore_nodup (ps : PMap) : (pkeys (normalizeStore ps)).Nodup := by
  unfold normalizeStore
  have key : ∀ (l : PMap) (acc : PMap), (pkeys acc).Nodup →
      (pkeys (l.foldl (fun a cp => dinsert a (trueCed cp.1 cp.2) cp.2) acc)).Nodup := by
    intro l
    induction l with
    | nil =>
      intro acc h
      exact h
    | cons cp rest ih =>
      intro acc h
      exact ih _ (dinsert_pkeys_nodup h _ _)
  exact key ps [] (by simp [pkeys])

/-- Full-sibling membership is symmetric on duplicate-free snapshots. -/
theorem kFullSiblings_symm_dir {S : PMap} {a b : String}
    (hnd : (pkeys S).Nodup) (h : b ∈ kFullSiblings S a) :
    a ∈ kFullSiblings S b := by
  simp only [kFullSiblings] at h ⊢
  split at h
  · cases h
  · rename_i hpm
    rcases List.mem_filter.1 h with ⟨hmap, hneq⟩
    rcases List.mem_map.1 hmap with ⟨cp, hcpS, hcp1⟩
    rcases List.mem_filter.1 hcpS with ⟨hcpmem, hcpdec⟩
    obtain ⟨hp1, hp2, hp3, hp4⟩ := of_decide_eq_true hcpdec
    have hlkb : plookup S b = some cp.2 := by
      rw [← hcp1]
      exact plookup_of_mem_nodup hnd hcpmem
    have hgb : kGetParents S b = kGetParents S a := by
      have hb2 : kGetParents S b = (cedFromCombo cp.2.padre, cedFromCombo cp.2.madre) := by
        simp [kGetParents, hlkb]
      rw [hb2, hp1, hp2]
    rw [hgb, if_neg hpm]
    have hlka : ∃ pa, plookup S a = some pa := by
      cases hka : plookup S a with
      | none =>
        exfalso
        apply hpm
        left
        simp [kGetParents, hka]
      | some pa => exact ⟨pa, rfl⟩
    rcases hlka with ⟨pa, hka⟩
    have hpa : kGetParents S a = (cedFromCombo pa.padre, cedFromCombo pa.madre) := by
      simp [kGetParents, hka]
    refine List.mem_filter.2 ⟨List.mem_map.2
      ⟨(a, pa), List.mem_filter.2 ⟨mem_of_plookup hka, decide_eq_true ?_⟩, rfl⟩, ?_⟩
    · have hne1 : (kGetParents S a).1 ≠ "" := fun hcon => hpm (Or.inl hcon)
      have hne2 : (kGetParents S a).2 ≠ "" := fun hcon => hpm (Or.inr hcon)
      rw [hpa] at hne1 hne2
      exact ⟨by rw [hpa], by rw [hpa], hne1, hne2⟩
    · exact decide_eq_true (Ne.symm (of_decide_eq_true hneq))

/-- C8: on a duplicate-free snapshot (which the `Kinship` constructor
always produces), the children query inverts to the child's parent
references, full siblinghood is symmetric, and no person belongs to its
own full-sibling, half-sibling, or cousin set. -/
theorem c8_kinship_roundtrip :
    (∀ ps : PMap, (pkeys (normalizeStore ps)).Nodup) ∧
    (∀ (S : PMap) (a b : String), (pkeys S).Nodup → b ∈ kGetChildren S a →
      (kGetParents S b).1 = a ∨ (kGetParents S b).2 = a) ∧
    (∀ (S : PMap) (a b : String), (pkeys S).Nodup →
      (b ∈ kFullSiblings S a ↔ a ∈ kFullSiblings S b)) ∧
    (∀ (S : PMap) (a : String), a ∉ kFullSiblings S a ∧ a ∉ kHalfSiblings S a) ∧
    (∀ (S : PMap) (a : String), (pkeys S).Nodup → a ∉ kCousins S a) := by
  refine ⟨normalizeStore_nodup, ?_, ?_, ?_, ?_⟩
  · intro S a b hnd hmem
    rcases mem_kGetChildren.1 hmem with ⟨q, hq, hcond⟩
    have hlk : plookup S b = some q := plookup_of_mem_nodup hnd hq
    simp only [kGetParents, hlk]
    rcases hcond with ⟨h1, h2⟩ | ⟨h1, h2⟩
    · exact Or.inl h2
    · exact Or.inr h2
  · intro S a b hnd
    exact ⟨kFullSiblings_symm_dir hnd, kFullSiblings_symm_dir hnd⟩
  · intro S a
    constructor
    · intro h
      simp only [kFullSiblings] at h
      split at h
      · cases h
      · rcases List.mem_filter.1 h with ⟨-, hdec⟩
        exact absurd rfl (of_decide_eq_true hdec)
    · intro h
      simp only [kHalfSiblings] at h
      rcases List.mem_filter.1 h with ⟨-, hdec⟩
      exact (of_decide_eq_true hdec)
        (List.mem_append_right _ (List.mem_singleton.2 rfl))
  · intro S a hnd h
    simp only [kCousins] at h
    rcases (mem_foldl_append (kGetChildren S) _ [] a).1 h with h2 | ⟨tio, htio, hchild⟩
    · cases h2
    · simp only [kUnclesAunts] at htio
      rcases List.mem_filter.1 htio with ⟨-, hdec⟩
      have hne := of_decide_eq_true hdec
      rcases mem_kGetChildren.1 hchild with ⟨q, hq, hcond⟩
      have hlk : plookup S a = some q := plookup_of_mem_nodup hnd hq
      have hpa : kGetParents S a = (cedFromCombo q.padre, cedFromCombo q.madre) := by
        simp [kGetParents, hlk]
      rcases hcond with ⟨h1, h2⟩ | ⟨h1, h2⟩
      · exact hne.1 (by rw [hpa]; exact h2.symm)
      · exact hne.2 (by rw [hpa]; exact h2.symm)

/-- C8, witness: the two-sibling store (normalised) exhibits the
round-trip, symmetry and irreflexivity parts at concrete arguments. -/
theorem c8_kinship_roundtrip_witness :
    ((kGetParents wSibStore "S2").1 = "P1" ∨ (kGetParents wSibStore "S2").2 = "P1") ∧
    "S1" ∈ kFullSiblings wSibStore "S2" ∧
    "S1" ∉ kFullSiblings wSibStore "S1" ∧ "S1" ∉ kCousins wSibStore "S1" := by
  refine ⟨c8_kinship_roundtrip.2.1 wSibStore "P1" "S2" (by decide) (by decide),
    (c8_kinship_roundtrip.2.2.1 wSibStore "S2" "S1" (by decide)).2 (by decide),
    (c8_kinship_roundtrip.2.2.2.1 wSibStore "S1").1,
    c8_kinship_roundtrip.2.2.2.2 wSibStore "S1" (by decide)⟩

/-! ## Claim C9 -/

/-- C9: the labeller follows the fixed cascade — empty-id guard,
identity, parent, child, (vacuous) partner, full sibling, half sibling,
grandparent, grandchild, uncle/aunt, niece/nephew, cousin, default — each
label returned exactly when its test is the first to match; and because
the spouse index is never populated while both ids are non-empty in that
branch, the partner label can never be produced (no false match from
empty partner fields). -/
theorem c9_relation_label_order :
    (∀ (S : PMap) (a b : String), (a = "" ∨ b = "") → relationLabel S a b = "") ∧
    (∀ (S : PMap) (a : String), a ≠ "" → relationLabel S a a = "Misma persona") ∧
    (∀ (S : PMap) (a b : String), a ≠ "" → b ≠ "" → a ≠ b →
      (a = (kGetParents S b).1 ∨ a = (kGetParents S b).2) →
      relationLabel S a b = "Progenitor/a") ∧
    (∀ (S : PMap) (a b : String), a ≠ "" → b ≠ "" → a ≠ b →
      ¬(a = (kGetParents S b).1 ∨ a = (kGetParents S b).2) →
      (b = (kGetParents S a).1 ∨ b = (kGetParents S a).2) →
      relationLabel S a b = "Hijo/a") ∧
    (∀ (S : PMap) (a b : String), relationLabel S a b ≠ "Cónyuge / Pareja") ∧
    (∀ (S : PMap) (a b : String), a ≠ "" → b ≠ "" → a ≠ b →
      ¬(a = (kGetParents S b).1 ∨ a = (kGetParents S b).2) →
      ¬(b = (kGetParents S a).1 ∨ b = (kGetParents S a).2) →
      b ∈ kFullSiblings S a →
      relationLabel S a b = "Hermano/a (completo)") ∧
    (∀ (S : PMap) (a b : String), a ≠ "" → b ≠ "" → a ≠ b →
      ¬(a = (kGetParents S b).1 ∨ a = (kGetParents S b).2) →
      ¬(b = (kGetParents S a).1 ∨ b = (kGetParents S a).2) →
      b ∉ kFullSiblings S a → b ∈ kHalfSiblings S a →
      relationLabel S a b = "Medio hermano/a") ∧
    (∀ (S : PMap) (a b : String), a ≠ "" → b ≠ "" → a ≠ b →
      ¬(a = (kGetParents S b).1 ∨ a = (kGetParents S b).2) →
      ¬(b = (kGetParents S a).1 ∨ b = (kGetParents S a).2) →
      b ∉ kFullSiblings S a → b ∉ kHalfSiblings S a →
      a ∈ kGrandparents S b →
      relationLabel S a b = "Abuelo/a") ∧
    (∀ (S : PMap) (a b : String), a ≠ "" → b ≠ "" → a ≠ b →
      ¬(a = (kGetParents S b).1 ∨ a = (kGetParents S b).2) →
      ¬(b = (kGetParents S a).1 ∨ b = (kGetParents S a).2) →
      b ∉ kFullSiblings S a → b ∉ kHalfSiblings S a →
      a ∉ kGrandparents S b → b ∈ kGrandparents S a →
      relationLabel S a b = "Nieto/a") ∧
    (∀ (S : PMap) (a b : String), a ≠ "" → b ≠ "" → a ≠ b →
      ¬(a = (kGetParents S b).1 ∨ a = (kGetParents S b).2) →
      ¬(b = (kGetParents S a).1 ∨ b = (kGetParents S a).2) →
      b ∉ kFullSiblings S a → b ∉ kHalfSiblings S a →
      a ∉ kGrandparents S b → b ∉ kGrandparents S a →
      a ∈ kUnclesAunts S b true →
      relationLabel S a b = "Tío/Tía") ∧
    (∀ (S : PMap) (a b : String), a ≠ "" → b ≠ "" → a ≠ b →
      ¬(a = (kGetParents S b).1 ∨ a = (kGetParents S b).2) →
      ¬(b = (kGetParents S a).1 ∨ b = (kGetParents S a).2) →
      b ∉ kFullSiblings S a → b ∉ kHalfSiblings S a →
      a ∉ kGrandparents S b → b ∉ kGrandparents S a →
      a ∉ kUnclesAunts S b true → b ∈ kUnclesAunts S a true →
      relationLabel S a b = "Sobrino/a") ∧
    (∀ (S : PMap) (a b : String), a ≠ "" → b ≠ "" → a ≠ b →
      ¬(a = (kGetParents S b).1 ∨ a = (kGetParents S b).2) →
      ¬(b = (kGetParents S a).1 ∨ b = (kGetParents S a).2) →
      b ∉ kFullSiblings S a → b ∉ kHalfSiblings S a →
      a ∉ kGrandparents S b → b ∉ kGrandparents S a →
      a ∉ kUnclesAunts S b true → b ∉ kUnclesAunts S a true →
      (a ∈ kCousins S b ∨ b ∈ kCousins S a) →
      relationLabel S a b = "Primo/a") ∧
    (∀ (S : PMap) (a b : String), a ≠ "" → b ≠ "" → a ≠ b →
      ¬(a = (kGetParents S b).1 ∨ a = (kGetParents S b).2) →
      ¬(b = (kGetParents S a).1 ∨ b = (kGetParents S a).2) →
      b ∉ kFullSiblings S a → b ∉ kHalfSiblings S a →
      a ∉ kGrandparents S b → b ∉ kGrandparents S a →
      a ∉ kUnclesAunts S b true → b ∉ kUnclesAunts S a true →
      ¬(a ∈ kCousins S b ∨ b ∈ kCousins S a) →
      relationLabel S a b = "Parentesco lejano o no determinado") := by
  refine ⟨?_, ?_, ?_, ?_, ?_, ?_, ?_, ?_, ?_, ?_, ?_, ?_, ?_⟩
  · intro S a b h
    simp only [relationLabel]
    rw [if_pos h]
  · intro S a ha
    unfold relationLabel
    rw [if_neg (fun h => h.elim ha ha), if_pos rfl]
  · intro S a b ha hb hab h1
    simp only [relationLabel]
    rw [if_neg (fun h => h.elim ha hb), if_neg hab, if_pos h1]
  · intro S a b ha hb hab h1 h2
    simp only [relationLabel]
    rw [if_neg (fun h => h.elim ha hb), if_neg hab, if_neg h1, if_pos h2]
  · intro S a b hcon
    simp only [relationLabel] at hcon
    by_cases hg : a = "" ∨ b = ""
    · rw [if_pos hg] at hcon
      exact absurd hcon (by decide)
    · rw [if_neg hg] at hcon
      have ha : a ≠ "" := fun h => hg (Or.inl h)
      have hb : b ≠ "" := fun h => hg (Or.inr h)
      by_cases hab : a = b
      · rw [if_pos hab] at hcon
        exact absurd hcon (by decide)
      · rw [if_neg hab] at hcon
        by_cases h1 : a = (kGetParents S b).1 ∨ a = (kGetParents S b).2
        · rw [if_pos h1] at hcon
          exact absurd hcon (by decide)
        · rw [if_neg h1] at hcon
          by_cases h2 : b = (kGetParents S a).1 ∨ b = (kGetParents S a).2
          · rw [if_pos h2] at hcon
            exact absurd hcon (by decide)
          · rw [if_neg h2] at hcon
            rw [if_neg (show ¬(kGetSpouse S a = b ∨ kGetSpouse S b = a) from
              fun h => h.elim (fun hx => hb hx.symm) (fun hx => ha hx.symm))] at hcon
            by_cases h3 : b ∈ kFullSiblings S a
            · rw [if_pos h3] at hcon
              exact absurd hcon (by decide)
            · rw [if_neg h3] at hcon
              by_cases h4 : b ∈ kHalfSiblings S a
              · rw [if_pos h4] at hcon
                exact absurd hcon (by decide)
              · rw [if_neg h4] at hcon
                by_cases h5 : a ∈ kGrandparents S b
                · rw [if_pos h5] at hcon
                  exact absurd hcon (by decide)
                · rw [if_neg h5] at hcon
                  by_cases h6 : b ∈ kGrandparents S a
                  · rw [if_pos h6] at hcon
                    exact absurd hcon (by decide)
                  · rw [if_neg h6] at hcon
                    by_cases h7 : a ∈ kUnclesAunts S b true
                    · rw [if_pos h7] at hcon
                      exact absurd hcon (by decide)
                    · rw [if_neg h7] at hcon
                      by_cases h8 : b ∈ kUnclesAunts S a true
                      · rw [if_pos h8] at hcon
                        exact absurd hcon (by decide)
                      · rw [if_neg h8] at hcon
                        by_cases h9 : a ∈ kCousins S b ∨ b ∈ kCousins S a
                        · rw [if_pos h9] at hcon
                          exact absurd hcon (by decide)
                        · rw [if_neg h9] at hcon
                          exact absurd hcon (by decide)
  · intro S a b ha hb hab h1 h2 h3
    simp only [relationLabel]
    rw [if_neg (fun h => h.elim ha hb), if_neg hab, if_neg h1, if_neg h2,
      if_neg (show ¬(kGetSpouse S a = b ∨ kGetSpouse S b = a) from
        fun h => h.elim (fun hx => hb hx.symm) (fun hx => ha hx.symm)),
      if_pos h3]
  · intro S a b ha hb hab h1 h2 h3 h4
    simp only [relationLabel]
    rw [if_neg (fun h => h.elim ha hb), if_neg hab, if_neg h1, if_neg h2,
      if_neg (show ¬(kGetSpouse S a = b ∨ kGetSpouse S b = a) from
        fun h => h.elim (fun hx => hb hx.symm) (fun hx => ha hx.symm)),
      if_neg h3, if_pos h4]
  · intro S a b ha hb hab h1 h2 h3 h4 h5
    simp only [relationLabel]
    rw [if_neg (fun h => h.elim ha hb), if_neg hab, if_neg h1, if_neg h2,
      if_neg (show ¬(kGetSpouse S a = b ∨ kGetSpouse S b = a) from
        fun h => h.elim (fun hx => hb hx.symm) (fun hx => ha hx.symm)),
      if_neg h3, if_neg h4, if_pos h5]
  · intro S a b ha hb hab h1 h2 h3 h4 h5 h6
    simp only [relationLabel]
    rw [if_neg (fun h => h.elim ha hb), if_neg hab, if_neg h1, if_neg h2,
      if_neg (show ¬(kGetSpouse S a = b ∨ kGetSpouse S b = a) from
        fun h => h.elim (fun hx => hb hx.symm) (fun hx => ha hx.symm)),
      if_neg h3, if_neg h4, if_neg h5, if_pos h6]
  · intro S a b ha hb hab h1 h2 h3 h4 h5 h6 h7
    simp only [relationLabel]
    rw [if_neg (fun h => h.elim ha hb), if_neg hab, if_neg h1, if_neg h2,
      if_neg (show ¬(kGetSpouse S a = b ∨ kGetSpouse S b = a) from
        fun h => h.elim (fun hx => hb hx.symm) (fun hx => ha hx.symm)),
      if_neg h3, if_neg h4, if_neg h5, if_neg h6, if_pos h7]
  · intro S a b ha hb hab h1 h2 h3 h4 h5 h6 h7 h8
    simp only [relationLabel]
    rw [if_neg (fun h => h.elim ha hb), if_neg hab, if_neg h1, if_neg h2,
      if_neg (show ¬(kGetSpouse S a = b ∨ kGetSpouse S b = a) from
        fun h => h.elim (fun hx => hb hx.symm) (fun hx => ha hx.symm)),
      if_neg h3, if_neg h4, if_neg h5, if_neg h6, if_neg h7, if_pos h8]
  · intro S a b ha hb hab h1 h2 h3 h4 h5 h6 h7 h8 h9
    simp only [relationLabel]
    rw [if_neg (fun h => h.elim ha hb), if_neg hab, if_neg h1, if_neg h2,
      if_neg (show ¬(kGetSpouse S a = b ∨ kGetSpouse S b = a) from
        fun h => h.elim (fun hx => hb hx.symm) (fun hx => ha hx.symm)),
      if_neg h3, if_neg h4, if_neg h5, if_neg h6, if_neg h7, if_neg h8,
      if_pos h9]
  · intro S a b ha hb hab h1 h2 h3 h4 h5 h6 h7 h8 h9
    simp only [relationLabel]
    rw [if_neg (fun h => h.elim ha hb), if_neg hab, if_neg h1, if_neg h2,
      if_neg (show ¬(kGetSpouse S a = b ∨ kGetSpouse S b = a) from
        fun h => h.elim (fun hx => hb hx.symm) (fun hx => ha hx.symm)),
      if_neg h3, if_neg h4, if_neg h5, if_neg h6, if_neg h7, if_neg h8,
      if_neg h9]

/-- C9, witness: the cascade at concrete stores — sibling label, empty-id
guard, identity, and the never-produced partner label for an actual
couple. -/
theorem c9_relation_label_order_witness :
    relationLabel wSibStore "S1" "S2" = "Hermano/a (completo)" ∧
    relationLabel wSibStore "" "S2" = "" ∧
    relationLabel wSibStore "S1" "S1" = "Misma persona" ∧
    relationLabel wCoupleStore "V1" "V2" ≠ "Cónyuge / Pareja" :=
  ⟨c9_relation_label_order.2.2.2.2.2.1 wSibStore "S1" "S2" (by decide) (by decide)
      (by decide) (by decide) (by decide) (by decide),
    c9_relation_label_order.1 wSibStore "" "S2" (Or.inl rfl),
    c9_relation_label_order.2.1 wSibStore "S1" (by decide),
    c9_relation_label_order.2.2.2.2.1 wCoupleStore "V1" "V2"⟩

/-! ## Claim C4 -/

/-- The fold underlying `_pick_oldest_alive` only reports members of the
store that are alive, with the accumulated age being the winner's age. -/
theorem oldestFold_witness (y : Int) (m : PMap) :
    ∀ (l : List (String × Persona)) (acc : Option String × Int),
      (∀ cp ∈ l, cp ∈ m) →
      (∀ s, acc.1 = some s → ∃ p, (s, p) ∈ m ∧ fIsDeadValue p.falle y = false ∧
        fComputedAge p y = acc.2) →
      ∀ s, (l.foldl (oldestStep y) acc).1 = some s →
        ∃ p, (s, p) ∈ m ∧ fIsDeadValue p.falle y = false ∧
          fComputedAge p y = (l.foldl (oldestStep y) acc).2 := by
  intro l
  induction l with
  | nil =>
    intro acc hsub hacc s hs
    exact hacc s hs
  | cons cp rest ih =>
    intro acc hsub hacc s hs
    rw [List.foldl_cons] at hs ⊢
    refine ih (oldestStep y acc cp)
      (fun c hc => hsub c (List.mem_cons_of_mem _ hc)) ?_ s hs
    intro s2 hs2
    by_cases hd : fIsDeadValue cp.2.falle y = true
    · have he : oldestStep y acc cp = acc := by simp [oldestStep, hd]
      rw [he] at hs2 ⊢
      exact hacc s2 hs2
    · have hd2 : fIsDeadValue cp.2.falle y = false := by
        cases hx : fIsDeadValue cp.2.falle y
        · rfl
        · exact absurd hx hd
      by_cases hgt : fComputedAge cp.2 y > acc.2
      · have he : oldestStep y acc cp = (some cp.1, fComputedAge cp.2 y) := by
          simp [oldestStep, hd2, hgt]
        rw [he] at hs2 ⊢
        injection hs2 with h2
        subst h2
        exact ⟨cp.2, hsub cp (List.mem_cons_self _ _), hd2, rfl⟩
      · have he : oldestStep y acc cp = acc := by simp [oldestStep, hd2, hgt]
        rw [he] at hs2 ⊢
        exact hacc s2 hs2

/-- The fold's accumulated age dominates every living member's age. -/
theorem oldestFold_max (y : Int) :
    ∀ (l : List (String × Persona)) (acc : Option String × Int),
      acc.2 ≤ (l.foldl (oldestStep y) acc).2 ∧
      ∀ cp ∈ l, fIsDeadValue cp.2.falle y = false →
        fComputedAge cp.2 y ≤ (l.foldl (oldestStep y) acc).2 := by
  intro l
  induction l with
  | nil =>
    intro acc
    exact ⟨le_refl _, fun cp hc hal => (List.not_mem_nil cp hc).elim⟩
  | cons cp rest ih =>
    intro acc
    rw [List.foldl_cons]
    rcases ih (oldestStep y acc cp) with ⟨h1, h2⟩
    constructor
    · refine le_trans ?_ h1
      by_cases hd : fIsDeadValue cp.2.falle y = true
      · have he : oldestStep y acc cp = acc := by simp [oldestStep, hd]
        rw [he]
      · have hd2 : fIsDeadValue cp.2.falle y = false := by
          cases hx : fIsDeadValue cp.2.falle y
          · rfl
          · exact absurd hx hd
        by_cases hgt : fComputedAge cp.2 y > acc.2
        · have he : oldestStep y acc cp = (some cp.1, fComputedAge cp.2 y) := by
            simp [oldestStep, hd2, hgt]
          rw [he]
          exact le_of_lt hgt
        · have he : oldestStep y acc cp = acc := by simp [oldestStep, hd2, hgt]
          rw [he]
    · intro c hc hal
      rcases List.mem_cons.1 hc with hceq | hc2
      · subst hceq
        refine le_trans ?_ h1
        by_cases hgt : fComputedAge c.2 y > acc.2
        · have he : oldestStep y acc c = (some c.1, fComputedAge c.2 y) := by
            simp [oldestStep, hal, hgt]
          rw [he]
        · have he : oldestStep y acc c = acc := by simp [oldestStep, hal, hgt]
          rw [he]
          exact not_lt.1 hgt
      · exact h2 c hc2 hal

/-- `_pick_oldest_alive` returns a living member of maximal computed
age. -/
theorem pickOldestAlive_spec {m : PMap} {y : Int} {oldest : String}
    (h : pickOldestAlive m y = some oldest) :
    ∃ p, (oldest, p) ∈ m ∧ fIsDeadValue p.falle y = false ∧
      ∀ cp ∈ m, fIsDeadValue cp.2.falle y = false →
        fComputedAge cp.2 y ≤ fComputedAge p y := by
  unfold pickOldestAlive at h
  obtain ⟨p, hpm, hal, hage⟩ := oldestFold_witness y m m ((none, -1))
    (fun c hc => hc) (by intro s hs; cases hs) oldest h
  refine ⟨p, hpm, hal, ?_⟩
  intro cp hcp hcpal
  rw [hage]
  exact (oldestFold_max y m ((none, -1))).2 cp hcp hcpal

/-- The tick's last-death-year marker in terms of its own events
(definitional). -/
theorem deathTick_marker (cfg : DCfg) (st : DState) (draw : String → Bool) :
    (deathTick cfg st draw).1.lastDeathYear =
      if (deathTick cfg st draw).2.isEmpty then st.lastDeathYear
      else some (st.anioSim + 1) := rfl

/-- C4: when phase 1 produced no hard-ceiling or probabilistic death and
the gap since the last death has matured (or no death ever happened), the
tick forces exactly one death of the person `_pick_oldest_alive` returns
— a living person of maximal computed age — with cause `"garantia"`; the
guarantee never fires on a tick that already produced a death; and the
last-death-year marker is set exactly on ticks producing at least one
death. -/
theorem c4_death_guarantee (cfg : DCfg) (st : DState) (draw : String → Bool) :
    (∀ (L : Int) (oldest : String),
      (deathPhase1 cfg (st.anioSim + 1) draw st.personas).2 = [] →
      st.lastDeathYear = some L → st.anioSim + 1 - L ≥ cfg.maxGapYears →
      pickOldestAlive (deathPhase1 cfg (st.anioSim + 1) draw st.personas).1
        (st.anioSim + 1) = some oldest →
      (deathTick cfg st draw).2 = [(oldest, "garantia")] ∧
      (deathTick cfg st draw).1.lastDeathYear = some (st.anioSim + 1)) ∧
    (∀ oldest : String,
      (deathPhase1 cfg (st.anioSim + 1) draw st.personas).2 = [] →
      st.lastDeathYear = none →
      pickOldestAlive (deathPhase1 cfg (st.anioSim + 1) draw st.personas).1
        (st.anioSim + 1) = some oldest →
      (deathTick cfg st draw).2 = [(oldest, "garantia")] ∧
      (deathTick cfg st draw).1.lastDeathYear = some (st.anioSim + 1)) ∧
    ((deathPhase1 cfg (st.anioSim + 1) draw st.personas).2 ≠ [] →
      (deathTick cfg st draw).2 =
        (deathPhase1 cfg (st.anioSim + 1) draw st.personas).2) ∧
    (((deathTick cfg st draw).2 = [] →
        (deathTick cfg st draw).1.lastDeathYear = st.lastDeathYear) ∧
      ((deathTick cfg st draw).2 ≠ [] →
        (deathTick cfg st draw).1.lastDeathYear = some (st.anioSim + 1))) ∧
    (∀ (m : PMap) (y : Int) (oldest : String), pickOldestAlive m y = some oldest →
      ∃ p, (oldest, p) ∈ m ∧ fIsDeadValue p.falle y = false ∧
        ∀ cp ∈ m, fIsDeadValue cp.2.falle y = false →
          fComputedAge cp.2 y ≤ fComputedAge p y) := by
  refine ⟨?_, ?_, ?_, ⟨?_, ?_⟩, fun m y oldest h => pickOldestAlive_spec h⟩
  · intro L oldest h1 hlast hmat hold
    have hgr : (match st.lastDeathYear with
        | none => true
        | some l => decide (st.anioSim + 1 - l ≥ cfg.maxGapYears)) = true := by
      rw [hlast]
      exact decide_eq_true hmat
    simp only [deathTick]
    rw [hgr, h1, hold]
    exact ⟨rfl, rfl⟩
  · intro oldest h1 hlast hold
    have hgr : (match st.lastDeathYear with
        | none => true
        | some l => decide (st.anioSim + 1 - l ≥ cfg.maxGapYears)) = true := by
      rw [hlast]
    simp only [deathTick]
    rw [hgr, h1, hold]
    exact ⟨rfl, rfl⟩
  · intro hne
    simp only [deathTick]
    cases hE : (deathPhase1 cfg (st.anioSim + 1) draw st.personas).2 with
    | nil => exact absurd hE hne
    | cons e es =>
      rw [if_neg (fun h => Bool.noConfusion h)]
      exact hE
  · intro hempty
    rw [deathTick_marker, hempty]
    rfl
  · intro hne
    rw [deathTick_marker]
    cases hev : (deathTick cfg st draw).2 with
    | nil => exact absurd hev hne
    | cons e es => rfl

/-- C4, witness: with nobody at the ceiling, all draws failing and a
matured gap, the tick forces exactly the death of the older of the two
singles and stamps the marker. -/
theorem c4_death_guarantee_witness :
    (deathTick { today := "2026-10-12" } wC4State (fun _ => false)).2 =
      [("B1", "garantia")] ∧
    (deathTick { today := "2026-10-12" } wC4State (fun _ => false)).1.lastDeathYear =
      some 2027 :=
  (c4_death_guarantee { today := "2026-10-12" } wC4State (fun _ => false)).1
    2020 "B1" (by decide) (by decide) (by decide) (by decide)

end Proyecto2
